import Mathlib

/-!
# Non-symmetric tree index calcer

A shallow embedding of `catboost/private/libs/algo/nonsymmetric_index_calcer.cpp`
and the properties of its routing / partitioning kernel.

Conventions of the embedding:

* `int` values are exact integers, wrapped to 32 bit two's complement after every
  arithmetic operation (`toInt32`); `ui32`, `ui16`, `ui8` values are naturals reduced
  modulo `2^32`, `2^16`, `2^8` at every conversion.
* raw pointers (`const ui32*`, the typed key pointer of a compressed array) are total
  functions from offsets to values: the source performs no bounds check on them.
* `TArrayRef` / `TVector` are lists; a write through an index outside the array is
  dropped (`List.set`), a read outside yields `0` (`List.getD`).
* `ExecRange` runs its block bodies in the order given by the executor's schedule; the
  bodies of one call touch disjoint cells, so a run of the thread pool corresponds to
  some order of the block ids.
* sizes (`size_t`) and block counts are exact naturals; the one narrowing of the source,
  `const ui32 docSize = docsSubset.size()`, is kept as a reduction modulo `2^32`.
* a loop without a static bound takes a `fuel` argument, one unit per iteration.
-/

namespace NCB

/-! ## Machine integers -/

/-- Wrap an exact integer to the value of a C++ `int` (32 bit, two's complement). -/
def toInt32 (x : Int) : Int := (x + 2147483648) % 4294967296 - 2147483648

/-- Convert an exact integer to `ui32`. -/
def toUi32 (x : Int) : Nat := (x % 4294967296).toNat

/-- Convert an exact integer to `ui16`. -/
def toUi16 (x : Int) : Nat := (x % 65536).toNat

/-- Convert an exact integer to `ui8`. -/
def toUi8 (x : Int) : Nat := (x % 256).toNat

/-- The operator `~` on `int`. -/
def not32 (x : Int) : Int := toInt32 (-x - 1)

/-- The operator `+` on `int`. -/
def add32 (x y : Int) : Int := toInt32 (x + y)

/-- The operator `-` on `int`. -/
def sub32 (x y : Int) : Int := toInt32 (x - y)

/-- The operator `*` on `int`, the left operand being a `bool` promoted to `int`. -/
def mulBool32 (b : Bool) (y : Int) : Int := toInt32 ((if b then 1 else 0) * y)

/-- The range of a C++ `int`. -/
def IsInt32 (x : Int) : Prop := -2147483648 ≤ x ∧ x < 2147483648

instance (x : Int) : Decidable (IsInt32 x) := by unfold IsInt32; infer_instance

/-! ## Errors and outcomes -/

/-- The failure classes of the spec (section 7). `UnsupportedEncoding` is what
`CB_ENSURE_INTERNAL(false, "... unsupported column type")` raises; `ContractViolation`
stands for an access the source leaves undefined (a null or out-of-range access). -/
inductive TError where
  | UnsupportedEncoding
  | ContractViolation
  deriving DecidableEq, Repr

/-- Result of a call that works on caller-owned state `σ`: the state after the call, and
whether the call returned or threw. -/
inductive TOutcome (σ : Type) where
  | returned (state : σ)
  | threw (e : TError) (state : σ)

/-! ## Data model -/

/-- Kinds of split (`ESplitType`). -/
inductive ESplitType where
  | FloatFeature
  | EstimatedFeature
  | OneHotFeature
  | OnlineCtr
  deriving DecidableEq, Repr

/-- The part of `TCtr` the calcer looks at: the projection key. -/
structure TCtr where
  Projection : Nat
  deriving DecidableEq, Repr

/-- Split descriptor (`TSplit`). `SplitType` is the field `Type`; `IsOnline` holds the
value of `TSplit::IsOnline()`, whose body is not part of this file. -/
structure TSplit where
  SplitType : ESplitType
  FeatureIdx : Int
  BinBorder : Int
  Ctr : TCtr
  IsOnline : Bool

/-- Tree node (`TSplitNode`): a split and two `int` child references. -/
structure TSplitNode where
  Split : TSplit
  Left : Int
  Right : Int

/-- Compressed array: the bit width of a key and the raw memory, read key by key. -/
structure TCompressedArray where
  BitsPerKey : Nat
  RawData : Nat → Nat

/-- Concrete storage behind a column interface: the compressed-values holder, or any
other implementation of the interface (for which the `dynamic_cast` yields null). -/
inductive TColumn where
  | TCompressedValuesHolderImpl (CompressedData : TCompressedArray)
  | OtherHolder (Values : Nat → Nat)

/-- Bounds of one feature inside an exclusive bundle. -/
structure TBoundsInBundle where
  Begin : Nat
  End : Nat
  deriving DecidableEq, Repr

/-- One part of an exclusive bundle. -/
structure TExclusiveBundlePart where
  Bounds : TBoundsInBundle

/-- Metadata of an exclusive bundle. -/
structure TExclusiveFeaturesBundle where
  Parts : List TExclusiveBundlePart

/-- Position of a feature in an exclusive bundle. -/
structure TExclusiveBundleIndex where
  BundleIdx : Nat
  InBundleIdx : Nat

/-- Position of a feature in a binary pack. -/
structure TPackedBinaryIndex where
  PackIdx : Nat
  BitIdx : Nat

/-- Position of a feature in a feature group. -/
structure TFeaturesGroupIndex where
  GroupIdx : Nat
  InGroupIdx : Nat

/-- The accessors of `TQuantizedForCPUObjectsDataProvider` the calcer calls. A
`TMaybeData` that is dereferenced is an `Option`. -/
structure TQuantizedForCPUObjectsDataProvider where
  GetExclusiveFeatureBundlesMetaData : List TExclusiveFeaturesBundle
  GetFloatFeatureToExclusiveBundleIndex : Nat → Option TExclusiveBundleIndex
  GetFloatFeatureToPackedBinaryIndex : Nat → Option TPackedBinaryIndex
  GetFloatFeatureToFeaturesGroupIndex : Nat → Option TFeaturesGroupIndex
  GetFloatFeature : Nat → Option TColumn
  GetCatFeatureToExclusiveBundleIndex : Nat → Option TExclusiveBundleIndex
  GetCatFeatureToPackedBinaryIndex : Nat → Option TPackedBinaryIndex
  GetCatFeatureToFeaturesGroupIndex : Nat → Option TFeaturesGroupIndex
  GetCatFeature : Nat → Option TColumn
  GetExclusiveFeaturesBundle : Nat → TColumn
  GetBinaryFeaturesPack : Nat → TColumn
  GetFeaturesGroup : Nat → TColumn

/-- Online statistic source (`TOnlineCtrBase`): `GetData ctr datasetIdx` is the pointer
to the per-row values of one statistic column. -/
structure TOnlineCtrBase where
  GetData : TCtr → Nat → Nat → Int

/-- The two bit-extraction helpers that live in other files of the repository, taken as
parameters of the predicate builder. -/
structure TDecoders where
  GetBinFromBundle : Nat → TBoundsInBundle → Nat
  GetPartValueFromGroup : Nat → Nat → Nat

/-! ## Split predicate builder -/

/-- Modelled from the spec: `IsTrueHistogram<ui16>` is not in this file; section 4.2
gives the float predicate as `extractedCode > binBorder`, both operands being `ui16`. -/
def IsTrueHistogram (bucket splitId : Nat) : Bool := decide (splitId < bucket)

/-- Modelled from the spec: `IsTrueOneHotFeature` is not in this file; section 4.2 gives
the one-hot predicate as `extractedCode == targetBucket`, both operands being `ui32`. -/
def IsTrueOneHotFeature (featureValue splitValue : Nat) : Bool :=
  decide (featureValue = splitValue)

/-- Modelled from the spec: `TCompressedArray::DispatchBitsPerKeyToDataType` is not in
this file; section 4.1 has it dispatch once on the physical bit width and fail with
UnsupportedEncoding when the storage cannot satisfy the dispatch. The recognised widths
are 8, 16 and 32 bit; the result is the typed key pointer. -/
def DispatchBitsPerKeyToDataType (a : TCompressedArray) : Except TError (Nat → Nat) :=
  if a.BitsPerKey = 8 then .ok (fun i => a.RawData i % 256)
  else if a.BitsPerKey = 16 then .ok (fun i => a.RawData i % 65536)
  else if a.BitsPerKey = 32 then .ok (fun i => a.RawData i % 4294967296)
  else .error TError.UnsupportedEncoding

/-- First overload of `BuildNodeSplitFunction` (lines 17-39): a column and a comparison. -/
def BuildNodeSplitFunctionColumn (column : TColumn) (cmpOp : Nat → Bool) :
    Except TError (Nat → Bool) :=
  match column with
  | .TCompressedValuesHolderImpl compressedArray =>
    match DispatchBitsPerKeyToDataType compressedArray with
    | .ok featureData => .ok (fun objIdx => cmpOp (featureData objIdx))
    | .error e => .error e
  | .OtherHolder _ => .error TError.UnsupportedEncoding

/-- Second overload of `BuildNodeSplitFunction` (lines 41-87): the sub-encoding
dispatch. The pack lambda takes a `TBinaryFeaturesPack` (`ui8`), the bundle lambda a
`ui16`, the group lambda the key as it is stored. -/
def BuildNodeSplitFunctionEncoded (dec : TDecoders)
    (maybeExclusiveBundleIndex : Option TExclusiveBundleIndex)
    (maybeBinaryIndex : Option TPackedBinaryIndex)
    (maybeFeaturesGroupIndex : Option TFeaturesGroupIndex)
    (exclusiveFeaturesBundlesMetaData : List TExclusiveFeaturesBundle)
    (column : TColumn)
    (getExclusiveFeaturesBundle getBinaryFeaturesPack getFeaturesGroup : Nat → TColumn)
    (cmpOp : Nat → Bool) : Except TError (Nat → Bool) :=
  match maybeBinaryIndex with
  | some binaryIndex =>
    let bitMask := (1 <<< binaryIndex.BitIdx) % 256
    let bitIdx := binaryIndex.BitIdx % 256
    BuildNodeSplitFunctionColumn (getBinaryFeaturesPack binaryIndex.PackIdx)
      (fun featuresPack => cmpOp (((featuresPack % 256) &&& bitMask) >>> bitIdx))
  | none =>
    match maybeExclusiveBundleIndex with
    | some bundleIndex =>
      match exclusiveFeaturesBundlesMetaData[bundleIndex.BundleIdx]? with
      | none => .error TError.ContractViolation
      | some bundle =>
        match bundle.Parts[bundleIndex.InBundleIdx]? with
        | none => .error TError.ContractViolation
        | some part =>
          let boundsInBundle := part.Bounds
          BuildNodeSplitFunctionColumn (getExclusiveFeaturesBundle bundleIndex.BundleIdx)
            (fun featuresBundle =>
              cmpOp (dec.GetBinFromBundle (featuresBundle % 65536) boundsInBundle % 65536))
    | none =>
      match maybeFeaturesGroupIndex with
      | some groupIndex =>
        let partIdx := groupIndex.InGroupIdx
        BuildNodeSplitFunctionColumn (getFeaturesGroup groupIndex.GroupIdx)
          (fun featuresGroupValue => cmpOp (dec.GetPartValueFromGroup featuresGroupValue partIdx))
      | none => BuildNodeSplitFunctionColumn column cmpOp

/-- Third overload of `BuildNodeSplitFunction` (lines 89-154): the predicate of a node.
The float lambda takes its bucket as `ui16` and compares it with the border converted
to `ui16`; the one-hot lambda takes its bucket as `ui32` and compares it with
`(ui32)split.BinBorder`. -/
def BuildNodeSplitFunction (dec : TDecoders) (node : TSplitNode)
    (objectsDataProvider : TQuantizedForCPUObjectsDataProvider)
    (onlineCtr : Option TOnlineCtrBase) (datasetIdx : Nat) : Except TError (Nat → Bool) :=
  let split := node.Split
  if split.SplitType = ESplitType.OnlineCtr then
    match onlineCtr with
    | none => .error TError.ContractViolation
    | some ctr =>
      let ctrValuesData := ctr.GetData split.Ctr datasetIdx
      let binBorder := split.BinBorder
      .ok (fun objIdx => decide (binBorder < ctrValuesData objIdx))
  else if split.SplitType = ESplitType.FloatFeature
      ∨ split.SplitType = ESplitType.EstimatedFeature then
    let floatFeatureIdx := toUi32 split.FeatureIdx
    match objectsDataProvider.GetFloatFeature (toUi32 split.FeatureIdx) with
    | none => .error TError.ContractViolation
    | some column =>
      BuildNodeSplitFunctionEncoded dec
        (objectsDataProvider.GetFloatFeatureToExclusiveBundleIndex floatFeatureIdx)
        (objectsDataProvider.GetFloatFeatureToPackedBinaryIndex floatFeatureIdx)
        (objectsDataProvider.GetFloatFeatureToFeaturesGroupIndex floatFeatureIdx)
        objectsDataProvider.GetExclusiveFeatureBundlesMetaData
        column
        objectsDataProvider.GetExclusiveFeaturesBundle
        objectsDataProvider.GetBinaryFeaturesPack
        objectsDataProvider.GetFeaturesGroup
        (fun bucket => IsTrueHistogram (bucket % 65536) (toUi16 split.BinBorder))
  else
    let catFeatureIdx := toUi32 split.FeatureIdx
    match objectsDataProvider.GetCatFeature (toUi32 split.FeatureIdx) with
    | none => .error TError.ContractViolation
    | some column =>
      BuildNodeSplitFunctionEncoded dec
        (objectsDataProvider.GetCatFeatureToExclusiveBundleIndex catFeatureIdx)
        (objectsDataProvider.GetCatFeatureToPackedBinaryIndex catFeatureIdx)
        (objectsDataProvider.GetCatFeatureToFeaturesGroupIndex catFeatureIdx)
        objectsDataProvider.GetExclusiveFeatureBundlesMetaData
        column
        objectsDataProvider.GetExclusiveFeaturesBundle
        objectsDataProvider.GetBinaryFeaturesPack
        objectsDataProvider.GetFeaturesGroup
        (fun bucket => IsTrueOneHotFeature (bucket % 4294967296) (toUi32 split.BinBorder))

/-! ## Ranges and the executor -/

/-- Modelled from the spec: `CeilDiv` (util) is not in this file; it is the ceiling of
the quotient, computed as `(x + y - 1) / y`. -/
def CeilDiv (x y : Nat) : Nat := (x + y - 1) / y

/-- Half-open index range (`TIndexRange`). -/
structure TIndexRange where
  Begin : Nat
  End : Nat
  deriving DecidableEq, Repr

/-- Number of indices of a range. -/
def TIndexRange.GetSize (r : TIndexRange) : Nat := r.End - r.Begin

/-- The indices of a range in increasing order. -/
def TIndexRange.Iter (r : TIndexRange) : List Nat := List.range' r.Begin (r.End - r.Begin)

/-- Modelled from the spec: `TSimpleIndexRangesGenerator` is not in this file; section
4.4 has it divide the range `[0, size)` into contiguous blocks of `blockSize` indices
(the last one possibly shorter). -/
structure TSimpleIndexRangesGenerator where
  FullSize : Nat
  BlockSize : Nat
  deriving DecidableEq, Repr

/-- Number of blocks. -/
def TSimpleIndexRangesGenerator.RangesCount (g : TSimpleIndexRangesGenerator) : Nat :=
  CeilDiv g.FullSize g.BlockSize

/-- Block number `idx`. -/
def TSimpleIndexRangesGenerator.GetRange (g : TSimpleIndexRangesGenerator) (idx : Nat) :
    TIndexRange :=
  { Begin := idx * g.BlockSize, End := min (idx * g.BlockSize + g.BlockSize) g.FullSize }

/-- The executor (`NPar::ILocalExecutor`): its thread count and, for the `call`-th
`ExecRange` of a function over `blockCount` blocks, the order in which the pool happens
to run the block ids. -/
structure ILocalExecutor where
  GetThreadCount : Nat
  Schedule : Nat → Nat → List Nat

/-- An executor runs every block of a range exactly once. -/
def ILocalExecutor.RunsEachBlockOnce (e : ILocalExecutor) : Prop :=
  ∀ call blockCount, (e.Schedule call blockCount).Perm (List.range blockCount)

/-- Modelled from the spec: `ExecRange(body, 0, blockCount, WAIT_COMPLETE)` runs the body
over the block ids `0 .. blockCount-1` and waits for all of them (section 6). -/
def ExecRange {σ : Type} (localExecutor : ILocalExecutor) (call : Nat)
    (body : Nat → σ → σ) (blockCount : Nat) (s : σ) : σ :=
  (localExecutor.Schedule call blockCount).foldl (fun st blockId => body blockId st) s

/-- What `GetObjectsDataAndIndexing` hands back: the objects data and the column
indexing pointer (`none` is `nullptr`). -/
structure TObjectsDataAndIndexing where
  objectsDataProvider : TQuantizedForCPUObjectsDataProvider
  columnsIndexing : Option (Nat → Nat)

/-- The function `GetObjectsDataAndIndexing` applied to the training data and the fold;
it is not in this file and taken as a parameter. Its arguments are `isEstimated`,
`isOnline` and `objectSubsetIdx`. -/
abbrev TGetObjectsDataAndIndexing := Bool → Bool → Nat → TObjectsDataAndIndexing

/-- The accessors of `TFold` the calcer calls, keyed by projection. -/
structure TFold where
  GetCtrs : Nat → TOnlineCtrBase
  GetCtr : Nat → TOnlineCtrBase

/-! ## Single-split index updater -/

/-- The value `(~node.Left) + split * ((~node.Right) - (~node.Left))` stored into a
`TIndexType` (`ui32`) cell. -/
def ChildAssignment (node : TSplitNode) (split : Bool) : Nat :=
  toUi32 (add32 (not32 node.Left)
    (mulBool32 split (sub32 (not32 node.Right) (not32 node.Left))))

/-- The index remapper (lines 187-194 and 245-252). -/
def RemapSplitFunction (columnsIndexing : Option (Nat → Nat)) (func : Nat → Bool) :
    Nat → Bool :=
  match columnsIndexing with
  | none => func
  | some realObjIdx => fun idx => func (realObjIdx idx)

/-- Body of the `ExecRange` of `UpdateIndices` (lines 201-206). The row id passes through
`const int objIdx` on its way to the predicate. -/
def UpdateIndicesBlock (node : TSplitNode) (splitFunction : Nat → Bool)
    (docsSubsetRef : List Nat) (rangesGenerator : TSimpleIndexRangesGenerator)
    (blockId : Nat) (indicesRef : List Nat) : List Nat :=
  (rangesGenerator.GetRange blockId).Iter.foldl
    (fun indices idx =>
      let objIdx : Int := toInt32 (docsSubsetRef.getD idx 0)
      indices.set (docsSubsetRef.getD idx 0)
        (ChildAssignment node (splitFunction (toUi32 objIdx))))
    indicesRef

/-- The function `UpdateIndices` (lines 157-211). -/
def UpdateIndices (dec : TDecoders) (getObjectsDataAndIndexing : TGetObjectsDataAndIndexing)
    (node : TSplitNode) (docsSubset : List Nat) (fold : TFold)
    (localExecutor : ILocalExecutor) (indicesRef : List Nat) : TOutcome (List Nat) :=
  let data := getObjectsDataAndIndexing
    (decide (node.Split.SplitType = ESplitType.EstimatedFeature)) node.Split.IsOnline 0
  match BuildNodeSplitFunction dec node data.objectsDataProvider
      (if node.Split.SplitType = ESplitType.OnlineCtr
        then some (fold.GetCtrs node.Split.Ctr.Projection) else none) 0 with
  | .error e => .threw e indicesRef
  | .ok func =>
    let splitFunction := RemapSplitFunction data.columnsIndexing func
    let blockSize := max (CeilDiv docsSubset.length (localExecutor.GetThreadCount + 1)) 1000
    let rangesGenerator : TSimpleIndexRangesGenerator :=
      { FullSize := docsSubset.length, BlockSize := blockSize }
    let blockCount := rangesGenerator.RangesCount
    .returned (ExecRange localExecutor 0
      (UpdateIndicesBlock node splitFunction docsSubset rangesGenerator) blockCount indicesRef)

/-- The arrays shared by the blocks of the first pass of `UpdateIndicesWithSplit`. -/
structure TSplitBuffers where
  indicesRef : List Nat
  nLefts : List Nat
  nRights : List Nat
  localLefts : List (List Nat)
  localRights : List (List Nat)

/-- The locals of one block of the first pass. -/
structure TBlockLocals where
  indicesRef : List Nat
  leftBuf : List Nat
  rightBuf : List Nat
  nLeft : Nat
  nRight : Nat

/-- The method `TVector<ui32>::resize`: keep a prefix, pad with zeros. -/
def resize (v : List Nat) (n : Nat) : List Nat := v.take n ++ List.replicate (n - v.length) 0

/-- One iteration of the row loop of the first pass (lines 272-283). -/
def PartitionStep (node : TSplitNode) (splitFunction : Nat → Bool) (docsSubsetLocal : List Nat)
    (s : TBlockLocals) (idx : Nat) : TBlockLocals :=
  let objIdx := docsSubsetLocal.getD idx 0
  let split := splitFunction objIdx
  let indices := s.indicesRef.set objIdx (ChildAssignment node split)
  if split then
    { s with indicesRef := indices, rightBuf := s.rightBuf.set s.nRight objIdx,
             nRight := s.nRight + 1 }
  else
    { s with indicesRef := indices, leftBuf := s.leftBuf.set s.nLeft objIdx,
             nLeft := s.nLeft + 1 }

/-- Body of the first `ExecRange` of `UpdateIndicesWithSplit` (lines 262-286). -/
def PartitionBlock (node : TSplitNode) (splitFunction : Nat → Bool) (docsSubsetPtr : List Nat)
    (rangesGenerator : TSimpleIndexRangesGenerator) (blockId : Nat) (s : TSplitBuffers) :
    TSplitBuffers :=
  let range := rangesGenerator.GetRange blockId
  let rangeSize := range.GetSize
  let locals := range.Iter.foldl (PartitionStep node splitFunction docsSubsetPtr)
    { indicesRef := s.indicesRef,
      leftBuf := resize (s.localLefts.getD blockId []) rangeSize,
      rightBuf := resize (s.localRights.getD blockId []) rangeSize,
      nLeft := 0, nRight := 0 }
  { indicesRef := locals.indicesRef,
    nLefts := s.nLefts.set (blockId + 1) locals.nLeft,
    nRights := s.nRights.set (blockId + 1) locals.nRight,
    localLefts := s.localLefts.set blockId locals.leftBuf,
    localRights := s.localRights.set blockId locals.rightBuf }

/-- The prefix-sum loop (lines 294-297) on one of the two count vectors. -/
def PrefixSums (blockCount : Nat) (counts : List Nat) : List Nat :=
  (List.range' 1 blockCount).foldl
    (fun c i => c.set i (c.getD i 0 + c.getD (i - 1) 0)) counts

/-- One of the two copy loops of the second pass (lines 315-320). -/
def CopyLocal (starts : List Nat) (locals : List (List Nat)) (blockId : Nat)
    (out : List Nat) : List Nat :=
  let start := starts.getD blockId 0
  let size := starts.getD (blockId + 1) 0 - start
  let localPtr := locals.getD blockId []
  (List.range size).foldl (fun o j => o.set (start + j) (localPtr.getD j 0)) out

/-- Body of the second `ExecRange` of `UpdateIndicesWithSplit` (lines 308-321), on the
pair of output arrays. -/
def ScatterBlock (s : TSplitBuffers) (blockId : Nat) (out : List Nat × List Nat) :
    List Nat × List Nat :=
  (CopyLocal s.nLefts s.localLefts blockId out.1, CopyLocal s.nRights s.localRights blockId out.2)

/-- The expression `new ui32[n]`: `n` cells of unspecified content. -/
def NewArray (content : Nat → Nat) (n : Nat) : List Nat := (List.range n).map content

/-- The caller-owned state of `UpdateIndicesWithSplit`. -/
structure TSplitResult where
  indicesRef : List Nat
  leftIndeces : List Nat
  rightIndeces : List Nat

/-- The function `UpdateIndicesWithSplit` (lines 213-326). `docSize` is a `ui32`;
`fresh k` is the content of the `k`-th array obtained from `new`. -/
def UpdateIndicesWithSplit (dec : TDecoders)
    (getObjectsDataAndIndexing : TGetObjectsDataAndIndexing) (fresh : Nat → Nat → Nat)
    (node : TSplitNode) (docsSubset : List Nat) (fold : TFold)
    (localExecutor : ILocalExecutor) (indicesRef leftIndeces rightIndeces : List Nat) :
    TOutcome TSplitResult :=
  let docSize := docsSubset.length % 4294967296
  let data := getObjectsDataAndIndexing
    (decide (node.Split.SplitType = ESplitType.EstimatedFeature)) node.Split.IsOnline 0
  match BuildNodeSplitFunction dec node data.objectsDataProvider
      (if node.Split.SplitType = ESplitType.OnlineCtr
        then some (fold.GetCtr node.Split.Ctr.Projection) else none) 0 with
  | .error e =>
    .threw e { indicesRef := indicesRef, leftIndeces := leftIndeces,
               rightIndeces := rightIndeces }
  | .ok func =>
    let splitFunction := RemapSplitFunction data.columnsIndexing func
    let blockSize := max (CeilDiv docSize (localExecutor.GetThreadCount + 1)) 1000
    let rangesGenerator : TSimpleIndexRangesGenerator :=
      { FullSize := docSize, BlockSize := blockSize }
    let blockCount := rangesGenerator.RangesCount
    let pass1 := ExecRange localExecutor 0
      (PartitionBlock node splitFunction docsSubset rangesGenerator) blockCount
      { indicesRef := indicesRef,
        nLefts := List.replicate (blockCount + 1) 0,
        nRights := List.replicate (blockCount + 1) 0,
        localLefts := List.replicate blockCount [],
        localRights := List.replicate blockCount [] }
    let sums : TSplitBuffers :=
      { pass1 with nLefts := PrefixSums blockCount pass1.nLefts,
                   nRights := PrefixSums blockCount pass1.nRights }
    let nLeft := sums.nLefts.getD blockCount 0
    let nRight := sums.nRights.getD blockCount 0
    let out := ExecRange localExecutor 1 (ScatterBlock sums) blockCount
      (NewArray (fresh 0) nLeft, NewArray (fresh 1) nRight)
    .returned { indicesRef := sums.indicesRef, leftIndeces := out.1, rightIndeces := out.2 }

/-! ## Full-tree router -/

/-- Non-symmetric tree (`TNonSymmetricTreeStructure`): the node array and the value of
`GetRoot()`. -/
structure TNonSymmetricTreeStructure where
  Nodes : List TSplitNode
  Root : Int

/-- Number of nodes of the tree. -/
def TNonSymmetricTreeStructure.GetNodesCount (tree : TNonSymmetricTreeStructure) : Nat :=
  tree.Nodes.length

/-- One iteration of the predicate-building loop (lines 348-372): the routing predicate
of node `nodeIdx`. -/
def BuildNodeRoutingFunction (dec : TDecoders)
    (getObjectsDataAndIndexing : TGetObjectsDataAndIndexing) (nodesRef : List TSplitNode)
    (onlineCtrs : List (Option TOnlineCtrBase)) (objectSubsetIdx : Nat) (nodeIdx : Nat) :
    Except TError (Nat → Bool) :=
  match nodesRef[nodeIdx]?, onlineCtrs[nodeIdx]? with
  | some node, some onlineCtr =>
    let data := getObjectsDataAndIndexing
      (decide (node.Split.SplitType = ESplitType.EstimatedFeature)) node.Split.IsOnline
      objectSubsetIdx
    match BuildNodeSplitFunction dec node data.objectsDataProvider onlineCtr objectSubsetIdx with
    | .error e => .error e
    | .ok func =>
      if node.Split.SplitType = ESplitType.OnlineCtr then .ok func
      else
        match data.columnsIndexing with
        | none => .ok func
        | some realObjIdx => .ok (fun idx => func (realObjIdx idx))
  | _, _ => .error TError.ContractViolation

/-- The predicate-building loop over the node indices `nodeIdxs` (lines 347-373): the
first failure leaves the loop. -/
def BuildNodesSplitFunctions (dec : TDecoders)
    (getObjectsDataAndIndexing : TGetObjectsDataAndIndexing) (nodesRef : List TSplitNode)
    (onlineCtrs : List (Option TOnlineCtrBase)) (objectSubsetIdx : Nat) :
    List Nat → Except TError (List (Nat → Bool))
  | [] => .ok []
  | nodeIdx :: rest =>
    match BuildNodeRoutingFunction dec getObjectsDataAndIndexing nodesRef onlineCtrs
        objectSubsetIdx nodeIdx with
    | .error e => .error e
    | .ok f =>
      match BuildNodesSplitFunctions dec getObjectsDataAndIndexing nodesRef onlineCtrs
          objectSubsetIdx rest with
      | .error e => .error e
      | .ok fs => .ok (f :: fs)

/-- How the routing loop of one row ends: at a negative node index, at an access outside
the node array, or not within the given number of iterations. -/
inductive TRouteResult where
  | finished (nodeIdx : Int)
  | outOfRange
  | outOfFuel
  deriving DecidableEq, Repr

/-- The loop `while (nodeIdx >= 0)` of lines 382-386 for row `idx`, cut off after `fuel`
iterations: every visit of a node uses one unit of fuel. -/
def RouteRow (nodesRef : List TSplitNode) (nodesSplitFunctionsRef : List (Nat → Bool))
    (idx : Nat) : Nat → Int → TRouteResult
  | 0, nodeIdx => if 0 ≤ nodeIdx then .outOfFuel else .finished nodeIdx
  | fuel + 1, nodeIdx =>
    if 0 ≤ nodeIdx then
      match nodesRef[nodeIdx.toNat]?, nodesSplitFunctionsRef[nodeIdx.toNat]? with
      | some node, some splitFunction =>
        RouteRow nodesRef nodesSplitFunctionsRef idx fuel
          (add32 node.Left (mulBool32 (splitFunction idx) (sub32 node.Right node.Left)))
      | _, _ => .outOfRange
    else .finished nodeIdx

/-- Body of the `ExecRange` of `BuildIndicesForDataset` for one row (lines 381-388), on a
run that may already have stopped. `none` is a run that has not ended within the fuel. -/
def RouteRowInto (nodesRef : List TSplitNode) (nodesSplitFunctionsRef : List (Nat → Bool))
    (fuel : Nat) (root : Int) (st : Option (TOutcome (Nat → Nat))) (idx : Nat) :
    Option (TOutcome (Nat → Nat)) :=
  match st with
  | some (.returned indicesRef) =>
    match RouteRow nodesRef nodesSplitFunctionsRef idx fuel root with
    | .finished nodeIdx =>
      some (.returned (Function.update indicesRef idx (toUi32 (not32 nodeIdx))))
    | .outOfRange => some (.threw TError.ContractViolation indicesRef)
    | .outOfFuel => none
  | other => other

/-- Modelled from the spec: `TExecRangeParams::SetBlockCount` is not in this file;
section 4.5 has the rows `[0, sampleCount)` split into `blockCount` contiguous blocks. -/
def SetBlockCount (sampleCount blockCount : Nat) : TSimpleIndexRangesGenerator :=
  { FullSize := sampleCount, BlockSize := CeilDiv sampleCount blockCount }

/-- The function `BuildIndicesForDataset` (lines 331-391). `indices` is a raw pointer;
`fuel` bounds the iterations of each routing loop. -/
def BuildIndicesForDataset (dec : TDecoders)
    (getObjectsDataAndIndexing : TGetObjectsDataAndIndexing)
    (tree : TNonSymmetricTreeStructure) (sampleCount : Nat)
    (onlineCtrs : List (Option TOnlineCtrBase)) (objectSubsetIdx : Nat)
    (localExecutor : ILocalExecutor) (fuel : Nat) (indices : Nat → Nat) :
    Option (TOutcome (Nat → Nat)) :=
  let nodesRef := tree.Nodes
  match BuildNodesSplitFunctions dec getObjectsDataAndIndexing nodesRef onlineCtrs
      objectSubsetIdx (List.range tree.GetNodesCount) with
  | .error e => some (.threw e indices)
  | .ok nodesSplitFunctions =>
    let params := SetBlockCount sampleCount (localExecutor.GetThreadCount + 1)
    ExecRange localExecutor 0
      (fun blockId st =>
        (params.GetRange blockId).Iter.foldl
          (RouteRowInto nodesRef nodesSplitFunctions fuel tree.Root) st)
      params.RangesCount (some (.returned indices))

/-! ## The reference descent of the spec -/

/-- The explicit tagged child reference of the design notes (section 9). -/
inductive TChildRef where
  | Node (index : Nat)
  | Leaf (index : Nat)
  deriving DecidableEq, Repr

/-- Reading of an `int` child field as a tagged reference: a child `c >= 0` is
`Node c`, a child `c < 0` is `Leaf (~c)`. -/
def ToChildRef (c : Int) : TChildRef :=
  if 0 ≤ c then .Node c.toNat else .Leaf (-c - 1).toNat

/-- The reference recursion of the spec over tagged references: at a node go to the right
child when the node's predicate holds on the row and to the left child otherwise, stop at
the first leaf. `none` when `fuel` steps do not reach a leaf or a node does not exist. -/
def ReferenceDescent (nodes : List TSplitNode) (predicates : List (Nat → Bool)) (idx : Nat) :
    Nat → TChildRef → Option Nat
  | _, .Leaf leaf => some leaf
  | 0, .Node _ => none
  | fuel + 1, .Node n =>
    match nodes[n]?, predicates[n]? with
    | some node, some predicate =>
      ReferenceDescent nodes predicates idx fuel
        (ToChildRef (if predicate idx then node.Right else node.Left))
    | _, _ => none

/-! ## Auxiliary notions for the statements -/

/-- The state a call leaves behind. -/
def TOutcome.state {σ : Type} : TOutcome σ → σ
  | .returned s => s
  | .threw _ s => s

/-- Whether a call returned normally. -/
def TOutcome.isReturned {σ : Type} : TOutcome σ → Bool
  | .returned _ => true
  | .threw _ _ => false

/-- The error a call threw, if any. -/
def TOutcome.error? {σ : Type} : TOutcome σ → Option TError
  | .returned _ => none
  | .threw e _ => some e

/-- Node `c` is a child of node `n`: a non-negative child field of `n` holds `c`. -/
def IsChildNode (nodes : List TSplitNode) (n c : Nat) : Prop :=
  ∃ node, nodes[n]? = some node ∧ ((c : Int) = node.Left ∨ (c : Int) = node.Right)

/-- No node is its own descendant. -/
def Acyclic (nodes : List TSplitNode) : Prop :=
  ∀ n, ¬ Relation.TransGen (IsChildNode nodes) n n

/-- The child fields are `int` values and every non-negative one is a node index. -/
def ValidChildren (nodes : List TSplitNode) : Prop :=
  ∀ node ∈ nodes, IsInt32 node.Left ∧ IsInt32 node.Right ∧
    node.Left < nodes.length ∧ node.Right < nodes.length

/-- The root is a node of the tree. -/
def ValidRoot (tree : TNonSymmetricTreeStructure) : Prop :=
  0 ≤ tree.Root ∧ tree.Root < tree.Nodes.length


/-- The row ids handled by block `blockId`, in order. -/
def BlockRows (docs : List Nat) (g : TSimpleIndexRangesGenerator) (blockId : Nat) : List Nat :=
  (g.GetRange blockId).Iter.map (fun i => docs.getD i 0)

/-- The concatenation of the first `k` members of a family of lists. -/
def ConcatParts (parts : Nat → List Nat) (k : Nat) : List Nat := (List.range k).flatMap parts

/-- What a finished run of the router left in cell `idx`; `none` when the run threw or
did not end within the fuel. -/
def StoredIndex (r : Option (TOutcome (Nat → Nat))) (idx : Nat) : Option Nat :=
  match r with
  | some (.returned indices) => some (indices idx)
  | _ => none

/-- Value of a built predicate at a row; `none` when building failed. -/
def PredicateAt (r : Except TError (Nat → Bool)) (i : Nat) : Option Bool :=
  match r with
  | .ok f => some (f i)
  | .error _ => none

/-- The error of a failed build, if any. -/
def BuildError (r : Except TError (Nat → Bool)) : Option TError :=
  match r with
  | .ok _ => none
  | .error e => some e

/-- Modelled from the spec: the Column Value Extractor of section 4.1 for a plainly stored
column, the code of row `i` read at the bit width of the column; `none` for a column whose
storage cannot be decoded. -/
def ExtractedCode (column : TColumn) (i : Nat) : Option Nat :=
  match column with
  | .TCompressedValuesHolderImpl compressedArray =>
    match DispatchBitsPerKeyToDataType compressedArray with
    | .ok featureData => some (featureData i)
    | .error _ => none
  | .OtherHolder _ => none

/-- The bit widths `DispatchBitsPerKeyToDataType` recognises. -/
def RecognisedBitsPerKey (bits : Nat) : Prop := bits = 8 ∨ bits = 16 ∨ bits = 32

/-- A column the predicate builder can decode: the compressed-values holder with a
recognised bit width. -/
def IsDecodable (column : TColumn) : Prop :=
  match column with
  | .TCompressedValuesHolderImpl compressedArray => RecognisedBitsPerKey compressedArray.BitsPerKey
  | .OtherHolder _ => False

/-- The row ranges of the two single-split updates for `size` rows and `threadCount`
worker threads (lines 196-197 and 253-254). -/
def SingleSplitRanges (size threadCount : Nat) : TSimpleIndexRangesGenerator :=
  { FullSize := size, BlockSize := max (CeilDiv size (threadCount + 1)) 1000 }

/-- The shared arrays of `UpdateIndicesWithSplit` after the first pass and the prefix-sum
loop (lines 253-297), for the remapped predicate `splitFunction`. -/
def BuffersAfterPrefixSums (node : TSplitNode) (splitFunction : Nat → Bool)
    (docsSubset : List Nat) (localExecutor : ILocalExecutor) (indicesRef : List Nat) :
    TSplitBuffers :=
  let docSize := docsSubset.length % 4294967296
  let rangesGenerator := SingleSplitRanges docSize localExecutor.GetThreadCount
  let blockCount := rangesGenerator.RangesCount
  let pass1 := ExecRange localExecutor 0
    (PartitionBlock node splitFunction docsSubset rangesGenerator) blockCount
    { indicesRef := indicesRef,
      nLefts := List.replicate (blockCount + 1) 0,
      nRights := List.replicate (blockCount + 1) 0,
      localLefts := List.replicate blockCount [],
      localRights := List.replicate blockCount [] }
  { pass1 with nLefts := PrefixSums blockCount pass1.nLefts,
               nRights := PrefixSums blockCount pass1.nRights }

/-- The cells of an output array that block `blockId` writes in the second pass (lines
309-320): `start`, `start + 1`, ... up to the start of the next block. -/
def CopyLocalWrites (starts : List Nat) (blockId : Nat) : List Nat :=
  (List.range (starts.getD (blockId + 1) 0 - starts.getD blockId 0)).map
    (fun j => starts.getD blockId 0 + j)

/-- The value the binary-pack lambda of lines 60-66 hands to the comparison:
`(featuresPack & bitMask) >> bitIdx` with `bitMask = TBinaryFeaturesPack(1) << BitIdx`, the
pack word, the mask and the bit index being `ui8` values. -/
def ExtractBinaryFeature (featuresPack bitIdxField : Nat) : Nat :=
  ((featuresPack % 256) &&& ((1 <<< bitIdxField) % 256)) >>> (bitIdxField % 256)

/-- Modelled from the spec: `GetBinFromBundle` is not in this file; the scenario of
section 8 has a feature with the bounds `[Begin, End)` inside a packed word decode to the
slice of the bits `Begin .. End - 1` of the word. -/
def GetBinFromBundle (bundle : Nat) (bounds : TBoundsInBundle) : Nat :=
  (bundle >>> bounds.Begin) % 2 ^ (bounds.End - bounds.Begin)

/-! ## Example data -/

/-- Decoders used in the examples: both pass the stored word through. -/
def exampleDecoders : TDecoders :=
  { GetBinFromBundle := fun bundle _ => bundle, GetPartValueFromGroup := fun v _ => v }

/-- A data provider with the given plain float column and the given plain categorical
column, and no bundles, packs or groups. -/
def exampleProvider (floatColumn catColumn : TColumn) : TQuantizedForCPUObjectsDataProvider :=
  { GetExclusiveFeatureBundlesMetaData := [],
    GetFloatFeatureToExclusiveBundleIndex := fun _ => none,
    GetFloatFeatureToPackedBinaryIndex := fun _ => none,
    GetFloatFeatureToFeaturesGroupIndex := fun _ => none,
    GetFloatFeature := fun _ => some floatColumn,
    GetCatFeatureToExclusiveBundleIndex := fun _ => none,
    GetCatFeatureToPackedBinaryIndex := fun _ => none,
    GetCatFeatureToFeaturesGroupIndex := fun _ => none,
    GetCatFeature := fun _ => some catColumn,
    GetExclusiveFeaturesBundle := fun _ => .OtherHolder (fun _ => 0),
    GetBinaryFeaturesPack := fun _ => .OtherHolder (fun _ => 0),
    GetFeaturesGroup := fun _ => .OtherHolder (fun _ => 0) }

/-- A compressed column of the given bit width holding the listed codes. -/
def exampleColumn (bits : Nat) (codes : List Nat) : TColumn :=
  .TCompressedValuesHolderImpl { BitsPerKey := bits, RawData := fun i => codes.getD i 0 }

/-- An executor with three threads that runs the blocks of every call in decreasing order
of block id. -/
def exampleExecutor : ILocalExecutor :=
  { GetThreadCount := 3, Schedule := fun _ blockCount => (List.range blockCount).reverse }

/-- A statistic source whose column holds `1` at rows 11 and 13 and `0` elsewhere. -/
def exampleCtr : TOnlineCtrBase :=
  { GetData := fun _ _ i => if i = 11 ∨ i = 13 then 1 else 0 }

/-- A fold whose statistic sources are all `exampleCtr`. -/
def exampleFold : TFold := { GetCtrs := fun _ => exampleCtr, GetCtr := fun _ => exampleCtr }

/-- A node splitting on an online statistic with border `0`; its children are the leaves
`2` and `3`. -/
def exampleOnlineNode : TSplitNode :=
  { Split := { SplitType := .OnlineCtr, FeatureIdx := 0, BinBorder := 0,
               Ctr := { Projection := 0 }, IsOnline := true },
    Left := -3, Right := -4 }

/-- Objects data without column indexing. -/
def exampleData : TGetObjectsDataAndIndexing :=
  fun _ _ _ =>
    { objectsDataProvider := exampleProvider (exampleColumn 8 []) (exampleColumn 8 []),
      columnsIndexing := none }

/-- Objects data whose column indexing sends row `r` to row `r + 1`. -/
def exampleDataShifted : TGetObjectsDataAndIndexing :=
  fun _ _ _ =>
    { objectsDataProvider := exampleProvider (exampleColumn 8 []) (exampleColumn 8 []),
      columnsIndexing := some (fun r => r + 1) }

/-- A node splitting float feature 0 at border `2`; its children are the leaves `0` (left)
and `1` (right). -/
def exampleFloatNode : TSplitNode :=
  { Split := { SplitType := .FloatFeature, FeatureIdx := 0, BinBorder := 2,
               Ctr := { Projection := 0 }, IsOnline := false },
    Left := -1, Right := -2 }

/-- The tree of the routing scenario: the single node `exampleFloatNode` as root. -/
def exampleTree : TNonSymmetricTreeStructure := { Nodes := [exampleFloatNode], Root := 0 }

/-- Objects data of the routing scenario: float feature 0 is a plain 8-bit column with the
codes `[1, 3, 2, 5]`; no column indexing. -/
def exampleRoutingData : TGetObjectsDataAndIndexing :=
  fun _ _ _ =>
    { objectsDataProvider := exampleProvider (exampleColumn 8 [1, 3, 2, 5]) (exampleColumn 8 []),
      columnsIndexing := none }

/-- The predicate of `exampleFloatNode` over `exampleRoutingData`: code greater than 2. -/
def exampleRoutingPredicate : Nat → Bool :=
  fun objIdx => decide (2 < [1, 3, 2, 5].getD objIdx 0 % 256 % 65536)

/-- A node splitting float feature 0 at the given border, with leaves `0` and `1`. -/
def exampleFloatNodeAt (border : Int) : TSplitNode :=
  { Split := { SplitType := .FloatFeature, FeatureIdx := 0, BinBorder := border,
               Ctr := { Projection := 0 }, IsOnline := false },
    Left := -1, Right := -2 }

/-- A node matching categorical feature 0 against the given bucket, with leaves `0` and
`1`. -/
def exampleOneHotNodeAt (bucket : Int) : TSplitNode :=
  { Split := { SplitType := .OneHotFeature, FeatureIdx := 0, BinBorder := bucket,
               Ctr := { Projection := 0 }, IsOnline := false },
    Left := -1, Right := -2 }

/-- An executor with no worker thread that runs the blocks of every call in increasing
order of block id. -/
def exampleSerialExecutor : ILocalExecutor :=
  { GetThreadCount := 0, Schedule := fun _ blockCount => List.range blockCount }

/-- Decoders whose bundle decoder is the bit slice of the spec scenario. -/
def sliceDecoders : TDecoders :=
  { GetBinFromBundle := GetBinFromBundle, GetPartValueFromGroup := fun v _ => v }

/-- A data provider whose float and categorical features all carry the given sub-encoding
descriptors and the given own column. The one bundle has the parts `[0, 4)` and `[4, 7)`;
the bundle, pack and group columns all hold the words `0b0101_0011` and `0b0000_0100`. -/
def exampleEncodedProvider (bundle : Option TExclusiveBundleIndex)
    (binary : Option TPackedBinaryIndex) (group : Option TFeaturesGroupIndex)
    (ownColumn : TColumn) : TQuantizedForCPUObjectsDataProvider :=
  { GetExclusiveFeatureBundlesMetaData :=
      [{ Parts := [{ Bounds := { Begin := 0, End := 4 } }, { Bounds := { Begin := 4, End := 7 } }] }],
    GetFloatFeatureToExclusiveBundleIndex := fun _ => bundle,
    GetFloatFeatureToPackedBinaryIndex := fun _ => binary,
    GetFloatFeatureToFeaturesGroupIndex := fun _ => group,
    GetFloatFeature := fun _ => some ownColumn,
    GetCatFeatureToExclusiveBundleIndex := fun _ => bundle,
    GetCatFeatureToPackedBinaryIndex := fun _ => binary,
    GetCatFeatureToFeaturesGroupIndex := fun _ => group,
    GetCatFeature := fun _ => some ownColumn,
    GetExclusiveFeaturesBundle := fun _ => exampleColumn 16 [83, 4],
    GetBinaryFeaturesPack := fun _ => exampleColumn 8 [83, 4],
    GetFeaturesGroup := fun _ => exampleColumn 32 [83, 4] }

/-- Objects data whose float feature 0 is stored in a holder the predicate builder cannot
decode. -/
def exampleUnsupportedData : TGetObjectsDataAndIndexing :=
  fun _ _ _ =>
    { objectsDataProvider := exampleProvider (.OtherHolder (fun _ => 0)) (exampleColumn 8 []),
      columnsIndexing := none }

/-! ## Machine arithmetic -/

theorem toUi32_toInt32 (x : Int) : toUi32 (toInt32 x) = toUi32 x := by
  unfold toUi32 toInt32
  congr 1
  omega

theorem toUi32_natCast (x : Nat) (h : x < 4294967296) : toUi32 (x : Int) = x := by
  unfold toUi32
  omega

theorem toInt32_of_isInt32 (x : Int) (h : IsInt32 x) : toInt32 x = x := by
  unfold IsInt32 at h
  unfold toInt32
  omega

theorem ChildAssignment_false (node : TSplitNode) :
    ChildAssignment node false = toUi32 (not32 node.Left) := by
  unfold ChildAssignment add32 mulBool32 sub32 not32 toUi32 toInt32
  congr 1
  simp only [Bool.false_eq_true, if_false]
  omega

theorem ChildAssignment_true (node : TSplitNode) :
    ChildAssignment node true = toUi32 (not32 node.Right) := by
  unfold ChildAssignment add32 mulBool32 sub32 not32 toUi32 toInt32
  congr 1
  simp only [if_true]
  omega
/-! ## Writes through row ids -/

theorem foldl_set_length (v : Nat → Nat) (rows : List Nat) (init : List Nat) :
    (rows.foldl (fun a r => a.set r (v r)) init).length = init.length := by
  induction rows generalizing init with
  | nil => rfl
  | cons r rs ih => simp [List.foldl_cons, ih]

theorem foldl_set_getElem? (v : Nat → Nat) (rows : List Nat) (init : List Nat) (k : Nat) :
    (rows.foldl (fun a r => a.set r (v r)) init)[k]? =
      if k ∈ rows then init[k]?.map (fun _ => v k) else init[k]? := by
  induction rows generalizing init with
  | nil => simp
  | cons r rs ih =>
    rw [List.foldl_cons, ih, List.getElem?_set]
    by_cases hk : k ∈ rs
    · simp only [hk, List.mem_cons, or_true, if_true]
      by_cases hr : r = k
      · subst hr
        by_cases hlt : r < init.length
        · simp [hlt]
        · simp [hlt, List.getElem?_eq_none (Nat.le_of_not_lt hlt)]
      · simp [hr]
    · by_cases hr : r = k
      · subst hr
        by_cases hlt : r < init.length
        · simp [hk, hlt]
        · simp [hk, hlt, List.getElem?_eq_none (Nat.le_of_not_lt hlt)]
      · have : ¬ k = r := fun h => hr h.symm
        simp [hk, hr, this]

/-! ## Blocks of a range -/

theorem CeilDiv_mul_ge (n bs : Nat) (h : 0 < bs) : n ≤ CeilDiv n bs * bs := by
  unfold CeilDiv
  have h1 := Nat.div_add_mod (n + bs - 1) bs
  have h2 := Nat.mod_lt (n + bs - 1) h
  have h3 : bs * ((n + bs - 1) / bs) = (n + bs - 1) / bs * bs := Nat.mul_comm _ _
  omega

theorem CeilDiv_pred_mul_lt (n bs : Nat) (h : 0 < bs) (b : Nat) (hb : b < CeilDiv n bs) :
    b * bs < n := by
  unfold CeilDiv at hb
  have h1 : (b + 1) ≤ (n + bs - 1) / bs := hb
  have h2 := (Nat.le_div_iff_mul_le h).1 h1
  have h3 : (b + 1) * bs = b * bs + bs := by ring
  omega

/-- The positions of the first `k` blocks, in block order, are the positions below
`min (k * blockSize) size`. -/
theorem flatMap_Iter (g : TSimpleIndexRangesGenerator) (k : Nat) :
    (List.range k).flatMap (fun b => (g.GetRange b).Iter) =
      List.range (min (k * g.BlockSize) g.FullSize) := by
  induction k with
  | zero => simp
  | succ k ih =>
    rw [List.range_succ, List.flatMap_append, ih]
    simp only [List.flatMap_cons, List.flatMap_nil, List.append_nil,
      TSimpleIndexRangesGenerator.GetRange, TIndexRange.Iter]
    have e : (k + 1) * g.BlockSize = k * g.BlockSize + g.BlockSize := by ring
    rw [e]
    by_cases hle : k * g.BlockSize ≤ g.FullSize
    · rw [Nat.min_eq_left hle, List.range_eq_range', List.range_eq_range']
      have := List.range'_append 0 (k * g.BlockSize)
        (min (k * g.BlockSize + g.BlockSize) g.FullSize - k * g.BlockSize) 1
      simp only [Nat.zero_add, Nat.one_mul] at this
      rw [this]
      congr 1
      omega
    · have h1 : min (k * g.BlockSize) g.FullSize = g.FullSize := by omega
      have h2 : min (k * g.BlockSize + g.BlockSize) g.FullSize = g.FullSize := by omega
      have h3 : g.FullSize - k * g.BlockSize = 0 := by omega
      rw [h1, h2, h3]
      simp

theorem map_getD_range (docs : List Nat) (n : Nat) (h : n ≤ docs.length) :
    (List.range n).map (fun i => docs.getD i 0) = docs.take n := by
  apply List.ext_getElem?
  intro i
  rw [List.getElem?_map, List.getElem?_take]
  by_cases hi : i < n
  · rw [List.getElem?_range hi]
    have : i < docs.length := by omega
    simp [hi, List.getD_eq_getElem?_getD, List.getElem?_eq_getElem this]
  · rw [List.getElem?_eq_none (by simpa using Nat.le_of_not_lt hi)]
    simp [hi]

/-! ## The first pass of the partitioning update -/

theorem take_succ_set (buf : List Nat) (n x : Nat) (h : n < buf.length) :
    (buf.set n x).take (n + 1) = buf.take n ++ [x] := by
  apply List.ext_getElem?
  intro i
  rw [List.getElem?_take, List.getElem?_set]
  by_cases hi : i < n
  · have h1 : i < n + 1 := by omega
    have h2 : ¬ n = i := by omega
    have h3 : i < (buf.take n).length := by rw [List.length_take]; omega
    rw [List.getElem?_append_left h3, List.getElem?_take]
    simp [hi, h1, h2]
  · have hlen : (buf.take n).length = n := by rw [List.length_take]; omega
    rw [List.getElem?_append_right (by omega), hlen]
    by_cases hin : i = n
    · subst hin
      simp [h]
    · have h1 : ¬ i < n + 1 := by omega
      have h2 : i - n = (i - n - 1) + 1 := by omega
      rw [h2]
      simp [h1]

theorem take_set_of_le (buf : List Nat) (n m x : Nat) (h : n ≤ m) :
    (buf.set m x).take n = buf.take n := by
  apply List.ext_getElem?
  intro i
  rw [List.getElem?_take, List.getElem?_take, List.getElem?_set]
  by_cases hi : i < n
  · have : ¬ m = i := by omega
    simp [hi, this]
  · simp [hi]

/-- Effect of the row loop of one block on its locals: the counters grow by the number of
rows sent each way, the filled prefixes of the two buffers grow by those rows in order,
and the assignment array receives one write per row. -/
theorem PartitionStep_foldl (node : TSplitNode) (p : Nat → Bool) (docs : List Nat)
    (idxs : List Nat) (s : TBlockLocals)
    (hl : s.nLeft + idxs.length ≤ s.leftBuf.length)
    (hr : s.nRight + idxs.length ≤ s.rightBuf.length) :
    (idxs.foldl (PartitionStep node p docs) s).nLeft =
      s.nLeft + ((idxs.map (fun i => docs.getD i 0)).filter (fun r => !p r)).length ∧
    (idxs.foldl (PartitionStep node p docs) s).nRight =
      s.nRight + ((idxs.map (fun i => docs.getD i 0)).filter p).length ∧
    (idxs.foldl (PartitionStep node p docs) s).leftBuf.take
        (idxs.foldl (PartitionStep node p docs) s).nLeft =
      s.leftBuf.take s.nLeft ++ (idxs.map (fun i => docs.getD i 0)).filter (fun r => !p r) ∧
    (idxs.foldl (PartitionStep node p docs) s).rightBuf.take
        (idxs.foldl (PartitionStep node p docs) s).nRight =
      s.rightBuf.take s.nRight ++ (idxs.map (fun i => docs.getD i 0)).filter p ∧
    (idxs.foldl (PartitionStep node p docs) s).leftBuf.length = s.leftBuf.length ∧
    (idxs.foldl (PartitionStep node p docs) s).rightBuf.length = s.rightBuf.length ∧
    (idxs.foldl (PartitionStep node p docs) s).indicesRef =
      (idxs.map (fun i => docs.getD i 0)).foldl
        (fun a r => a.set r (ChildAssignment node (p r))) s.indicesRef := by
  induction idxs generalizing s with
  | nil => simp
  | cons i is ih =>
    simp only [List.length_cons] at hl hr
    simp only [List.map_cons, List.foldl_cons]
    by_cases hp : p (docs.getD i 0) = true
    · obtain ⟨h1, h2, h3, h4, h5, h6, h7⟩ := ih (PartitionStep node p docs s i)
        (by simp only [PartitionStep, hp, if_true]; omega)
        (by simp only [PartitionStep, hp, if_true, List.length_set]; omega)
      simp only [PartitionStep, hp, if_true, List.length_set] at h1 h2 h3 h4 h5 h6 h7
      simp only [PartitionStep, hp, if_true]
      refine ⟨?_, ?_, ?_, ?_, h5, h6, h7⟩
      · rw [h1]; simp only [List.filter_cons, hp, Bool.not_true, Bool.false_eq_true, if_false]
      · rw [h2]; simp only [List.filter_cons, hp, if_true, List.length_cons]; omega
      · rw [h3]; simp only [List.filter_cons, hp, Bool.not_true, Bool.false_eq_true, if_false]
      · rw [h4, take_succ_set _ _ _ (by omega)]
        simp only [List.filter_cons, hp, if_true, List.append_assoc, List.singleton_append]
    · have hp' : p (docs.getD i 0) = false := by simpa using hp
      obtain ⟨h1, h2, h3, h4, h5, h6, h7⟩ := ih (PartitionStep node p docs s i)
        (by simp only [PartitionStep, hp', Bool.false_eq_true, if_false, List.length_set]; omega)
        (by simp only [PartitionStep, hp', Bool.false_eq_true, if_false]; omega)
      simp only [PartitionStep, hp', Bool.false_eq_true, if_false, List.length_set]
        at h1 h2 h3 h4 h5 h6 h7
      simp only [PartitionStep, hp', Bool.false_eq_true, if_false]
      refine ⟨?_, ?_, ?_, ?_, h5, h6, h7⟩
      · rw [h1]; simp only [List.filter_cons, hp', Bool.not_false, if_true, List.length_cons]
        omega
      · rw [h2]; simp only [List.filter_cons, hp', Bool.false_eq_true, if_false]
      · rw [h3, take_succ_set _ _ _ (by omega)]
        simp only [List.filter_cons, hp', Bool.not_false, if_true, List.append_assoc,
          List.singleton_append]
      · rw [h4]; simp only [List.filter_cons, hp', Bool.false_eq_true, if_false]

theorem resize_length (v : List Nat) (n : Nat) : (resize v n).length = n := by
  unfold resize
  rw [List.length_append, List.length_take, List.length_replicate]
  omega

theorem getD_set_eq (l : List Nat) (i x d : Nat) (h : i < l.length) :
    (l.set i x).getD i d = x := by
  rw [List.getD_eq_getElem?_getD, List.getElem?_set]
  simp [h]

theorem getD_set_ne {α : Type} (l : List α) (i j : Nat) (x d : α) (h : i ≠ j) :
    (l.set i x).getD j d = l.getD j d := by
  rw [List.getD_eq_getElem?_getD, List.getD_eq_getElem?_getD, List.getElem?_set_ne h]

theorem getD_set_eq_list (l : List (List Nat)) (i : Nat) (x d : List Nat) (h : i < l.length) :
    (l.set i x).getD i d = x := by
  rw [List.getD_eq_getElem?_getD, List.getElem?_set]
  simp [h]

/-- Effect of one block of the first pass on the shared arrays. -/
theorem PartitionBlock_spec (node : TSplitNode) (p : Nat → Bool) (docs : List Nat)
    (g : TSimpleIndexRangesGenerator) (b : Nat) (s : TSplitBuffers) :
    (PartitionBlock node p docs g b s).indicesRef =
      (BlockRows docs g b).foldl (fun a r => a.set r (ChildAssignment node (p r))) s.indicesRef ∧
    (∃ bufL, (PartitionBlock node p docs g b s).localLefts = s.localLefts.set b bufL ∧
      bufL.take ((BlockRows docs g b).filter (fun r => !p r)).length =
        (BlockRows docs g b).filter (fun r => !p r)) ∧
    (∃ bufR, (PartitionBlock node p docs g b s).localRights = s.localRights.set b bufR ∧
      bufR.take ((BlockRows docs g b).filter p).length = (BlockRows docs g b).filter p) ∧
    (PartitionBlock node p docs g b s).nLefts =
      s.nLefts.set (b + 1) ((BlockRows docs g b).filter (fun r => !p r)).length ∧
    (PartitionBlock node p docs g b s).nRights =
      s.nRights.set (b + 1) ((BlockRows docs g b).filter p).length := by
  have hlen : (g.GetRange b).Iter.length = (g.GetRange b).GetSize := by
    simp [TIndexRange.Iter, TIndexRange.GetSize]
  obtain ⟨h1, h2, h3, h4, -, -, h7⟩ := PartitionStep_foldl node p docs (g.GetRange b).Iter
    { indicesRef := s.indicesRef,
      leftBuf := resize (s.localLefts.getD b []) (g.GetRange b).GetSize,
      rightBuf := resize (s.localRights.getD b []) (g.GetRange b).GetSize,
      nLeft := 0, nRight := 0 }
    (by simp only [resize_length, hlen]; omega) (by simp only [resize_length, hlen]; omega)
  simp only [Nat.zero_add, List.take_zero, List.nil_append] at h1 h2 h3 h4 h7
  unfold BlockRows
  refine ⟨h7, ⟨_, rfl, ?_⟩, ⟨_, rfl, ?_⟩, ?_, ?_⟩
  · rw [← h1]; exact h3
  · rw [← h2]; exact h4
  · show List.set _ _ _ = _
    rw [h1]
  · show List.set _ _ _ = _
    rw [h2]

/-- Effect of the whole first pass, whatever the order of the blocks: the count vectors
hold the per-block counts one cell up, the filled prefix of each local buffer holds the
rows of its block sent that way, and the assignment array has received one write per row. -/
theorem pass1_foldl (node : TSplitNode) (p : Nat → Bool) (docs : List Nat)
    (g : TSimpleIndexRangesGenerator) (B : Nat) (sched : List Nat)
    (hs : ∀ b ∈ sched, b < B) (s : TSplitBuffers)
    (hL : s.nLefts.length = B + 1) (hR : s.nRights.length = B + 1)
    (hlL : s.localLefts.length = B) (hlR : s.localRights.length = B) :
    (sched.foldl (fun st b => PartitionBlock node p docs g b st) s).indicesRef =
      (sched.flatMap (BlockRows docs g)).foldl
        (fun a r => a.set r (ChildAssignment node (p r))) s.indicesRef ∧
    (sched.foldl (fun st b => PartitionBlock node p docs g b st) s).nLefts.length = B + 1 ∧
    (sched.foldl (fun st b => PartitionBlock node p docs g b st) s).nRights.length = B + 1 ∧
    (sched.foldl (fun st b => PartitionBlock node p docs g b st) s).nLefts.getD 0 0 =
      s.nLefts.getD 0 0 ∧
    (sched.foldl (fun st b => PartitionBlock node p docs g b st) s).nRights.getD 0 0 =
      s.nRights.getD 0 0 ∧
    (∀ b, (sched.foldl (fun st b => PartitionBlock node p docs g b st) s).nLefts.getD (b + 1) 0 =
      if b ∈ sched then ((BlockRows docs g b).filter (fun r => !p r)).length
      else s.nLefts.getD (b + 1) 0) ∧
    (∀ b, (sched.foldl (fun st b => PartitionBlock node p docs g b st) s).nRights.getD (b + 1) 0 =
      if b ∈ sched then ((BlockRows docs g b).filter p).length
      else s.nRights.getD (b + 1) 0) ∧
    (∀ b, if b ∈ sched then
        ((sched.foldl (fun st b => PartitionBlock node p docs g b st) s).localLefts.getD b []).take
          ((BlockRows docs g b).filter (fun r => !p r)).length =
          (BlockRows docs g b).filter (fun r => !p r)
      else (sched.foldl (fun st b => PartitionBlock node p docs g b st) s).localLefts.getD b [] =
        s.localLefts.getD b []) ∧
    (∀ b, if b ∈ sched then
        ((sched.foldl (fun st b => PartitionBlock node p docs g b st) s).localRights.getD b []).take
          ((BlockRows docs g b).filter p).length = (BlockRows docs g b).filter p
      else (sched.foldl (fun st b => PartitionBlock node p docs g b st) s).localRights.getD b [] =
        s.localRights.getD b []) := by
  induction sched generalizing s with
  | nil => simp [hL, hR]
  | cons c rest ih =>
    have hc : c < B := hs c (List.mem_cons_self _ _)
    obtain ⟨e1, ⟨bufL, e2, e2'⟩, ⟨bufR, e3, e3'⟩, e4, e5⟩ := PartitionBlock_spec node p docs g c s
    obtain ⟨i1, i2, i3, i4, i5, i6, i7, i8, i9⟩ := ih
      (fun b hb => hs b (List.mem_cons_of_mem _ hb)) (PartitionBlock node p docs g c s)
      (by rw [e4, List.length_set]; exact hL) (by rw [e5, List.length_set]; exact hR)
      (by rw [e2, List.length_set]; exact hlL) (by rw [e3, List.length_set]; exact hlR)
    simp only [List.foldl_cons, List.flatMap_cons, List.foldl_append]
    refine ⟨?_, i2, i3, ?_, ?_, ?_, ?_, ?_, ?_⟩
    · rw [i1, e1]
    · rw [i4, e4, getD_set_ne _ _ _ _ _ (by omega)]
    · rw [i5, e5, getD_set_ne _ _ _ _ _ (by omega)]
    · intro b
      rw [i6 b]
      by_cases hb : b ∈ rest
      · simp [hb]
      · by_cases hbc : b = c
        · subst hbc
          simp only [hb, if_false, List.mem_cons, true_or, if_true]
          rw [e4, getD_set_eq _ _ _ _ (by omega)]
        · have hcb : c + 1 ≠ b + 1 := fun h => hbc (by omega)
          simp only [hb, if_false, List.mem_cons, hbc, false_or]
          rw [e4, getD_set_ne _ _ _ _ _ hcb]
    · intro b
      rw [i7 b]
      by_cases hb : b ∈ rest
      · simp [hb]
      · by_cases hbc : b = c
        · subst hbc
          simp only [hb, if_false, List.mem_cons, true_or, if_true]
          rw [e5, getD_set_eq _ _ _ _ (by omega)]
        · have hcb : c + 1 ≠ b + 1 := fun h => hbc (by omega)
          simp only [hb, if_false, List.mem_cons, hbc, false_or]
          rw [e5, getD_set_ne _ _ _ _ _ hcb]
    · intro b
      have := i8 b
      by_cases hb : b ∈ rest
      · simp only [hb, if_true] at this
        simp only [List.mem_cons, hb, or_true, if_true]
        exact this
      · simp only [hb, if_false] at this
        by_cases hbc : b = c
        · subst hbc
          simp only [List.mem_cons, true_or, if_true]
          rw [this, e2, getD_set_eq_list _ _ _ _ (by omega)]
          exact e2'
        · have hcb : c ≠ b := fun h => hbc h.symm
          simp only [List.mem_cons, hbc, hb, false_or, if_false]
          rw [this, e2, getD_set_ne _ _ _ _ _ hcb]
    · intro b
      have := i9 b
      by_cases hb : b ∈ rest
      · simp only [hb, if_true] at this
        simp only [List.mem_cons, hb, or_true, if_true]
        exact this
      · simp only [hb, if_false] at this
        by_cases hbc : b = c
        · subst hbc
          simp only [List.mem_cons, true_or, if_true]
          rw [this, e3, getD_set_eq_list _ _ _ _ (by omega)]
          exact e3'
        · have hcb : c ≠ b := fun h => hbc h.symm
          simp only [List.mem_cons, hbc, hb, false_or, if_false]
          rw [this, e3, getD_set_ne _ _ _ _ _ hcb]

/-! ## Prefix sums and the second pass -/

theorem ConcatParts_succ (parts : Nat → List Nat) (k : Nat) :
    ConcatParts parts (k + 1) = ConcatParts parts k ++ parts k := by
  simp [ConcatParts, List.range_succ, List.flatMap_append]

theorem ConcatParts_length_mono (parts : Nat → List Nat) (i j : Nat) (h : i ≤ j) :
    (ConcatParts parts i).length ≤ (ConcatParts parts j).length := by
  induction j with
  | zero =>
    have : i = 0 := by omega
    subst this
    exact Nat.le_refl _
  | succ j ih =>
    by_cases hij : i = j + 1
    · subst hij
      exact Nat.le_refl _
    · have := ih (by omega)
      rw [ConcatParts_succ, List.length_append]
      omega

/-- The cell of the concatenation at offset `off b + j` is cell `j` of part `b`. -/
theorem ConcatParts_getElem? (parts : Nat → List Nat) (B b k : Nat) (hb : b < B)
    (h1 : (ConcatParts parts b).length ≤ k) (h2 : k < (ConcatParts parts (b + 1)).length) :
    (ConcatParts parts B)[k]? = (parts b)[k - (ConcatParts parts b).length]? := by
  induction B with
  | zero => omega
  | succ B ih =>
    rw [ConcatParts_succ]
    by_cases hbB : b = B
    · subst hbB
      rw [List.getElem?_append_right h1]
    · have hlt : b < B := by omega
      have hm := ConcatParts_length_mono parts (b + 1) B (by omega)
      rw [List.getElem?_append_left (by omega)]
      exact ih hlt

/-- Every offset below the total length falls into the range of exactly one part. -/
theorem ConcatParts_exists_block (parts : Nat → List Nat) (B k : Nat)
    (h : k < (ConcatParts parts B).length) :
    ∃ b, b < B ∧ (ConcatParts parts b).length ≤ k ∧ k < (ConcatParts parts (b + 1)).length := by
  induction B with
  | zero => simp [ConcatParts] at h
  | succ B ih =>
    by_cases hk : k < (ConcatParts parts B).length
    · obtain ⟨b, hb, h1, h2⟩ := ih hk
      exact ⟨b, by omega, h1, h2⟩
    · exact ⟨B, by omega, by omega, h⟩

/-- The prefix-sum loop turns per-block counts, stored one cell up, into offsets. -/
theorem PrefixSums_spec (parts : Nat → List Nat) (B : Nat) (counts : List Nat)
    (hlen : counts.length = B + 1) (h0 : counts.getD 0 0 = 0)
    (hc : ∀ b, b < B → counts.getD (b + 1) 0 = (parts b).length) :
    ∀ i, i ≤ B → (PrefixSums B counts).getD i 0 = (ConcatParts parts i).length := by
  have key : ∀ k, k ≤ B →
      ((List.range' 1 k).foldl (fun c i => c.set i (c.getD i 0 + c.getD (i - 1) 0)) counts).length
        = B + 1 ∧
      ∀ i, (i ≤ k → ((List.range' 1 k).foldl
          (fun c i => c.set i (c.getD i 0 + c.getD (i - 1) 0)) counts).getD i 0
            = (ConcatParts parts i).length) ∧
        (k < i → ((List.range' 1 k).foldl
          (fun c i => c.set i (c.getD i 0 + c.getD (i - 1) 0)) counts).getD i 0
            = counts.getD i 0) := by
    intro k
    induction k with
    | zero =>
      intro _
      refine ⟨by simpa using hlen, fun i => ⟨fun hi => ?_, fun _ => by simp⟩⟩
      have : i = 0 := by omega
      subst this
      simpa [ConcatParts] using h0
    | succ k ih =>
      intro hk
      obtain ⟨il, ih2⟩ := ih (by omega)
      rw [List.range'_concat, List.foldl_append]
      simp only [List.foldl_cons, List.foldl_nil, Nat.one_mul]
      refine ⟨by rw [List.length_set]; exact il, fun i => ⟨fun hi => ?_, fun hi => ?_⟩⟩
      · by_cases hik : i = k + 1
        · subst hik
          have e : 1 + k = k + 1 := by omega
          rw [e, getD_set_eq _ _ _ _ (by omega)]
          rw [(ih2 (k + 1)).2 (by omega), hc k (by omega)]
          have : k + 1 - 1 = k := by omega
          rw [this, (ih2 k).1 (Nat.le_refl _), ConcatParts_succ, List.length_append]
          omega
        · rw [getD_set_ne _ _ _ _ _ (by omega)]
          exact (ih2 i).1 (by omega)
      · rw [getD_set_ne _ _ _ _ _ (by omega)]
        exact (ih2 i).2 (by omega)
  intro i hi
  exact ((key B (Nat.le_refl _)).2 i).1 hi

theorem PrefixSums_length (B : Nat) (counts : List Nat) :
    (PrefixSums B counts).length = counts.length := by
  unfold PrefixSums
  generalize List.range' 1 B = l
  induction l generalizing counts with
  | nil => rfl
  | cons a l ih => rw [List.foldl_cons, ih, List.length_set]

theorem foldl_set_range_length (f : Nat → Nat) (s m : Nat) (out : List Nat) :
    ((List.range m).foldl (fun o j => o.set (s + j) (f j)) out).length = out.length := by
  induction m with
  | zero => rfl
  | succ m ih =>
    rw [List.range_succ, List.foldl_append]
    simp only [List.foldl_cons, List.foldl_nil, List.length_set]
    exact ih

theorem foldl_set_range_getElem? (f : Nat → Nat) (s m : Nat) (out : List Nat) (k : Nat) :
    ((List.range m).foldl (fun o j => o.set (s + j) (f j)) out)[k]? =
      if s ≤ k ∧ k < s + m then out[k]?.map (fun _ => f (k - s)) else out[k]? := by
  induction m with
  | zero =>
    have : ¬ (s ≤ k ∧ k < s + 0) := by omega
    rw [if_neg this]
    rfl
  | succ m ih =>
    rw [List.range_succ, List.foldl_append]
    simp only [List.foldl_cons, List.foldl_nil]
    rw [List.getElem?_set, foldl_set_range_length, ih]
    by_cases hk : s + m = k
    · have h1 : s ≤ k ∧ k < s + (m + 1) := by omega
      have h3 : k - s = m := by omega
      simp only [hk, h1, if_true, and_self, h3]
      by_cases hlt : k < out.length
      · simp [hlt, List.getElem?_eq_getElem hlt]
      · simp [hlt, List.getElem?_eq_none (Nat.le_of_not_lt hlt)]
    · simp only [hk, if_false]
      by_cases h1 : s ≤ k ∧ k < s + m
      · have h2 : s ≤ k ∧ k < s + (m + 1) := by omega
        simp [h1, h2]
      · have h2 : ¬ (s ≤ k ∧ k < s + (m + 1)) := by omega
        simp [h1, h2]

theorem getD_take (l : List Nat) (n j d : Nat) (h : j < n) :
    (l.take n).getD j d = l.getD j d := by
  rw [List.getD_eq_getElem?_getD, List.getD_eq_getElem?_getD, List.getElem?_take, if_pos h]

/-- Effect of one copy loop of the second pass, cell by cell. -/
theorem CopyLocal_getElem? (parts : Nat → List Nat) (starts : List Nat)
    (locals : List (List Nat)) (b : Nat) (out : List Nat)
    (hs : starts.getD b 0 = (ConcatParts parts b).length)
    (hs' : starts.getD (b + 1) 0 = (ConcatParts parts (b + 1)).length)
    (hl : (locals.getD b []).take (parts b).length = parts b) (k : Nat) :
    (CopyLocal starts locals b out)[k]? =
      if (ConcatParts parts b).length ≤ k ∧ k < (ConcatParts parts (b + 1)).length
      then out[k]?.map (fun _ => (parts b).getD (k - (ConcatParts parts b).length) 0)
      else out[k]? := by
  unfold CopyLocal
  simp only []
  rw [foldl_set_range_getElem?, hs, hs']
  have e : (ConcatParts parts (b + 1)).length = (ConcatParts parts b).length + (parts b).length := by
    rw [ConcatParts_succ, List.length_append]
  by_cases h : (ConcatParts parts b).length ≤ k ∧ k < (ConcatParts parts (b + 1)).length
  · have h' : (ConcatParts parts b).length ≤ k ∧
        k < (ConcatParts parts b).length +
          ((ConcatParts parts (b + 1)).length - (ConcatParts parts b).length) := by omega
    rw [if_pos h, if_pos h']
    have hj : k - (ConcatParts parts b).length < (parts b).length := by omega
    have : (locals.getD b []).getD (k - (ConcatParts parts b).length) 0 =
        (parts b).getD (k - (ConcatParts parts b).length) 0 := by
      rw [← getD_take (locals.getD b []) (parts b).length _ 0 hj, hl]
    rw [this]
  · have h' : ¬ ((ConcatParts parts b).length ≤ k ∧
        k < (ConcatParts parts b).length +
          ((ConcatParts parts (b + 1)).length - (ConcatParts parts b).length)) := by omega
    rw [if_neg h, if_neg h']

theorem CopyLocal_length (starts : List Nat) (locals : List (List Nat)) (b : Nat)
    (out : List Nat) : (CopyLocal starts locals b out).length = out.length := by
  unfold CopyLocal
  exact foldl_set_range_length _ _ _ _

/-- Effect of the second pass on one output array, whatever the order of the blocks: a
cell inside the destination range of a scheduled block holds the cell of the
concatenation of all parts; any other cell is untouched. -/
theorem scatter_foldl (parts : Nat → List Nat) (B : Nat) (starts : List Nat)
    (locals : List (List Nat))
    (hstarts : ∀ i, i ≤ B → starts.getD i 0 = (ConcatParts parts i).length)
    (hlocals : ∀ b, b < B → (locals.getD b []).take (parts b).length = parts b)
    (sched : List Nat) (hs : ∀ b ∈ sched, b < B) (out : List Nat)
    (hout : out.length = (ConcatParts parts B).length) :
    (sched.foldl (fun o b => CopyLocal starts locals b o) out).length
      = (ConcatParts parts B).length ∧
    ∀ k, ((∃ b ∈ sched, (ConcatParts parts b).length ≤ k ∧
            k < (ConcatParts parts (b + 1)).length) →
          (sched.foldl (fun o b => CopyLocal starts locals b o) out)[k]?
            = (ConcatParts parts B)[k]?) ∧
      ((¬ ∃ b ∈ sched, (ConcatParts parts b).length ≤ k ∧
            k < (ConcatParts parts (b + 1)).length) →
          (sched.foldl (fun o b => CopyLocal starts locals b o) out)[k]? = out[k]?) := by
  induction sched generalizing out with
  | nil => exact ⟨hout, fun k => ⟨fun ⟨b, hb, _⟩ => by simp at hb, fun _ => rfl⟩⟩
  | cons c rest ih =>
    have hc : c < B := hs c (List.mem_cons_self _ _)
    obtain ⟨il, ik⟩ := ih (fun b hb => hs b (List.mem_cons_of_mem _ hb))
      (CopyLocal starts locals c out) (by rw [CopyLocal_length]; exact hout)
    simp only [List.foldl_cons]
    refine ⟨il, fun k => ?_⟩
    have hcopy := CopyLocal_getElem? parts starts locals c out (hstarts c (by omega))
      (hstarts (c + 1) (by omega)) (hlocals c hc) k
    by_cases hrest : ∃ b ∈ rest, (ConcatParts parts b).length ≤ k ∧
        k < (ConcatParts parts (b + 1)).length
    · refine ⟨fun _ => (ik k).1 hrest, fun hno => ?_⟩
      obtain ⟨b, hb, hb'⟩ := hrest
      exact absurd ⟨b, List.mem_cons_of_mem _ hb, hb'⟩ hno
    · have hk := (ik k).2 hrest
      rw [hk, hcopy]
      by_cases hin : (ConcatParts parts c).length ≤ k ∧ k < (ConcatParts parts (c + 1)).length
      · refine ⟨fun _ => ?_, fun hno => absurd ⟨c, List.mem_cons_self _ _, hin⟩ hno⟩
        rw [if_pos hin, ConcatParts_getElem? parts B c k hc hin.1 hin.2]
        have hm := ConcatParts_length_mono parts (c + 1) B (by omega)
        have hlt : k < out.length := by omega
        have e : (ConcatParts parts (c + 1)).length =
            (ConcatParts parts c).length + (parts c).length := by
          rw [ConcatParts_succ, List.length_append]
        have hj : k - (ConcatParts parts c).length < (parts c).length := by omega
        rw [List.getElem?_eq_getElem hlt, List.getElem?_eq_getElem hj,
          List.getD_eq_getElem _ _ hj]
        rfl
      · refine ⟨fun ⟨b, hb, hb'⟩ => ?_, fun _ => by rw [if_neg hin]⟩
        rcases List.mem_cons.1 hb with hbc | hbr
        · subst hbc
          exact absurd hb' hin
        · exact absurd ⟨b, hbr, hb'⟩ hrest

/-! ## The partitioning update as a whole -/

theorem RangesCount_mul_ge (g : TSimpleIndexRangesGenerator) (h : 0 < g.BlockSize) :
    g.FullSize ≤ g.RangesCount * g.BlockSize :=
  CeilDiv_mul_ge _ _ h

/-- The rows of all blocks, in block order, are the first `FullSize` rows. -/
theorem BlockRows_concat (docs : List Nat) (g : TSimpleIndexRangesGenerator)
    (hbs : 0 < g.BlockSize) (hn : g.FullSize ≤ docs.length) :
    (List.range g.RangesCount).flatMap (BlockRows docs g) = docs.take g.FullSize := by
  have h := flatMap_Iter g g.RangesCount
  rw [Nat.min_eq_right (RangesCount_mul_ge g hbs)] at h
  have e : (List.range g.RangesCount).flatMap (BlockRows docs g) =
      ((List.range g.RangesCount).flatMap (fun b => (g.GetRange b).Iter)).map
        (fun i => docs.getD i 0) := by
    rw [List.map_flatMap]
    rfl
  rw [e, h, map_getD_range docs _ hn]

theorem mem_flatMap_of_perm {sched : List Nat} {B : Nat} (h : sched.Perm (List.range B))
    (f : Nat → List Nat) (r : Nat) :
    r ∈ sched.flatMap f ↔ r ∈ (List.range B).flatMap f := by
  simp only [List.mem_flatMap]
  constructor
  · rintro ⟨b, hb, hr⟩
    exact ⟨b, h.mem_iff.1 hb, hr⟩
  · rintro ⟨b, hb, hr⟩
    exact ⟨b, h.mem_iff.2 hb, hr⟩

theorem foldl_set_congr_mem (v : Nat → Nat) (rows rows' : List Nat) (init : List Nat)
    (h : ∀ r, r ∈ rows ↔ r ∈ rows') :
    rows.foldl (fun a r => a.set r (v r)) init = rows'.foldl (fun a r => a.set r (v r)) init := by
  apply List.ext_getElem?
  intro k
  rw [foldl_set_getElem?, foldl_set_getElem?]
  by_cases hk : k ∈ rows
  · rw [if_pos hk, if_pos ((h k).1 hk)]
  · rw [if_neg hk, if_neg (fun h' => hk ((h k).2 h'))]

theorem ScatterBlock_foldl (s : TSplitBuffers) (sched : List Nat) (out : List Nat × List Nat) :
    sched.foldl (fun st b => ScatterBlock s b st) out =
      (sched.foldl (fun o b => CopyLocal s.nLefts s.localLefts b o) out.1,
       sched.foldl (fun o b => CopyLocal s.nRights s.localRights b o) out.2) := by
  induction sched generalizing out with
  | nil => rfl
  | cons c rest ih => rw [List.foldl_cons, ih]; rfl

/-- The second pass fills an output array with the concatenation of all parts, whatever
the array held before and whatever the order of the blocks. -/
theorem scatter_all (parts : Nat → List Nat) (B : Nat) (starts : List Nat)
    (locals : List (List Nat))
    (hstarts : ∀ i, i ≤ B → starts.getD i 0 = (ConcatParts parts i).length)
    (hlocals : ∀ b, b < B → (locals.getD b []).take (parts b).length = parts b)
    (sched : List Nat) (hs : sched.Perm (List.range B)) (out : List Nat)
    (hout : out.length = (ConcatParts parts B).length) :
    sched.foldl (fun o b => CopyLocal starts locals b o) out = ConcatParts parts B := by
  obtain ⟨hl, hk⟩ := scatter_foldl parts B starts locals hstarts hlocals sched
    (fun b hb => List.mem_range.1 (hs.mem_iff.1 hb)) out hout
  apply List.ext_getElem?
  intro k
  by_cases hlt : k < (ConcatParts parts B).length
  · obtain ⟨b, hb, h1, h2⟩ := ConcatParts_exists_block parts B k hlt
    exact (hk k).1 ⟨b, hs.mem_iff.2 (List.mem_range.2 hb), h1, h2⟩
  · rw [List.getElem?_eq_none (by omega), List.getElem?_eq_none (by omega)]

theorem NewArray_length (content : Nat → Nat) (n : Nat) : (NewArray content n).length = n := by
  simp [NewArray]

theorem ConcatParts_filter (q : Nat → Bool) (f : Nat → List Nat) (B : Nat) :
    ConcatParts (fun b => (f b).filter q) B = ((List.range B).flatMap f).filter q := by
  unfold ConcatParts
  rw [List.filter_flatMap]

/-- The partitioning update, once the predicate is built and for fewer than `2^32` rows:
it returns, the assignment array has received one write per row, and the two outputs are
the rows the predicate sends left and right, in input order. -/
theorem UpdateIndicesWithSplit_returned (dec : TDecoders)
    (getObjectsDataAndIndexing : TGetObjectsDataAndIndexing) (fresh : Nat → Nat → Nat)
    (node : TSplitNode) (docsSubset : List Nat) (fold : TFold)
    (localExecutor : ILocalExecutor) (indicesRef leftIndeces rightIndeces : List Nat)
    (func : Nat → Bool)
    (hfair : localExecutor.RunsEachBlockOnce)
    (hlen : docsSubset.length < 4294967296)
    (hbuild : BuildNodeSplitFunction dec node
      (getObjectsDataAndIndexing (decide (node.Split.SplitType = ESplitType.EstimatedFeature))
        node.Split.IsOnline 0).objectsDataProvider
      (if node.Split.SplitType = ESplitType.OnlineCtr
        then some (fold.GetCtr node.Split.Ctr.Projection) else none) 0 = .ok func) :
    UpdateIndicesWithSplit dec getObjectsDataAndIndexing fresh node docsSubset fold
        localExecutor indicesRef leftIndeces rightIndeces =
      .returned
        { indicesRef := docsSubset.foldl (fun a r => a.set r (ChildAssignment node
            (RemapSplitFunction (getObjectsDataAndIndexing
              (decide (node.Split.SplitType = ESplitType.EstimatedFeature))
              node.Split.IsOnline 0).columnsIndexing func r))) indicesRef,
          leftIndeces := docsSubset.filter (fun r => !RemapSplitFunction
            (getObjectsDataAndIndexing
              (decide (node.Split.SplitType = ESplitType.EstimatedFeature))
              node.Split.IsOnline 0).columnsIndexing func r),
          rightIndeces := docsSubset.filter (RemapSplitFunction
            (getObjectsDataAndIndexing
              (decide (node.Split.SplitType = ESplitType.EstimatedFeature))
              node.Split.IsOnline 0).columnsIndexing func) } := by
  unfold UpdateIndicesWithSplit
  simp only [hbuild]
  have hmod : docsSubset.length % 4294967296 = docsSubset.length := Nat.mod_eq_of_lt hlen
  rw [hmod]
  generalize hp : RemapSplitFunction (getObjectsDataAndIndexing
      (decide (node.Split.SplitType = ESplitType.EstimatedFeature))
      node.Split.IsOnline 0).columnsIndexing func = p
  generalize hg : (⟨docsSubset.length,
      max (CeilDiv docsSubset.length (localExecutor.GetThreadCount + 1)) 1000⟩ :
      TSimpleIndexRangesGenerator) = g
  have hbs : 0 < g.BlockSize := by rw [← hg]; simp
  have hfull : g.FullSize = docsSubset.length := by rw [← hg]
  have hsched0 := hfair 0 g.RangesCount
  have hsched1 := hfair 1 g.RangesCount
  have hrows := BlockRows_concat docsSubset g hbs (by rw [hfull])
  rw [hfull, List.take_of_length_le (Nat.le_refl _)] at hrows
  obtain ⟨p1, p2, p3, p4, p5, p6, p7, p8, p9⟩ := pass1_foldl node p docsSubset g g.RangesCount
    (localExecutor.Schedule 0 g.RangesCount)
    (fun b hb => List.mem_range.1 (hsched0.mem_iff.1 hb))
    { indicesRef := indicesRef,
      nLefts := List.replicate (g.RangesCount + 1) 0,
      nRights := List.replicate (g.RangesCount + 1) 0,
      localLefts := List.replicate g.RangesCount [],
      localRights := List.replicate g.RangesCount [] }
    (by simp) (by simp) (by simp) (by simp)
  have hL := PrefixSums_spec (fun b => (BlockRows docsSubset g b).filter (fun r => !p r))
    g.RangesCount _ p2 (by rw [p4]; simp)
    (fun b hb => by rw [p6 b, if_pos (hsched0.mem_iff.2 (List.mem_range.2 hb))])
  have hR := PrefixSums_spec (fun b => (BlockRows docsSubset g b).filter p)
    g.RangesCount _ p3 (by rw [p5]; simp)
    (fun b hb => by rw [p7 b, if_pos (hsched0.mem_iff.2 (List.mem_range.2 hb))])
  have hTL : ConcatParts (fun b => (BlockRows docsSubset g b).filter (fun r => !p r)) g.RangesCount
      = docsSubset.filter (fun r => !p r) := by
    rw [ConcatParts_filter, hrows]
  have hTR : ConcatParts (fun b => (BlockRows docsSubset g b).filter p) g.RangesCount
      = docsSubset.filter p := by
    rw [ConcatParts_filter, hrows]
  unfold ExecRange at *
  rw [ScatterBlock_foldl]
  simp only []
  congr 1
  congr 1
  · rw [p1]
    apply foldl_set_congr_mem
    intro r
    rw [mem_flatMap_of_perm hsched0, hrows]
  · rw [← hTL]
    apply scatter_all _ _ _ _ hL _ _ hsched1
    · rw [NewArray_length, hL _ (Nat.le_refl _)]
    · intro b hb
      have := p8 b
      rw [if_pos (hsched0.mem_iff.2 (List.mem_range.2 hb))] at this
      exact this
  · rw [← hTR]
    apply scatter_all _ _ _ _ hR _ _ hsched1
    · rw [NewArray_length, hR _ (Nat.le_refl _)]
    · intro b hb
      have := p9 b
      rw [if_pos (hsched0.mem_iff.2 (List.mem_range.2 hb))] at this
      exact this

/-! ## The plain update -/

theorem UpdateIndicesBlock_eq (node : TSplitNode) (p : Nat → Bool) (docs : List Nat)
    (g : TSimpleIndexRangesGenerator) (b : Nat) (indices : List Nat) :
    UpdateIndicesBlock node p docs g b indices =
      (BlockRows docs g b).foldl
        (fun a r => a.set r (ChildAssignment node (p (toUi32 (toInt32 r))))) indices := by
  unfold UpdateIndicesBlock BlockRows
  rw [List.foldl_map]

theorem foldl_blocks_eq (f : Nat → List Nat) (v : Nat → Nat) (sched : List Nat)
    (init : List Nat) :
    sched.foldl (fun st b => (f b).foldl (fun a r => a.set r (v r)) st) init =
      (sched.flatMap f).foldl (fun a r => a.set r (v r)) init := by
  induction sched generalizing init with
  | nil => rfl
  | cons c rest ih => rw [List.foldl_cons, ih, List.flatMap_cons, List.foldl_append]

theorem foldl_set_congr_val (v w : Nat → Nat) (rows : List Nat) (init : List Nat)
    (h : ∀ r ∈ rows, v r = w r) :
    rows.foldl (fun a r => a.set r (v r)) init = rows.foldl (fun a r => a.set r (w r)) init := by
  induction rows generalizing init with
  | nil => rfl
  | cons r rs ih =>
    rw [List.foldl_cons, List.foldl_cons, h r (List.mem_cons_self _ _)]
    exact ih _ (fun x hx => h x (List.mem_cons_of_mem _ hx))

/-- The plain update, once the predicate is built and for 32-bit row ids: it returns, and
the assignment array has received one write per row. -/
theorem UpdateIndices_returned (dec : TDecoders)
    (getObjectsDataAndIndexing : TGetObjectsDataAndIndexing)
    (node : TSplitNode) (docsSubset : List Nat) (fold : TFold)
    (localExecutor : ILocalExecutor) (indicesRef : List Nat) (func : Nat → Bool)
    (hfair : localExecutor.RunsEachBlockOnce)
    (hids : ∀ r ∈ docsSubset, r < 4294967296)
    (hbuild : BuildNodeSplitFunction dec node
      (getObjectsDataAndIndexing (decide (node.Split.SplitType = ESplitType.EstimatedFeature))
        node.Split.IsOnline 0).objectsDataProvider
      (if node.Split.SplitType = ESplitType.OnlineCtr
        then some (fold.GetCtrs node.Split.Ctr.Projection) else none) 0 = .ok func) :
    UpdateIndices dec getObjectsDataAndIndexing node docsSubset fold localExecutor indicesRef =
      .returned (docsSubset.foldl (fun a r => a.set r (ChildAssignment node
        (RemapSplitFunction (getObjectsDataAndIndexing
          (decide (node.Split.SplitType = ESplitType.EstimatedFeature))
          node.Split.IsOnline 0).columnsIndexing func r))) indicesRef) := by
  unfold UpdateIndices
  simp only [hbuild]
  generalize hp : RemapSplitFunction (getObjectsDataAndIndexing
      (decide (node.Split.SplitType = ESplitType.EstimatedFeature))
      node.Split.IsOnline 0).columnsIndexing func = p
  generalize hg : (⟨docsSubset.length,
      max (CeilDiv docsSubset.length (localExecutor.GetThreadCount + 1)) 1000⟩ :
      TSimpleIndexRangesGenerator) = g
  have hbs : 0 < g.BlockSize := by rw [← hg]; simp
  have hfull : g.FullSize = docsSubset.length := by rw [← hg]
  have hsched0 := hfair 0 g.RangesCount
  have hrows := BlockRows_concat docsSubset g hbs (by rw [hfull])
  rw [hfull, List.take_of_length_le (Nat.le_refl _)] at hrows
  congr 1
  unfold ExecRange
  have e : (fun st blockId => UpdateIndicesBlock node p docsSubset g blockId st) =
      (fun st b => (BlockRows docsSubset g b).foldl
        (fun a r => a.set r (ChildAssignment node (p (toUi32 (toInt32 r))))) st) := by
    funext st b
    exact UpdateIndicesBlock_eq node p docsSubset g b st
  rw [e, foldl_blocks_eq (BlockRows docsSubset g)
    (fun r => ChildAssignment node (p (toUi32 (toInt32 r))))]
  rw [foldl_set_congr_mem _ _ docsSubset indicesRef
    (fun r => by rw [mem_flatMap_of_perm hsched0, hrows])]
  apply foldl_set_congr_val
  intro r hr
  rw [toUi32_toInt32, toUi32_natCast r (hids r hr)]

/-! ## The routing loop -/

/-- The branchless child selection picks the right child on `true` and the left child
on `false`, whatever the two `int` fields are. -/
theorem select_child (l r : Int) (hl : IsInt32 l) (hr : IsInt32 r) (b : Bool) :
    add32 l (mulBool32 b (sub32 r l)) = if b then r else l := by
  unfold IsInt32 at hl hr
  unfold add32 mulBool32 sub32 toInt32
  cases b
  · simp only [Bool.false_eq_true, if_false]
    omega
  · simp only [if_true]
    omega

theorem toUi32_not32_neg (k : Int) (hk : IsInt32 k) (hneg : k < 0) :
    ((toUi32 (not32 k) : Nat) : Int) = -k - 1 ∧ toUi32 (not32 k) = (-k - 1).toNat := by
  unfold IsInt32 at hk
  unfold toUi32 not32 toInt32
  omega

theorem mem_of_getElem? {α : Type} {l : List α} {n : Nat} {a : α} (h : l[n]? = some a) :
    a ∈ l := by
  obtain ⟨hn, rfl⟩ := List.getElem?_eq_some.1 h
  exact List.getElem_mem hn

/-- The routing loop and the reference descent agree step by step, on every fuel. -/
theorem ReferenceDescent_eq_RouteRow (nodes : List TSplitNode) (fns : List (Nat → Bool))
    (idx : Nat) (hv : ValidChildren nodes) (fuel : Nat) (c : Int) :
    ReferenceDescent nodes fns idx fuel (ToChildRef c) =
      match RouteRow nodes fns idx fuel c with
      | .finished k => some (-k - 1).toNat
      | _ => none := by
  induction fuel generalizing c with
  | zero =>
    by_cases hc : 0 ≤ c
    · simp [ToChildRef, hc, ReferenceDescent, RouteRow]
    · simp [ToChildRef, hc, ReferenceDescent, RouteRow]
  | succ fuel ih =>
    by_cases hc : 0 ≤ c
    · simp only [ToChildRef, hc, if_true, ReferenceDescent, RouteRow]
      cases hn : nodes[c.toNat]? with
      | none => simp
      | some node =>
        cases hf : fns[c.toNat]? with
        | none => simp
        | some f =>
          simp only []
          obtain ⟨h1, h2, -, -⟩ := hv node (mem_of_getElem? hn)
          rw [select_child _ _ h1 h2]
          exact ih _
    · simp [ToChildRef, hc, ReferenceDescent, RouteRow]

theorem nodup_length_le (visited : List Nat) (n : Nat) (hnd : visited.Nodup)
    (hlt : ∀ v ∈ visited, v < n) : visited.length ≤ n := by
  have hsub : visited ⊆ List.range n := fun v hv => List.mem_range.2 (hlt v hv)
  have := (List.subperm_of_subset hnd hsub).length_le
  simpa using this

/-- In an acyclic tree with valid children the routing loop, started at a node index below
the node count after visiting the distinct nodes `visited` (all ancestors of the current
node), ends at a negative child field within `nodes.length - visited.length` visits. -/
theorem RouteRow_finishes (nodes : List TSplitNode) (fns : List (Nat → Bool)) (idx : Nat)
    (hv : ValidChildren nodes) (hac : Acyclic nodes) (hfl : fns.length = nodes.length)
    (fuel : Nat) (visited : List Nat) (c : Int)
    (hnd : visited.Nodup) (hlt : ∀ v ∈ visited, v < nodes.length)
    (hanc : 0 ≤ c → ∀ v ∈ visited, Relation.TransGen (IsChildNode nodes) v c.toNat)
    (hc : c < nodes.length) (hfuel : nodes.length ≤ fuel + visited.length) :
    ∃ k, RouteRow nodes fns idx fuel c = .finished k ∧ k < 0 ∧ (c < 0 → k = c) ∧
      (0 ≤ c → ∃ node ∈ nodes, k = node.Left ∨ k = node.Right) := by
  induction fuel generalizing visited c with
  | zero =>
    by_cases hc0 : 0 ≤ c
    · exfalso
      have hnot : c.toNat ∉ visited := fun hmem => hac _ (hanc hc0 _ hmem)
      have hnd' : (c.toNat :: visited).Nodup := List.nodup_cons.2 ⟨hnot, hnd⟩
      have hlt' : ∀ v ∈ c.toNat :: visited, v < nodes.length := by
        intro v hvm
        rcases List.mem_cons.1 hvm with h | h
        · subst h; omega
        · exact hlt v h
      have := nodup_length_le _ _ hnd' hlt'
      simp only [List.length_cons] at this
      omega
    · exact ⟨c, by simp [RouteRow, hc0], by omega, fun _ => rfl, fun h => absurd h hc0⟩
  | succ fuel ih =>
    by_cases hc0 : 0 ≤ c
    · have hcn : c.toNat < nodes.length := by omega
      have hnot : c.toNat ∉ visited := fun hmem => hac _ (hanc hc0 _ hmem)
      have hnd' : (c.toNat :: visited).Nodup := List.nodup_cons.2 ⟨hnot, hnd⟩
      have hlt' : ∀ v ∈ c.toNat :: visited, v < nodes.length := by
        intro v hvm
        rcases List.mem_cons.1 hvm with h | h
        · subst h; exact hcn
        · exact hlt v h
      obtain ⟨node, hn⟩ : ∃ node, nodes[c.toNat]? = some node :=
        ⟨_, List.getElem?_eq_getElem hcn⟩
      obtain ⟨f, hf⟩ : ∃ f, fns[c.toNat]? = some f :=
        ⟨_, List.getElem?_eq_getElem (by omega)⟩
      have hmem : node ∈ nodes := mem_of_getElem? hn
      obtain ⟨h1, h2, h3, h4⟩ := hv _ hmem
      simp only [RouteRow, hc0, if_true, hn, hf]
      rw [select_child _ _ h1 h2]
      obtain ⟨c', hcdef, hcor⟩ : ∃ c', (if f idx = true then node.Right else node.Left) = c' ∧
          (c' = node.Left ∨ c' = node.Right) := by
        cases f idx
        · exact ⟨node.Left, by simp, Or.inl rfl⟩
        · exact ⟨node.Right, by simp, Or.inr rfl⟩
      rw [hcdef]
      have hc' : c' < nodes.length := by
        rcases hcor with h | h <;> rw [h] <;> assumption
      have hedge : 0 ≤ c' → IsChildNode nodes c.toNat c'.toNat := by
        intro h0
        refine ⟨node, hn, ?_⟩
        rw [Int.toNat_of_nonneg h0]
        exact hcor
      obtain ⟨k, hk1, hk2, hk3, hk4⟩ := ih (c.toNat :: visited) c' hnd' hlt'
        (fun h0 v hvm => by
          rcases List.mem_cons.1 hvm with h | h
          · subst h; exact Relation.TransGen.single (hedge h0)
          · exact Relation.TransGen.tail (hanc hc0 v h) (hedge h0))
        hc' (by simp only [List.length_cons]; omega)
      refine ⟨k, hk1, hk2, fun h => absurd hc0 (by omega), fun _ => ?_⟩
      by_cases hneg : c' < 0
      · exact ⟨node, hmem, by rw [hk3 hneg]; exact hcor⟩
      · exact hk4 (by omega)
    · exact ⟨c, by simp [RouteRow, hc0], by omega, fun _ => rfl, fun h => absurd h hc0⟩

/-! ## The full-tree router as a whole -/

theorem BuildNodesSplitFunctions_spec (dec : TDecoders)
    (getObjectsDataAndIndexing : TGetObjectsDataAndIndexing) (nodesRef : List TSplitNode)
    (onlineCtrs : List (Option TOnlineCtrBase)) (objectSubsetIdx : Nat)
    (nodeIdxs : List Nat) (fns : List (Nat → Bool))
    (h : BuildNodesSplitFunctions dec getObjectsDataAndIndexing nodesRef onlineCtrs
      objectSubsetIdx nodeIdxs = .ok fns) :
    fns.length = nodeIdxs.length ∧
    ∀ (j nodeIdx : Nat) (f : Nat → Bool), nodeIdxs[j]? = some nodeIdx → fns[j]? = some f →
      BuildNodeRoutingFunction dec getObjectsDataAndIndexing nodesRef onlineCtrs
        objectSubsetIdx nodeIdx = .ok f := by
  induction nodeIdxs generalizing fns with
  | nil =>
    simp only [BuildNodesSplitFunctions, Except.ok.injEq] at h
    subst h
    exact ⟨rfl, fun j nodeIdx f hj => by simp at hj⟩
  | cons i rest ih =>
    unfold BuildNodesSplitFunctions at h
    cases h1 : BuildNodeRoutingFunction dec getObjectsDataAndIndexing nodesRef onlineCtrs
        objectSubsetIdx i with
    | error e => rw [h1] at h; simp at h
    | ok f0 =>
      rw [h1] at h
      cases h2 : BuildNodesSplitFunctions dec getObjectsDataAndIndexing nodesRef onlineCtrs
          objectSubsetIdx rest with
      | error e => rw [h2] at h; simp at h
      | ok fs =>
        rw [h2] at h
        simp only [Except.ok.injEq] at h
        subst h
        obtain ⟨il, ij⟩ := ih fs h2
        refine ⟨by simp [il], fun j nodeIdx f hj hf => ?_⟩
        cases j with
        | zero =>
          simp only [List.getElem?_cons_zero, Option.some.injEq] at hj hf
          subst hj; subst hf
          exact h1
        | succ j =>
          simp only [List.getElem?_cons_succ] at hj hf
          exact ij j nodeIdx f hj hf

theorem foldl_foldl_flatMap {σ : Type} (F : σ → Nat → σ) (f : Nat → List Nat)
    (sched : List Nat) (init : σ) :
    sched.foldl (fun st b => (f b).foldl F st) init = (sched.flatMap f).foldl F init := by
  induction sched generalizing init with
  | nil => rfl
  | cons c rest ih => rw [List.foldl_cons, ih, List.flatMap_cons, List.foldl_append]

/-- Effect of the row bodies on the assignment memory when every routing loop ends. -/
theorem RouteRowInto_foldl (nodes : List TSplitNode) (fns : List (Nat → Bool))
    (fuel : Nat) (root : Int) (rows : List Nat) (ind : Nat → Nat)
    (hfin : ∀ i ∈ rows, ∃ k, RouteRow nodes fns i fuel root = .finished k) :
    ∃ ind', rows.foldl (RouteRowInto nodes fns fuel root) (some (.returned ind))
        = some (.returned ind') ∧
      ∀ i, (i ∈ rows → ∃ k, RouteRow nodes fns i fuel root = .finished k ∧
              ind' i = toUi32 (not32 k)) ∧
        (i ∉ rows → ind' i = ind i) := by
  induction rows generalizing ind with
  | nil => exact ⟨ind, rfl, fun i => ⟨fun h => by simp at h, fun _ => rfl⟩⟩
  | cons r rs ih =>
    obtain ⟨k, hk⟩ := hfin r (List.mem_cons_self _ _)
    obtain ⟨ind', h1, h2⟩ := ih (Function.update ind r (toUi32 (not32 k)))
      (fun i hi => hfin i (List.mem_cons_of_mem _ hi))
    refine ⟨ind', ?_, fun i => ⟨fun hi => ?_, fun hi => ?_⟩⟩
    · rw [List.foldl_cons]
      simp only [RouteRowInto, hk]
      exact h1
    · by_cases hrs : i ∈ rs
      · exact (h2 i).1 hrs
      · have hir : i = r := by
          rcases List.mem_cons.1 hi with h | h
          · exact h
          · exact absurd h hrs
        subst hir
        exact ⟨k, hk, by rw [(h2 i).2 hrs]; simp⟩
    · have hrs : i ∉ rs := fun h => hi (List.mem_cons_of_mem _ h)
      have hir : i ≠ r := fun h => hi (by rw [h]; exact List.mem_cons_self _ _)
      rw [(h2 i).2 hrs, Function.update_noteq hir]

theorem SetBlockCount_covers (sampleCount blockCount : Nat) (hb : 0 < blockCount) :
    sampleCount ≤ (SetBlockCount sampleCount blockCount).RangesCount *
      (SetBlockCount sampleCount blockCount).BlockSize := by
  by_cases h0 : 0 < (SetBlockCount sampleCount blockCount).BlockSize
  · exact RangesCount_mul_ge _ h0
  · have hz : CeilDiv sampleCount blockCount = 0 := by
      simpa [SetBlockCount] using h0
    have := CeilDiv_mul_ge sampleCount blockCount hb
    rw [hz] at this
    omega

/-- The router, once the predicates are built and every routing loop ends within the
fuel: it returns, row `i < sampleCount` holds the complement of the index its loop ended
at, and every other cell is untouched. -/
theorem BuildIndicesForDataset_returned (dec : TDecoders)
    (getObjectsDataAndIndexing : TGetObjectsDataAndIndexing)
    (tree : TNonSymmetricTreeStructure) (sampleCount : Nat)
    (onlineCtrs : List (Option TOnlineCtrBase)) (objectSubsetIdx : Nat)
    (localExecutor : ILocalExecutor) (fuel : Nat) (indices : Nat → Nat)
    (fns : List (Nat → Bool))
    (hfair : localExecutor.RunsEachBlockOnce)
    (hbuild : BuildNodesSplitFunctions dec getObjectsDataAndIndexing tree.Nodes onlineCtrs
      objectSubsetIdx (List.range tree.GetNodesCount) = .ok fns)
    (hfin : ∀ i, i < sampleCount → ∃ k, RouteRow tree.Nodes fns i fuel tree.Root = .finished k) :
    ∃ ind', BuildIndicesForDataset dec getObjectsDataAndIndexing tree sampleCount onlineCtrs
        objectSubsetIdx localExecutor fuel indices = some (.returned ind') ∧
      ∀ i, (i < sampleCount → ∃ k, RouteRow tree.Nodes fns i fuel tree.Root = .finished k ∧
              ind' i = toUi32 (not32 k)) ∧
        (sampleCount ≤ i → ind' i = indices i) := by
  unfold BuildIndicesForDataset
  simp only [hbuild]
  unfold ExecRange
  generalize hg : SetBlockCount sampleCount (localExecutor.GetThreadCount + 1) = g
  have hcov : sampleCount ≤ g.RangesCount * g.BlockSize := by
    rw [← hg]; exact SetBlockCount_covers _ _ (by omega)
  have hfull : g.FullSize = sampleCount := by rw [← hg]; rfl
  have hsched := hfair 0 g.RangesCount
  rw [foldl_foldl_flatMap (RouteRowInto tree.Nodes fns fuel tree.Root)
    (fun b => (g.GetRange b).Iter)]
  have hmem : ∀ i, i ∈ (localExecutor.Schedule 0 g.RangesCount).flatMap
      (fun b => (g.GetRange b).Iter) ↔ i < sampleCount := by
    intro i
    rw [mem_flatMap_of_perm hsched, flatMap_Iter, hfull, Nat.min_eq_right hcov, List.mem_range]
  obtain ⟨ind', h1, h2⟩ := RouteRowInto_foldl tree.Nodes fns fuel tree.Root
    ((localExecutor.Schedule 0 g.RangesCount).flatMap (fun b => (g.GetRange b).Iter)) indices
    (fun i hi => hfin i ((hmem i).1 hi))
  refine ⟨ind', h1, fun i => ⟨fun hi => (h2 i).1 ((hmem i).2 hi), fun hi => (h2 i).2 ?_⟩⟩
  intro hin
  have := (hmem i).1 hin
  omega

/-! ## Claims about the single-split update -/

theorem exampleExecutor_fair : exampleExecutor.RunsEachBlockOnce :=
  fun _ blockCount => List.reverse_perm (List.range blockCount)

/-- C1: partition stability of `UpdateIndicesWithSplit`. Once the predicate of the node is
built, for every list of fewer than `2^32` row ids (empty, or longer than one block), every
thread count and every order in which the executor runs the blocks, the call returns, the
left output is the input filtered by the negated predicate and the right output is the
input filtered by the predicate, both in input order. -/
theorem UpdateIndicesWithSplit_stable_partition (dec : TDecoders)
    (getObjectsDataAndIndexing : TGetObjectsDataAndIndexing) (fresh : Nat → Nat → Nat)
    (node : TSplitNode) (docsSubset : List Nat) (fold : TFold)
    (localExecutor : ILocalExecutor) (indicesRef leftIndeces rightIndeces : List Nat)
    (func : Nat → Bool)
    (hfair : localExecutor.RunsEachBlockOnce)
    (hlen : docsSubset.length < 4294967296)
    (hbuild : BuildNodeSplitFunction dec node
      (getObjectsDataAndIndexing (decide (node.Split.SplitType = ESplitType.EstimatedFeature))
        node.Split.IsOnline 0).objectsDataProvider
      (if node.Split.SplitType = ESplitType.OnlineCtr
        then some (fold.GetCtr node.Split.Ctr.Projection) else none) 0 = .ok func) :
    (UpdateIndicesWithSplit dec getObjectsDataAndIndexing fresh node docsSubset fold
        localExecutor indicesRef leftIndeces rightIndeces).isReturned = true ∧
    (UpdateIndicesWithSplit dec getObjectsDataAndIndexing fresh node docsSubset fold
        localExecutor indicesRef leftIndeces rightIndeces).state.leftIndeces =
      docsSubset.filter (fun r => !RemapSplitFunction (getObjectsDataAndIndexing
        (decide (node.Split.SplitType = ESplitType.EstimatedFeature))
        node.Split.IsOnline 0).columnsIndexing func r) ∧
    (UpdateIndicesWithSplit dec getObjectsDataAndIndexing fresh node docsSubset fold
        localExecutor indicesRef leftIndeces rightIndeces).state.rightIndeces =
      docsSubset.filter (RemapSplitFunction (getObjectsDataAndIndexing
        (decide (node.Split.SplitType = ESplitType.EstimatedFeature))
        node.Split.IsOnline 0).columnsIndexing func) := by
  rw [UpdateIndicesWithSplit_returned dec getObjectsDataAndIndexing fresh node docsSubset fold
    localExecutor indicesRef leftIndeces rightIndeces func hfair hlen hbuild]
  exact ⟨rfl, rfl, rfl⟩

/-- The scenario of C1: rows `[10, 11, 12, 13]`, predicate true on rows 11 and 13. -/
theorem UpdateIndicesWithSplit_stable_partition_witness :
    exampleExecutor.RunsEachBlockOnce ∧ [10, 11, 12, 13].length < 4294967296 ∧
    (UpdateIndicesWithSplit exampleDecoders exampleData (fun _ _ => 7) exampleOnlineNode
      [10, 11, 12, 13] exampleFold exampleExecutor (List.replicate 14 0) [] []).state.leftIndeces
      = [10, 12] ∧
    (UpdateIndicesWithSplit exampleDecoders exampleData (fun _ _ => 7) exampleOnlineNode
      [10, 11, 12, 13] exampleFold exampleExecutor (List.replicate 14 0) [] []).state.rightIndeces
      = [11, 13] := by
  have h := UpdateIndicesWithSplit_stable_partition exampleDecoders exampleData (fun _ _ => 7)
    exampleOnlineNode [10, 11, 12, 13] exampleFold exampleExecutor (List.replicate 14 0) [] []
    (fun objIdx => decide ((0 : Int) < exampleCtr.GetData { Projection := 0 } 0 objIdx))
    exampleExecutor_fair (by decide) rfl
  exact ⟨exampleExecutor_fair, by decide, h.2.1.trans (by decide), h.2.2.trans (by decide)⟩

/-- C2: partition completeness of `UpdateIndicesWithSplit`. Once the predicate of the node
is built, for every list of fewer than `2^32` row ids, every thread count and every order
of the blocks, the lengths of the two outputs add up to the length of the input and the
multiset sum of the two outputs is the multiset of the input. -/
theorem UpdateIndicesWithSplit_partition_complete (dec : TDecoders)
    (getObjectsDataAndIndexing : TGetObjectsDataAndIndexing) (fresh : Nat → Nat → Nat)
    (node : TSplitNode) (docsSubset : List Nat) (fold : TFold)
    (localExecutor : ILocalExecutor) (indicesRef leftIndeces rightIndeces : List Nat)
    (func : Nat → Bool)
    (hfair : localExecutor.RunsEachBlockOnce)
    (hlen : docsSubset.length < 4294967296)
    (hbuild : BuildNodeSplitFunction dec node
      (getObjectsDataAndIndexing (decide (node.Split.SplitType = ESplitType.EstimatedFeature))
        node.Split.IsOnline 0).objectsDataProvider
      (if node.Split.SplitType = ESplitType.OnlineCtr
        then some (fold.GetCtr node.Split.Ctr.Projection) else none) 0 = .ok func) :
    (UpdateIndicesWithSplit dec getObjectsDataAndIndexing fresh node docsSubset fold
        localExecutor indicesRef leftIndeces rightIndeces).isReturned = true ∧
    (UpdateIndicesWithSplit dec getObjectsDataAndIndexing fresh node docsSubset fold
        localExecutor indicesRef leftIndeces rightIndeces).state.leftIndeces.length +
      (UpdateIndicesWithSplit dec getObjectsDataAndIndexing fresh node docsSubset fold
        localExecutor indicesRef leftIndeces rightIndeces).state.rightIndeces.length =
      docsSubset.length ∧
    ((UpdateIndicesWithSplit dec getObjectsDataAndIndexing fresh node docsSubset fold
        localExecutor indicesRef leftIndeces rightIndeces).state.leftIndeces : Multiset Nat) +
      ((UpdateIndicesWithSplit dec getObjectsDataAndIndexing fresh node docsSubset fold
        localExecutor indicesRef leftIndeces rightIndeces).state.rightIndeces : Multiset Nat) =
      (docsSubset : Multiset Nat) := by
  rw [UpdateIndicesWithSplit_returned dec getObjectsDataAndIndexing fresh node docsSubset fold
    localExecutor indicesRef leftIndeces rightIndeces func hfair hlen hbuild]
  simp only [TOutcome.isReturned, TOutcome.state, true_and]
  generalize RemapSplitFunction (getObjectsDataAndIndexing
    (decide (node.Split.SplitType = ESplitType.EstimatedFeature))
    node.Split.IsOnline 0).columnsIndexing func = p
  have hperm : (docsSubset.filter (fun r => !p r) ++ docsSubset.filter p).Perm docsSubset :=
    List.perm_append_comm.trans (List.filter_append_perm p docsSubset)
  refine ⟨?_, ?_⟩
  · rw [← List.length_append]
    exact hperm.length_eq
  · rw [Multiset.coe_add, Multiset.coe_eq_coe]
    exact hperm

/-- An instance of C2: six rows, one of them listed twice. -/
theorem UpdateIndicesWithSplit_partition_complete_witness :
    exampleExecutor.RunsEachBlockOnce ∧ [13, 10, 11, 13, 12, 9].length < 4294967296 ∧
    (UpdateIndicesWithSplit exampleDecoders exampleData (fun _ _ => 7) exampleOnlineNode
      [13, 10, 11, 13, 12, 9] exampleFold exampleExecutor (List.replicate 14 0) [] []
        ).state.leftIndeces.length +
      (UpdateIndicesWithSplit exampleDecoders exampleData (fun _ _ => 7) exampleOnlineNode
        [13, 10, 11, 13, 12, 9] exampleFold exampleExecutor (List.replicate 14 0) [] []
        ).state.rightIndeces.length = 6 :=
  ⟨exampleExecutor_fair, by decide,
    (UpdateIndicesWithSplit_partition_complete exampleDecoders exampleData (fun _ _ => 7)
      exampleOnlineNode [13, 10, 11, 13, 12, 9] exampleFold exampleExecutor
      (List.replicate 14 0) [] []
      (fun objIdx => decide ((0 : Int) < exampleCtr.GetData { Projection := 0 } 0 objIdx))
      exampleExecutor_fair (by decide) rfl).2.1⟩

theorem foldl_set_at (v : Nat → Nat) (rows : List Nat) (init : List Nat) (r : Nat)
    (hr : r ∈ rows) (hin : r < init.length) :
    (rows.foldl (fun a r => a.set r (v r)) init)[r]? = some (v r) := by
  rw [foldl_set_getElem?, if_pos hr, List.getElem?_eq_getElem hin]
  rfl

theorem ChildAssignment_eq (node : TSplitNode) (b : Bool) :
    ChildAssignment node b =
      if b then toUi32 (not32 node.Right) else toUi32 (not32 node.Left) := by
  cases b
  · simp [ChildAssignment_false]
  · simp [ChildAssignment_true]

/-- C3: single-split assignment. After `UpdateIndices`, and after `UpdateIndicesWithSplit`,
every row id `r` of `docsSubset` that lies inside the assignment array has
`indices[r] = ~Right` (as `ui32`) when the predicate holds on `r` and `indices[r] = ~Left`
when it does not, for all values of `Left` and `Right`, the arithmetic being done in
wrapping 32-bit integers. `UpdateIndices` needs the row ids to be `ui32` values,
`UpdateIndicesWithSplit` needs their number to fit its `ui32` size. -/
theorem single_split_assignment (dec : TDecoders)
    (getObjectsDataAndIndexing : TGetObjectsDataAndIndexing) (fresh : Nat → Nat → Nat)
    (node : TSplitNode) (docsSubset : List Nat) (fold : TFold)
    (localExecutor : ILocalExecutor) (indicesRef leftIndeces rightIndeces : List Nat)
    (hfair : localExecutor.RunsEachBlockOnce)
    (r : Nat) (hr : r ∈ docsSubset) (hin : r < indicesRef.length) :
    (∀ func, (∀ r ∈ docsSubset, r < 4294967296) →
      BuildNodeSplitFunction dec node
        (getObjectsDataAndIndexing (decide (node.Split.SplitType = ESplitType.EstimatedFeature))
          node.Split.IsOnline 0).objectsDataProvider
        (if node.Split.SplitType = ESplitType.OnlineCtr
          then some (fold.GetCtrs node.Split.Ctr.Projection) else none) 0 = .ok func →
      (UpdateIndices dec getObjectsDataAndIndexing node docsSubset fold localExecutor
          indicesRef).state[r]? =
        some (if RemapSplitFunction (getObjectsDataAndIndexing
            (decide (node.Split.SplitType = ESplitType.EstimatedFeature))
            node.Split.IsOnline 0).columnsIndexing func r
          then toUi32 (not32 node.Right) else toUi32 (not32 node.Left))) ∧
    (∀ func, docsSubset.length < 4294967296 →
      BuildNodeSplitFunction dec node
        (getObjectsDataAndIndexing (decide (node.Split.SplitType = ESplitType.EstimatedFeature))
          node.Split.IsOnline 0).objectsDataProvider
        (if node.Split.SplitType = ESplitType.OnlineCtr
          then some (fold.GetCtr node.Split.Ctr.Projection) else none) 0 = .ok func →
      (UpdateIndicesWithSplit dec getObjectsDataAndIndexing fresh node docsSubset fold
          localExecutor indicesRef leftIndeces rightIndeces).state.indicesRef[r]? =
        some (if RemapSplitFunction (getObjectsDataAndIndexing
            (decide (node.Split.SplitType = ESplitType.EstimatedFeature))
            node.Split.IsOnline 0).columnsIndexing func r
          then toUi32 (not32 node.Right) else toUi32 (not32 node.Left))) := by
  constructor
  · intro func hids hbuild
    rw [UpdateIndices_returned dec getObjectsDataAndIndexing node docsSubset fold localExecutor
      indicesRef func hfair hids hbuild]
    simp only [TOutcome.state]
    rw [foldl_set_at _ _ _ r hr hin, ChildAssignment_eq]
  · intro func hlen hbuild
    rw [UpdateIndicesWithSplit_returned dec getObjectsDataAndIndexing fresh node docsSubset fold
      localExecutor indicesRef leftIndeces rightIndeces func hfair hlen hbuild]
    simp only [TOutcome.state]
    rw [foldl_set_at _ _ _ r hr hin, ChildAssignment_eq]

/-- An instance of C3 with `Left = 2^31 - 1` and `Right = -2^31`, the two ends of the
`int` range: row 11 (predicate true) gets `~Right = 2^31 - 1`, row 10 (predicate false)
gets `~Left = -2^31`, stored as the `ui32` value `2^31`. -/
theorem single_split_assignment_witness :
    exampleExecutor.RunsEachBlockOnce ∧ [10, 11].length < 4294967296 ∧
    (∀ r ∈ [10, 11], r < 4294967296) ∧ 11 ∈ [10, 11] ∧ 11 < (List.replicate 14 0).length ∧
    (UpdateIndices exampleDecoders exampleData
      { exampleOnlineNode with Left := 2147483647, Right := -2147483648 } [10, 11]
      exampleFold exampleExecutor (List.replicate 14 0)).state[11]? = some 2147483647 ∧
    (UpdateIndicesWithSplit exampleDecoders exampleData (fun _ _ => 7)
      { exampleOnlineNode with Left := 2147483647, Right := -2147483648 } [10, 11]
      exampleFold exampleExecutor (List.replicate 14 0) [] []).state.indicesRef[10]?
      = some 2147483648 := by
  have h11 := (single_split_assignment exampleDecoders exampleData (fun _ _ => 7)
    { exampleOnlineNode with Left := 2147483647, Right := -2147483648 } [10, 11]
    exampleFold exampleExecutor (List.replicate 14 0) [] []
    exampleExecutor_fair 11 (by decide) (by decide)).1
    (fun objIdx => decide ((0 : Int) < exampleCtr.GetData { Projection := 0 } 0 objIdx))
    (by decide) rfl
  have h10 := (single_split_assignment exampleDecoders exampleData (fun _ _ => 7)
    { exampleOnlineNode with Left := 2147483647, Right := -2147483648 } [10, 11]
    exampleFold exampleExecutor (List.replicate 14 0) [] []
    exampleExecutor_fair 10 (by decide) (by decide)).2
    (fun objIdx => decide ((0 : Int) < exampleCtr.GetData { Projection := 0 } 0 objIdx))
    (by decide) rfl
  exact ⟨exampleExecutor_fair, by decide, by decide, by decide, by decide,
    h11.trans (by decide), h10.trans (by decide)⟩

/-- C8: index remapping in the single-split update. In `UpdateIndices` and in
`UpdateIndicesWithSplit`, whatever the kind of the split, a row id `r` of `docsSubset` is
routed by `base (translation r)` when `GetObjectsDataAndIndexing` hands back a translation
array and by `base r` when it hands back `nullptr`, `base` being the predicate built from
the split: the assignment of `r` is the child chosen by that value, and the right output of
`UpdateIndicesWithSplit` keeps exactly the row ids on which that value is true. The
translation is applied to the row id itself, not to its position in `docsSubset`. -/
theorem single_split_index_remapping (dec : TDecoders)
    (getObjectsDataAndIndexing : TGetObjectsDataAndIndexing) (fresh : Nat → Nat → Nat)
    (node : TSplitNode) (docsSubset : List Nat) (fold : TFold)
    (localExecutor : ILocalExecutor) (indicesRef leftIndeces rightIndeces : List Nat)
    (hfair : localExecutor.RunsEachBlockOnce) :
    (∀ base, (∀ r ∈ docsSubset, r < 4294967296) →
      BuildNodeSplitFunction dec node
        (getObjectsDataAndIndexing (decide (node.Split.SplitType = ESplitType.EstimatedFeature))
          node.Split.IsOnline 0).objectsDataProvider
        (if node.Split.SplitType = ESplitType.OnlineCtr
          then some (fold.GetCtrs node.Split.Ctr.Projection) else none) 0 = .ok base →
      (∀ translation, (getObjectsDataAndIndexing
            (decide (node.Split.SplitType = ESplitType.EstimatedFeature))
            node.Split.IsOnline 0).columnsIndexing = some translation →
        ∀ r ∈ docsSubset, r < indicesRef.length →
          (UpdateIndices dec getObjectsDataAndIndexing node docsSubset fold localExecutor
            indicesRef).state[r]? = some (ChildAssignment node (base (translation r)))) ∧
      ((getObjectsDataAndIndexing
            (decide (node.Split.SplitType = ESplitType.EstimatedFeature))
            node.Split.IsOnline 0).columnsIndexing = none →
        ∀ r ∈ docsSubset, r < indicesRef.length →
          (UpdateIndices dec getObjectsDataAndIndexing node docsSubset fold localExecutor
            indicesRef).state[r]? = some (ChildAssignment node (base r)))) ∧
    (∀ base, docsSubset.length < 4294967296 →
      BuildNodeSplitFunction dec node
        (getObjectsDataAndIndexing (decide (node.Split.SplitType = ESplitType.EstimatedFeature))
          node.Split.IsOnline 0).objectsDataProvider
        (if node.Split.SplitType = ESplitType.OnlineCtr
          then some (fold.GetCtr node.Split.Ctr.Projection) else none) 0 = .ok base →
      (∀ translation, (getObjectsDataAndIndexing
            (decide (node.Split.SplitType = ESplitType.EstimatedFeature))
            node.Split.IsOnline 0).columnsIndexing = some translation →
        (∀ r ∈ docsSubset, r < indicesRef.length →
          (UpdateIndicesWithSplit dec getObjectsDataAndIndexing fresh node docsSubset fold
              localExecutor indicesRef leftIndeces rightIndeces).state.indicesRef[r]? =
            some (ChildAssignment node (base (translation r)))) ∧
        (UpdateIndicesWithSplit dec getObjectsDataAndIndexing fresh node docsSubset fold
            localExecutor indicesRef leftIndeces rightIndeces).state.rightIndeces =
          docsSubset.filter (fun r => base (translation r))) ∧
      ((getObjectsDataAndIndexing
            (decide (node.Split.SplitType = ESplitType.EstimatedFeature))
            node.Split.IsOnline 0).columnsIndexing = none →
        (∀ r ∈ docsSubset, r < indicesRef.length →
          (UpdateIndicesWithSplit dec getObjectsDataAndIndexing fresh node docsSubset fold
              localExecutor indicesRef leftIndeces rightIndeces).state.indicesRef[r]? =
            some (ChildAssignment node (base r))) ∧
        (UpdateIndicesWithSplit dec getObjectsDataAndIndexing fresh node docsSubset fold
            localExecutor indicesRef leftIndeces rightIndeces).state.rightIndeces =
          docsSubset.filter (fun r => base r))) := by
  constructor
  · intro base hids hbuild
    rw [UpdateIndices_returned dec getObjectsDataAndIndexing node docsSubset fold localExecutor
      indicesRef base hfair hids hbuild]
    simp only [TOutcome.state]
    constructor
    · intro translation htr r hr hin
      rw [htr, foldl_set_at _ _ _ r hr hin]
      rfl
    · intro hnone r hr hin
      rw [hnone, foldl_set_at _ _ _ r hr hin]
      rfl
  · intro base hlen hbuild
    rw [UpdateIndicesWithSplit_returned dec getObjectsDataAndIndexing fresh node docsSubset fold
      localExecutor indicesRef leftIndeces rightIndeces base hfair hlen hbuild]
    simp only [TOutcome.state]
    constructor
    · intro translation htr
      rw [htr]
      refine ⟨fun r hr hin => ?_, rfl⟩
      rw [foldl_set_at _ _ _ r hr hin]
      rfl
    · intro hnone
      rw [hnone]
      refine ⟨fun r hr hin => ?_, rfl⟩
      rw [foldl_set_at _ _ _ r hr hin]
      rfl

/-- An instance of C8: rows `[12, 10]` with the translation `r ↦ r + 1` and a base
predicate true on rows 11 and 13. Row 12 is routed by the base predicate at row 13 (true)
and row 10 by the base predicate at row 11 (true); had the translation been applied to the
positions 0 and 1, both would have gone left. -/
theorem single_split_index_remapping_witness :
    exampleExecutor.RunsEachBlockOnce ∧ [12, 10].length < 4294967296 ∧
    (∀ r ∈ [12, 10], r < 4294967296) ∧
    (UpdateIndicesWithSplit exampleDecoders exampleDataShifted (fun _ _ => 7)
      exampleOnlineNode [12, 10] exampleFold exampleExecutor (List.replicate 14 0) [] []
      ).state.rightIndeces = [12, 10] ∧
    (UpdateIndices exampleDecoders exampleDataShifted exampleOnlineNode [12, 10] exampleFold
      exampleExecutor (List.replicate 14 0)).state[12]? = some 3 := by
  have h := single_split_index_remapping exampleDecoders exampleDataShifted (fun _ _ => 7)
    exampleOnlineNode [12, 10] exampleFold exampleExecutor (List.replicate 14 0) [] []
    exampleExecutor_fair
  have hU := (h.1
    (fun objIdx => decide ((0 : Int) < exampleCtr.GetData { Projection := 0 } 0 objIdx))
    (by decide) rfl).1 (fun r => r + 1) rfl 12 (by decide) (by decide)
  have hW := ((h.2
    (fun objIdx => decide ((0 : Int) < exampleCtr.GetData { Projection := 0 } 0 objIdx))
    (by decide) rfl).1 (fun r => r + 1) rfl).2
  exact ⟨exampleExecutor_fair, by decide, by decide, hW.trans (by decide),
    hU.trans (by decide)⟩

/-! ## Claims about the full-tree router -/

theorem RouteRow_fuel_mono (nodes : List TSplitNode) (fns : List (Nat → Bool)) (idx : Nat)
    (fuel : Nat) (c k : Int) (h : RouteRow nodes fns idx fuel c = .finished k) (d : Nat) :
    RouteRow nodes fns idx (fuel + d) c = .finished k := by
  induction fuel generalizing c with
  | zero =>
    by_cases hc : 0 ≤ c
    · simp [RouteRow, hc] at h
    · cases d with
      | zero => exact h
      | succ d =>
        simp only [RouteRow, hc, if_false] at h
        simp only [Nat.zero_add, RouteRow, hc, if_false]
        exact h
  | succ fuel ih =>
    have e : fuel + 1 + d = (fuel + d) + 1 := by omega
    rw [e]
    by_cases hc : 0 ≤ c
    · simp only [RouteRow, hc, if_true] at h ⊢
      cases hn : nodes[c.toNat]? with
      | none => rw [hn] at h; simp at h
      | some node =>
        cases hf : fns[c.toNat]? with
        | none => rw [hn, hf] at h; simp at h
        | some f =>
          rw [hn, hf] at h
          exact ih _ h
    · simp only [RouteRow, hc, if_false] at h ⊢
      exact h

theorem BuildNodesSplitFunctions_length (dec : TDecoders)
    (getObjectsDataAndIndexing : TGetObjectsDataAndIndexing)
    (tree : TNonSymmetricTreeStructure) (onlineCtrs : List (Option TOnlineCtrBase))
    (objectSubsetIdx : Nat) (fns : List (Nat → Bool))
    (hbuild : BuildNodesSplitFunctions dec getObjectsDataAndIndexing tree.Nodes onlineCtrs
      objectSubsetIdx (List.range tree.GetNodesCount) = .ok fns) :
    fns.length = tree.Nodes.length := by
  have := (BuildNodesSplitFunctions_spec _ _ _ _ _ _ _ hbuild).1
  simpa [TNonSymmetricTreeStructure.GetNodesCount] using this

/-- The routing loop of a row of a well-formed tree, started at the root with one unit of
fuel per node. -/
theorem RouteRow_from_root (tree : TNonSymmetricTreeStructure) (fns : List (Nat → Bool))
    (idx : Nat) (hv : ValidChildren tree.Nodes) (hac : Acyclic tree.Nodes)
    (hroot : ValidRoot tree) (hfl : fns.length = tree.Nodes.length) :
    ∃ k, RouteRow tree.Nodes fns idx tree.GetNodesCount tree.Root = .finished k ∧ k < 0 ∧
      IsInt32 k ∧ ∃ node ∈ tree.Nodes, k = node.Left ∨ k = node.Right := by
  obtain ⟨k, h1, h2, -, h4⟩ := RouteRow_finishes tree.Nodes fns idx hv hac hfl
    tree.GetNodesCount [] tree.Root List.nodup_nil (fun v hv => by simp at hv)
    (fun _ v hv => by simp at hv) hroot.2
    (by simp [TNonSymmetricTreeStructure.GetNodesCount])
  obtain ⟨node, hmem, hk⟩ := h4 hroot.1
  refine ⟨k, h1, h2, ?_, node, hmem, hk⟩
  obtain ⟨i1, i2, -, -⟩ := hv node hmem
  rcases hk with h | h <;> rw [h] <;> assumption

/-- C4: full-tree routing equals the reference descent. For every acyclic tree whose
non-negative child references are valid node indices, once the node predicates are built
and with at least one unit of fuel per node, `BuildIndicesForDataset` returns and the value
it stores in `indices[idx]`, for every `idx < sampleCount`, is the leaf the reference
recursion over tagged references reaches from the root. -/
theorem BuildIndicesForDataset_eq_reference (dec : TDecoders)
    (getObjectsDataAndIndexing : TGetObjectsDataAndIndexing)
    (tree : TNonSymmetricTreeStructure) (sampleCount : Nat)
    (onlineCtrs : List (Option TOnlineCtrBase)) (objectSubsetIdx : Nat)
    (localExecutor : ILocalExecutor) (fuel : Nat) (indices : Nat → Nat)
    (fns : List (Nat → Bool))
    (hfair : localExecutor.RunsEachBlockOnce)
    (hv : ValidChildren tree.Nodes) (hac : Acyclic tree.Nodes) (hroot : ValidRoot tree)
    (hbuild : BuildNodesSplitFunctions dec getObjectsDataAndIndexing tree.Nodes onlineCtrs
      objectSubsetIdx (List.range tree.GetNodesCount) = .ok fns)
    (hfuel : tree.GetNodesCount ≤ fuel) (idx : Nat) (hidx : idx < sampleCount) :
    (ReferenceDescent tree.Nodes fns idx fuel (.Node tree.Root.toNat)).isSome = true ∧
    StoredIndex (BuildIndicesForDataset dec getObjectsDataAndIndexing tree sampleCount
        onlineCtrs objectSubsetIdx localExecutor fuel indices) idx =
      ReferenceDescent tree.Nodes fns idx fuel (.Node tree.Root.toNat) := by
  have hfl := BuildNodesSplitFunctions_length _ _ _ _ _ _ hbuild
  have hfin : ∀ i, ∃ k, RouteRow tree.Nodes fns i fuel tree.Root = .finished k ∧ k < 0 ∧
      IsInt32 k := by
    intro i
    obtain ⟨k, h1, h2, h3, -⟩ := RouteRow_from_root tree fns i hv hac hroot hfl
    have := RouteRow_fuel_mono _ _ _ _ _ _ h1 (fuel - tree.GetNodesCount)
    rw [Nat.add_sub_cancel' hfuel] at this
    exact ⟨k, this, h2, h3⟩
  obtain ⟨ind', hret, hind⟩ := BuildIndicesForDataset_returned dec getObjectsDataAndIndexing
    tree sampleCount onlineCtrs objectSubsetIdx localExecutor fuel indices fns hfair hbuild
    (fun i _ => let ⟨k, h, _⟩ := hfin i; ⟨k, h⟩)
  obtain ⟨k, hk1, hk2, hk3⟩ := hfin idx
  obtain ⟨k', hk'1, hk'2⟩ := (hind idx).1 hidx
  have hkk : k' = k := by
    rw [hk1] at hk'1
    exact (TRouteResult.finished.inj hk'1).symm
  subst hkk
  have href := ReferenceDescent_eq_RouteRow tree.Nodes fns idx hv fuel tree.Root
  rw [hk1] at href
  simp only [ToChildRef, hroot.1, if_true] at href
  rw [hret, href]
  simp only [StoredIndex, Option.isSome_some, true_and, hk'2]
  rw [(toUi32_not32_neg k' hk3 hk2).2]

theorem exampleTree_acyclic : Acyclic exampleTree.Nodes := by
  intro n h
  have hno : ∀ a b, ¬ IsChildNode exampleTree.Nodes a b := by
    rintro a b ⟨node, hn, hc⟩
    have hmem := mem_of_getElem? hn
    simp only [exampleTree, List.mem_singleton] at hmem
    subst hmem
    simp only [exampleFloatNode] at hc
    omega
  cases h with
  | single h => exact hno _ _ h
  | tail _ h => exact hno _ _ h

theorem exampleTree_valid : ValidChildren exampleTree.Nodes ∧ ValidRoot exampleTree := by
  refine ⟨?_, by unfold ValidRoot; decide⟩
  intro node hmem
  simp only [exampleTree, List.mem_singleton] at hmem
  subst hmem
  decide

/-- The scenario of C4: the codes `[1, 3, 2, 5]` of the four rows route to the leaves
`[0, 1, 0, 1]`. -/
theorem BuildIndicesForDataset_eq_reference_witness :
    exampleExecutor.RunsEachBlockOnce ∧ ValidChildren exampleTree.Nodes ∧
    Acyclic exampleTree.Nodes ∧ ValidRoot exampleTree ∧ exampleTree.GetNodesCount ≤ 1 ∧
    (List.range 4).map (StoredIndex (BuildIndicesForDataset exampleDecoders exampleRoutingData
      exampleTree 4 [none] 0 exampleExecutor 1 (fun _ => 9))) = [some 0, some 1, some 0, some 1] := by
  have h := BuildIndicesForDataset_eq_reference exampleDecoders exampleRoutingData
    exampleTree 4 [none] 0 exampleExecutor 1 (fun _ => 9) [exampleRoutingPredicate]
    exampleExecutor_fair exampleTree_valid.1 exampleTree_acyclic exampleTree_valid.2 rfl
    (by decide)
  refine ⟨exampleExecutor_fair, exampleTree_valid.1, exampleTree_acyclic, exampleTree_valid.2,
    by decide, ?_⟩
  simp only [List.range, List.range.loop, List.map]
  rw [(h 0 (by decide)).2, (h 1 (by decide)).2, (h 2 (by decide)).2, (h 3 (by decide)).2]
  decide

/-- C5: every row reaches exactly one leaf. For every acyclic tree whose non-negative child
references are valid node indices and every `idx < sampleCount`, the routing loop ends
within `GetNodesCount` iterations (one unit of fuel per visited node), never reads outside
the node array, and ends at a negative `Left` or `Right` field `k` of a node of the tree;
with at least that much fuel `BuildIndicesForDataset` returns and the value stored in
`indices[idx]` is the complement `-k - 1` of that field, a non-negative number. -/
theorem every_row_reaches_one_leaf (dec : TDecoders)
    (getObjectsDataAndIndexing : TGetObjectsDataAndIndexing)
    (tree : TNonSymmetricTreeStructure) (sampleCount : Nat)
    (onlineCtrs : List (Option TOnlineCtrBase)) (objectSubsetIdx : Nat)
    (localExecutor : ILocalExecutor) (fuel : Nat) (indices : Nat → Nat)
    (fns : List (Nat → Bool))
    (hfair : localExecutor.RunsEachBlockOnce)
    (hv : ValidChildren tree.Nodes) (hac : Acyclic tree.Nodes) (hroot : ValidRoot tree)
    (hbuild : BuildNodesSplitFunctions dec getObjectsDataAndIndexing tree.Nodes onlineCtrs
      objectSubsetIdx (List.range tree.GetNodesCount) = .ok fns)
    (hfuel : tree.GetNodesCount ≤ fuel) (idx : Nat) (hidx : idx < sampleCount) :
    ∃ k, RouteRow tree.Nodes fns idx tree.GetNodesCount tree.Root = .finished k ∧
      k < 0 ∧ (∃ node ∈ tree.Nodes, k = node.Left ∨ k = node.Right) ∧
      StoredIndex (BuildIndicesForDataset dec getObjectsDataAndIndexing tree sampleCount
        onlineCtrs objectSubsetIdx localExecutor fuel indices) idx = some (toUi32 (not32 k)) ∧
      ((toUi32 (not32 k) : Nat) : Int) = -k - 1 ∧ (0 : Int) ≤ -k - 1 := by
  have hfl := BuildNodesSplitFunctions_length _ _ _ _ _ _ hbuild
  have hfin : ∀ i, ∃ k, RouteRow tree.Nodes fns i fuel tree.Root = .finished k := by
    intro i
    obtain ⟨k, h1, -⟩ := RouteRow_from_root tree fns i hv hac hroot hfl
    have := RouteRow_fuel_mono _ _ _ _ _ _ h1 (fuel - tree.GetNodesCount)
    rw [Nat.add_sub_cancel' hfuel] at this
    exact ⟨k, this⟩
  obtain ⟨ind', hret, hind⟩ := BuildIndicesForDataset_returned dec getObjectsDataAndIndexing
    tree sampleCount onlineCtrs objectSubsetIdx localExecutor fuel indices fns hfair hbuild
    (fun i _ => hfin i)
  obtain ⟨k, hk1, hk2, hk3, hk4⟩ := RouteRow_from_root tree fns idx hv hac hroot hfl
  obtain ⟨k', hk'1, hk'2⟩ := (hind idx).1 hidx
  have hmono := RouteRow_fuel_mono _ _ _ _ _ _ hk1 (fuel - tree.GetNodesCount)
  rw [Nat.add_sub_cancel' hfuel, hk'1] at hmono
  have hkk : k' = k := TRouteResult.finished.inj hmono
  subst hkk
  refine ⟨k', hk1, hk2, hk4, ?_, (toUi32_not32_neg k' hk3 hk2).1, by omega⟩
  rw [hret]
  simp only [StoredIndex, hk'2]

/-- An instance of C5: row 3 of the routing scenario (code 5) ends at the field
`Right = -2` of the root after one visit and is stored as leaf `1`. -/
theorem every_row_reaches_one_leaf_witness :
    exampleExecutor.RunsEachBlockOnce ∧ ValidChildren exampleTree.Nodes ∧
    Acyclic exampleTree.Nodes ∧ ValidRoot exampleTree ∧ exampleTree.GetNodesCount ≤ 5 ∧
    RouteRow exampleTree.Nodes [exampleRoutingPredicate] 3 exampleTree.GetNodesCount
      exampleTree.Root = .finished (-2) ∧
    StoredIndex (BuildIndicesForDataset exampleDecoders exampleRoutingData exampleTree 4
      [none] 0 exampleExecutor 5 (fun _ => 9)) 3 = some 1 := by
  obtain ⟨k, h1, -, -, h4, -, -⟩ := every_row_reaches_one_leaf exampleDecoders
    exampleRoutingData exampleTree 4 [none] 0 exampleExecutor 5 (fun _ => 9)
    [exampleRoutingPredicate] exampleExecutor_fair exampleTree_valid.1 exampleTree_acyclic
    exampleTree_valid.2 rfl (by decide) 3 (by decide)
  have hk : RouteRow exampleTree.Nodes [exampleRoutingPredicate] 3 exampleTree.GetNodesCount
      exampleTree.Root = .finished (-2) := by decide
  rw [hk] at h1
  have hkk : k = -2 := (TRouteResult.finished.inj h1).symm
  subst hkk
  exact ⟨exampleExecutor_fair, exampleTree_valid.1, exampleTree_acyclic, exampleTree_valid.2,
    by decide, hk, h4.trans (by decide)⟩

/-! ## Claims about the predicate builder -/

theorem Dispatch_ok_iff (a : TCompressedArray) :
    (∃ fd, DispatchBitsPerKeyToDataType a = .ok fd) ↔ RecognisedBitsPerKey a.BitsPerKey := by
  unfold DispatchBitsPerKeyToDataType RecognisedBitsPerKey
  constructor
  · rintro ⟨fd, h⟩
    by_cases h8 : a.BitsPerKey = 8
    · exact Or.inl h8
    · by_cases h16 : a.BitsPerKey = 16
      · exact Or.inr (Or.inl h16)
      · by_cases h32 : a.BitsPerKey = 32
        · exact Or.inr (Or.inr h32)
        · simp [h8, h16, h32] at h
  · rintro (h | h | h) <;> simp [h]

theorem Dispatch_eq (a : TCompressedArray) (h : RecognisedBitsPerKey a.BitsPerKey) :
    DispatchBitsPerKeyToDataType a = .ok (fun i => a.RawData i % 2 ^ a.BitsPerKey) := by
  unfold DispatchBitsPerKeyToDataType
  rcases h with h | h | h <;> simp [h]

theorem Dispatch_error (a : TCompressedArray) (h : ¬ RecognisedBitsPerKey a.BitsPerKey) :
    DispatchBitsPerKeyToDataType a = .error TError.UnsupportedEncoding := by
  unfold RecognisedBitsPerKey at h
  unfold DispatchBitsPerKeyToDataType
  have h8 : ¬ a.BitsPerKey = 8 := fun e => h (Or.inl e)
  have h16 : ¬ a.BitsPerKey = 16 := fun e => h (Or.inr (Or.inl e))
  have h32 : ¬ a.BitsPerKey = 32 := fun e => h (Or.inr (Or.inr e))
  simp [h8, h16, h32]

/-- C10: unsupported encoding is an error, not a wrong predicate. `BuildNodeSplitFunction`
over a column returns a predicate exactly when the column is the compressed-values holder
with a recognised bit width (8, 16 or 32), the predicate then being the comparison applied
to the key of the row read at that width; for every other column it fails with
`UnsupportedEncoding`. -/
theorem unsupported_encoding_is_an_error (column : TColumn) (cmpOp : Nat → Bool) :
    ((∃ f, BuildNodeSplitFunctionColumn column cmpOp = .ok f) ↔ IsDecodable column) ∧
    (¬ IsDecodable column →
      BuildNodeSplitFunctionColumn column cmpOp = .error TError.UnsupportedEncoding) ∧
    (∀ f, BuildNodeSplitFunctionColumn column cmpOp = .ok f →
      ∃ a, column = .TCompressedValuesHolderImpl a ∧ RecognisedBitsPerKey a.BitsPerKey ∧
        f = fun objIdx => cmpOp (a.RawData objIdx % 2 ^ a.BitsPerKey)) := by
  cases column with
  | OtherHolder values =>
    simp [BuildNodeSplitFunctionColumn, IsDecodable]
  | TCompressedValuesHolderImpl a =>
    by_cases hr : RecognisedBitsPerKey a.BitsPerKey
    · have hd := Dispatch_eq a hr
      simp only [BuildNodeSplitFunctionColumn, hd, IsDecodable]
      refine ⟨⟨fun _ => hr, fun _ => ⟨_, rfl⟩⟩, fun h => absurd hr h, fun f hf => ?_⟩
      simp only [Except.ok.injEq] at hf
      exact ⟨a, rfl, hr, hf.symm⟩
    · have hd := Dispatch_error a hr
      simp only [BuildNodeSplitFunctionColumn, hd, IsDecodable]
      refine ⟨⟨fun ⟨f, hf⟩ => by simp at hf, fun h => absurd h hr⟩, fun _ => trivial,
        fun f hf => by simp at hf⟩

theorem Column_ok (column : TColumn) (cmpOp : Nat → Bool) (i code : Nat)
    (h : ExtractedCode column i = some code) :
    ∃ fd : Nat → Nat,
      BuildNodeSplitFunctionColumn column cmpOp = .ok (fun objIdx => cmpOp (fd objIdx)) ∧
      fd i = code ∧ fd i < 4294967296 ∧
      (∀ a, column = .TCompressedValuesHolderImpl a →
        (a.BitsPerKey = 8 ∨ a.BitsPerKey = 16) → fd i < 65536) := by
  cases column with
  | OtherHolder values => simp [ExtractedCode] at h
  | TCompressedValuesHolderImpl a =>
    by_cases hr : RecognisedBitsPerKey a.BitsPerKey
    · have hd := Dispatch_eq a hr
      simp only [ExtractedCode, hd, Option.some.injEq] at h
      refine ⟨fun i => a.RawData i % 2 ^ a.BitsPerKey,
        by simp only [BuildNodeSplitFunctionColumn, hd], h, ?_, ?_⟩
      · show a.RawData i % 2 ^ a.BitsPerKey < 4294967296
        rcases hr with h8 | h16 | h32
        · rw [h8]; have := Nat.mod_lt (a.RawData i) (by norm_num : 0 < 2 ^ 8); omega
        · rw [h16]; have := Nat.mod_lt (a.RawData i) (by norm_num : 0 < 2 ^ 16); omega
        · rw [h32]; have := Nat.mod_lt (a.RawData i) (by norm_num : 0 < 2 ^ 32); omega
      · intro a' ha' hbits
        cases ha'
        show a.RawData i % 2 ^ a.BitsPerKey < 65536
        rcases hbits with h8 | h16
        · rw [h8]; have := Nat.mod_lt (a.RawData i) (by norm_num : 0 < 2 ^ 8); omega
        · rw [h16]; have := Nat.mod_lt (a.RawData i) (by norm_num : 0 < 2 ^ 16); omega
    · have hd := Dispatch_error a hr
      simp [ExtractedCode, hd] at h

/-- C6, as the code has it: threshold semantics of a float or estimated-feature split on a
plainly stored column. The predicate at a row is the comparison of the row's extracted
code and of the border, both reduced to `ui16`. Hence, for a border `0 ≤ B < 2^16` and a
row whose code is below `2^16` (every row of an 8- or 16-bit column), the predicate is
true exactly when the code is strictly greater than `B`: code `B` goes left and code
`B + 1` goes right. -/
theorem float_threshold_semantics (dec : TDecoders) (node : TSplitNode)
    (objectsDataProvider : TQuantizedForCPUObjectsDataProvider)
    (onlineCtr : Option TOnlineCtrBase) (datasetIdx : Nat) (column : TColumn)
    (i code : Nat)
    (htype : node.Split.SplitType = ESplitType.FloatFeature ∨
      node.Split.SplitType = ESplitType.EstimatedFeature)
    (hbundle : objectsDataProvider.GetFloatFeatureToExclusiveBundleIndex
      (toUi32 node.Split.FeatureIdx) = none)
    (hpack : objectsDataProvider.GetFloatFeatureToPackedBinaryIndex
      (toUi32 node.Split.FeatureIdx) = none)
    (hgroup : objectsDataProvider.GetFloatFeatureToFeaturesGroupIndex
      (toUi32 node.Split.FeatureIdx) = none)
    (hcolumn : objectsDataProvider.GetFloatFeature (toUi32 node.Split.FeatureIdx) = some column)
    (hcode : ExtractedCode column i = some code) :
    PredicateAt (BuildNodeSplitFunction dec node objectsDataProvider onlineCtr datasetIdx) i =
      some (decide (toUi16 node.Split.BinBorder < code % 65536)) ∧
    (0 ≤ node.Split.BinBorder → node.Split.BinBorder < 65536 → code < 65536 →
      PredicateAt (BuildNodeSplitFunction dec node objectsDataProvider onlineCtr datasetIdx) i =
        some (decide (node.Split.BinBorder < (code : Int)))) ∧
    (∀ a, column = .TCompressedValuesHolderImpl a → (a.BitsPerKey = 8 ∨ a.BitsPerKey = 16) →
      code < 65536) ∧
    (0 ≤ node.Split.BinBorder → node.Split.BinBorder < 65536 →
      (code : Int) = node.Split.BinBorder →
      PredicateAt (BuildNodeSplitFunction dec node objectsDataProvider onlineCtr datasetIdx) i =
        some false) ∧
    (0 ≤ node.Split.BinBorder → code < 65536 → (code : Int) = node.Split.BinBorder + 1 →
      PredicateAt (BuildNodeSplitFunction dec node objectsDataProvider onlineCtr datasetIdx) i =
        some true) := by
  obtain ⟨fd, hfd, hfi, -, hsmall⟩ := Column_ok column
    (fun bucket => IsTrueHistogram (bucket % 65536) (toUi16 node.Split.BinBorder)) i code hcode
  have hne : ¬ node.Split.SplitType = ESplitType.OnlineCtr := by
    rcases htype with h | h <;> rw [h] <;> decide
  have hmain : PredicateAt (BuildNodeSplitFunction dec node objectsDataProvider onlineCtr
      datasetIdx) i = some (decide (toUi16 node.Split.BinBorder < code % 65536)) := by
    simp only [BuildNodeSplitFunction, hne, if_false, htype, if_true, hcolumn,
      BuildNodeSplitFunctionEncoded, hbundle, hpack, hgroup, hfd, PredicateAt]
    simp only [IsTrueHistogram, hfi]
  have hexact : 0 ≤ node.Split.BinBorder → node.Split.BinBorder < 65536 → code < 65536 →
      decide (toUi16 node.Split.BinBorder < code % 65536) =
        decide (node.Split.BinBorder < (code : Int)) := by
    intro h0 h1 h2
    have : (toUi16 node.Split.BinBorder < code % 65536) ↔
        (node.Split.BinBorder < (code : Int)) := by
      unfold toUi16
      omega
    exact decide_eq_decide.2 this
  refine ⟨hmain, fun h0 h1 h2 => by rw [hmain, hexact h0 h1 h2], fun a ha hb => ?_,
    fun h0 h1 h2 => ?_, fun h0 h1 h2 => ?_⟩
  · rw [← hfi]; exact hsmall a ha hb
  · rw [hmain, hexact h0 h1 (by omega)]
    simp only [Option.some.injEq, decide_eq_false_iff_not]
    omega
  · rw [hmain, hexact h0 (by omega) h1]
    simp only [Option.some.injEq, decide_eq_true_eq]
    omega

/-- An instance of the amended C6 on a 16-bit column holding the codes `[7, 8]`, with
border 7: code 7 goes left and code 8 goes right. -/
theorem float_threshold_semantics_witness :
    ExtractedCode (exampleColumn 16 [7, 8]) 0 = some 7 ∧
    ExtractedCode (exampleColumn 16 [7, 8]) 1 = some 8 ∧
    PredicateAt (BuildNodeSplitFunction exampleDecoders (exampleFloatNodeAt 7)
      (exampleProvider (exampleColumn 16 [7, 8]) (exampleColumn 8 [])) none 0) 0 = some false ∧
    PredicateAt (BuildNodeSplitFunction exampleDecoders (exampleFloatNodeAt 7)
      (exampleProvider (exampleColumn 16 [7, 8]) (exampleColumn 8 [])) none 0) 1 = some true :=
  ⟨by decide, by decide,
    (float_threshold_semantics exampleDecoders (exampleFloatNodeAt 7)
      (exampleProvider (exampleColumn 16 [7, 8]) (exampleColumn 8 [])) none 0
      (exampleColumn 16 [7, 8]) 0 7 (Or.inl rfl) rfl rfl rfl rfl (by decide)).2.2.2.1
      (by decide) (by decide) (by decide),
    (float_threshold_semantics exampleDecoders (exampleFloatNodeAt 7)
      (exampleProvider (exampleColumn 16 [7, 8]) (exampleColumn 8 [])) none 0
      (exampleColumn 16 [7, 8]) 1 8 (Or.inl rfl) rfl rfl rfl rfl (by decide)).2.2.2.2
      (by decide) (by decide) (by decide)⟩

/-- C6 fails as stated on 32-bit codes: in a plain 32-bit column a row with the extracted
code `65536` is sent left by the border `65535` (and by the border `0`), although its code
is the border plus one (and strictly greater than `0`). -/
theorem float_threshold_semantics_counterexample :
    ExtractedCode (exampleColumn 32 [65536]) 0 = some 65536 ∧
    (exampleFloatNodeAt 65535).Split.BinBorder + 1 = 65536 ∧
    PredicateAt (BuildNodeSplitFunction exampleDecoders (exampleFloatNodeAt 65535)
      (exampleProvider (exampleColumn 32 [65536]) (exampleColumn 8 [])) none 0) 0 = some false ∧
    (exampleFloatNodeAt 0).Split.BinBorder < 65536 ∧
    PredicateAt (BuildNodeSplitFunction exampleDecoders (exampleFloatNodeAt 0)
      (exampleProvider (exampleColumn 32 [65536]) (exampleColumn 8 [])) none 0) 0 = some false := by
  refine ⟨by decide, by decide, by decide, by decide, by decide⟩

theorem Column_factors (column : TColumn) (g : Nat → Nat) (cmpOp : Nat → Bool)
    (f : Nat → Bool)
    (h : BuildNodeSplitFunctionColumn column (fun v => cmpOp (g v)) = .ok f) :
    ∃ bucket : Nat → Nat, f = (fun i => cmpOp (bucket i)) ∧
      ∀ cmpOp' : Nat → Bool, BuildNodeSplitFunctionColumn column (fun v => cmpOp' (g v)) =
        .ok (fun i => cmpOp' (bucket i)) := by
  cases column with
  | OtherHolder values => simp [BuildNodeSplitFunctionColumn] at h
  | TCompressedValuesHolderImpl a =>
    cases hd : DispatchBitsPerKeyToDataType a with
    | error e => simp [BuildNodeSplitFunctionColumn, hd] at h
    | ok fd =>
      simp only [BuildNodeSplitFunctionColumn, hd, Except.ok.injEq] at h
      refine ⟨fun i => g (fd i), h.symm, fun cmpOp' => ?_⟩
      simp only [BuildNodeSplitFunctionColumn, hd]

/-- The predicate the sub-encoding dispatch builds is the comparison applied to a value
extracted from the row, the extraction not depending on the comparison. -/
theorem Encoded_factors (dec : TDecoders)
    (maybeExclusiveBundleIndex : Option TExclusiveBundleIndex)
    (maybeBinaryIndex : Option TPackedBinaryIndex)
    (maybeFeaturesGroupIndex : Option TFeaturesGroupIndex)
    (metaData : List TExclusiveFeaturesBundle) (column : TColumn)
    (getBundle getPack getGroup : Nat → TColumn) (cmpOp : Nat → Bool) (f : Nat → Bool)
    (h : BuildNodeSplitFunctionEncoded dec maybeExclusiveBundleIndex maybeBinaryIndex
      maybeFeaturesGroupIndex metaData column getBundle getPack getGroup cmpOp = .ok f) :
    ∃ bucket : Nat → Nat, f = (fun i => cmpOp (bucket i)) ∧
      ∀ cmpOp' : Nat → Bool, BuildNodeSplitFunctionEncoded dec maybeExclusiveBundleIndex
        maybeBinaryIndex maybeFeaturesGroupIndex metaData column getBundle getPack getGroup
        cmpOp' = .ok (fun i => cmpOp' (bucket i)) := by
  unfold BuildNodeSplitFunctionEncoded at h
  cases hb : maybeBinaryIndex with
  | some binaryIndex =>
    rw [hb] at h
    simp only [] at h
    obtain ⟨bucket, h1, h2⟩ := Column_factors _
      (fun featuresPack => ((featuresPack % 256) &&& ((1 <<< binaryIndex.BitIdx) % 256)) >>>
        (binaryIndex.BitIdx % 256)) cmpOp f h
    exact ⟨bucket, h1, fun cmpOp' => by
      simp only [BuildNodeSplitFunctionEncoded]; exact h2 cmpOp'⟩
  | none =>
    rw [hb] at h
    simp only [] at h
    cases he : maybeExclusiveBundleIndex with
    | some bundleIndex =>
      rw [he] at h
      simp only [] at h
      cases hm : metaData[bundleIndex.BundleIdx]? with
      | none => rw [hm] at h; simp at h
      | some bundle =>
        rw [hm] at h
        simp only [] at h
        cases hp : bundle.Parts[bundleIndex.InBundleIdx]? with
        | none => rw [hp] at h; simp at h
        | some part =>
          rw [hp] at h
          simp only [] at h
          obtain ⟨bucket, h1, h2⟩ := Column_factors _
            (fun featuresBundle => dec.GetBinFromBundle (featuresBundle % 65536) part.Bounds
              % 65536) cmpOp f h
          exact ⟨bucket, h1, fun cmpOp' => by
            simp only [BuildNodeSplitFunctionEncoded, hm, hp]; exact h2 cmpOp'⟩
    | none =>
      rw [he] at h
      simp only [] at h
      cases hg : maybeFeaturesGroupIndex with
      | some groupIndex =>
        rw [hg] at h
        simp only [] at h
        obtain ⟨bucket, h1, h2⟩ := Column_factors _
          (fun featuresGroupValue => dec.GetPartValueFromGroup featuresGroupValue
            groupIndex.InGroupIdx) cmpOp f h
        exact ⟨bucket, h1, fun cmpOp' => by
          simp only [BuildNodeSplitFunctionEncoded]; exact h2 cmpOp'⟩
      | none =>
        rw [hg] at h
        simp only [] at h
        obtain ⟨bucket, h1, h2⟩ := Column_factors column (fun v => v) cmpOp f h
        exact ⟨bucket, h1, fun cmpOp' => by
          simp only [BuildNodeSplitFunctionEncoded]; exact h2 cmpOp'⟩

/-- C7: one-hot semantics. For a `OneHotFeature` split whose `BinBorder` is the target
bucket `t`, the built predicate is true at a row exactly when the bucket extracted for the
row, taken as `ui32`, equals `t`; every other bucket goes left. The extracted bucket is the
value the sub-encoding dispatch hands to whatever comparison it is given; for a plainly
stored categorical column it is the row's code. -/
theorem one_hot_semantics (dec : TDecoders) (node : TSplitNode)
    (objectsDataProvider : TQuantizedForCPUObjectsDataProvider)
    (onlineCtr : Option TOnlineCtrBase) (datasetIdx : Nat) (t : Nat) (f : Nat → Bool)
    (htype : node.Split.SplitType = ESplitType.OneHotFeature)
    (ht : node.Split.BinBorder = (t : Int)) (hlt : t < 4294967296)
    (hbuild : BuildNodeSplitFunction dec node objectsDataProvider onlineCtr datasetIdx = .ok f) :
    (∃ column, ∃ bucket : Nat → Nat,
      objectsDataProvider.GetCatFeature (toUi32 node.Split.FeatureIdx) = some column ∧
      (∀ cmpOp : Nat → Bool, BuildNodeSplitFunctionEncoded dec
        (objectsDataProvider.GetCatFeatureToExclusiveBundleIndex (toUi32 node.Split.FeatureIdx))
        (objectsDataProvider.GetCatFeatureToPackedBinaryIndex (toUi32 node.Split.FeatureIdx))
        (objectsDataProvider.GetCatFeatureToFeaturesGroupIndex (toUi32 node.Split.FeatureIdx))
        objectsDataProvider.GetExclusiveFeatureBundlesMetaData column
        objectsDataProvider.GetExclusiveFeaturesBundle objectsDataProvider.GetBinaryFeaturesPack
        objectsDataProvider.GetFeaturesGroup cmpOp = .ok (fun i => cmpOp (bucket i))) ∧
      ∀ i, PredicateAt (BuildNodeSplitFunction dec node objectsDataProvider onlineCtr
        datasetIdx) i = some (decide (bucket i % 4294967296 = t))) ∧
    (objectsDataProvider.GetCatFeatureToExclusiveBundleIndex
        (toUi32 node.Split.FeatureIdx) = none →
      objectsDataProvider.GetCatFeatureToPackedBinaryIndex
        (toUi32 node.Split.FeatureIdx) = none →
      objectsDataProvider.GetCatFeatureToFeaturesGroupIndex
        (toUi32 node.Split.FeatureIdx) = none →
      ∀ column i code,
        objectsDataProvider.GetCatFeature (toUi32 node.Split.FeatureIdx) = some column →
        ExtractedCode column i = some code →
        PredicateAt (BuildNodeSplitFunction dec node objectsDataProvider onlineCtr
          datasetIdx) i = some (decide (code = t))) := by
  have hne : ¬ node.Split.SplitType = ESplitType.OnlineCtr := by rw [htype]; decide
  have hnf : ¬ (node.Split.SplitType = ESplitType.FloatFeature ∨
      node.Split.SplitType = ESplitType.EstimatedFeature) := by rw [htype]; decide
  have ht32 : toUi32 node.Split.BinBorder = t := by rw [ht]; exact toUi32_natCast t hlt
  have hpred : ∀ i, PredicateAt (BuildNodeSplitFunction dec node objectsDataProvider onlineCtr
      datasetIdx) i = some (f i) := fun i => by rw [hbuild]; rfl
  simp only [BuildNodeSplitFunction, hne, if_false, hnf] at hbuild
  cases hcol : objectsDataProvider.GetCatFeature (toUi32 node.Split.FeatureIdx) with
  | none => rw [hcol] at hbuild; simp at hbuild
  | some column =>
    rw [hcol] at hbuild
    simp only [] at hbuild
    obtain ⟨bucket, h1, h2⟩ := Encoded_factors _ _ _ _ _ _ _ _ _ _ _ hbuild
    refine ⟨⟨column, bucket, rfl, h2, fun i => ?_⟩, ?_⟩
    · rw [hpred, h1]
      simp only [IsTrueOneHotFeature, ht32]
    · intro hbundle hpack hgroup column' i code hcol' hcode
      simp only [Option.some.injEq] at hcol'
      subst hcol'
      obtain ⟨fd, hfd, hfi, hfl, -⟩ := Column_ok column
        (fun bucket => IsTrueOneHotFeature (bucket % 4294967296)
          (toUi32 node.Split.BinBorder)) i code hcode
      simp only [BuildNodeSplitFunctionEncoded, hbundle, hpack, hgroup, hfd,
        Except.ok.injEq] at hbuild
      rw [hpred, ← hbuild]
      simp only [IsTrueOneHotFeature, ht32, hfi]
      rw [hfi] at hfl
      rw [Nat.mod_eq_of_lt hfl]

/-- An instance of C7 on a plain 8-bit categorical column holding the buckets `[4, 2, 4]`,
with target bucket 4: row 0 goes right, row 1 goes left. -/
theorem one_hot_semantics_witness :
    (exampleOneHotNodeAt 4).Split.SplitType = ESplitType.OneHotFeature ∧
    (exampleOneHotNodeAt 4).Split.BinBorder = ((4 : Nat) : Int) ∧ 4 < 4294967296 ∧
    PredicateAt (BuildNodeSplitFunction exampleDecoders (exampleOneHotNodeAt 4)
      (exampleProvider (exampleColumn 8 []) (exampleColumn 8 [4, 2, 4])) none 0) 0
      = some true ∧
    PredicateAt (BuildNodeSplitFunction exampleDecoders (exampleOneHotNodeAt 4)
      (exampleProvider (exampleColumn 8 []) (exampleColumn 8 [4, 2, 4])) none 0) 1
      = some false := by
  have h := (one_hot_semantics exampleDecoders (exampleOneHotNodeAt 4)
    (exampleProvider (exampleColumn 8 []) (exampleColumn 8 [4, 2, 4])) none 0 4
    (fun objIdx => IsTrueOneHotFeature ([4, 2, 4].getD objIdx 0 % 256 % 4294967296) 4)
    rfl rfl (by decide) rfl).2 rfl rfl rfl (exampleColumn 8 [4, 2, 4])
  exact ⟨rfl, rfl, by decide, (h 0 4 rfl (by decide)).trans (by decide),
    (h 1 2 rfl (by decide)).trans (by decide)⟩

/-- C9, as the code has it: the full-tree router builds the predicate of each node with
`BuildNodeSplitFunction`, the builder of the single-split path, and applies the index
remapper to float, estimated and one-hot nodes only. For such a node the routing predicate
at row `i` is the base predicate at `translation[i]` when a translation array is present
and the base predicate at `i` when none is; for an online-statistic node the routing
predicate is the base predicate at `i` whether or not a translation array is present. -/
theorem full_tree_router_remapping (dec : TDecoders)
    (getObjectsDataAndIndexing : TGetObjectsDataAndIndexing)
    (tree : TNonSymmetricTreeStructure) (onlineCtrs : List (Option TOnlineCtrBase))
    (objectSubsetIdx : Nat) (fns : List (Nat → Bool)) (nodeIdx : Nat) (node : TSplitNode)
    (onlineCtr : Option TOnlineCtrBase) (base : Nat → Bool)
    (hall : BuildNodesSplitFunctions dec getObjectsDataAndIndexing tree.Nodes onlineCtrs
      objectSubsetIdx (List.range tree.GetNodesCount) = .ok fns)
    (hnode : tree.Nodes[nodeIdx]? = some node)
    (hctr : onlineCtrs[nodeIdx]? = some onlineCtr)
    (hbase : BuildNodeSplitFunction dec node
      (getObjectsDataAndIndexing (decide (node.Split.SplitType = ESplitType.EstimatedFeature))
        node.Split.IsOnline objectSubsetIdx).objectsDataProvider onlineCtr objectSubsetIdx
      = .ok base) :
    (node.Split.SplitType ≠ ESplitType.OnlineCtr →
      ∀ translation, (getObjectsDataAndIndexing
          (decide (node.Split.SplitType = ESplitType.EstimatedFeature))
          node.Split.IsOnline objectSubsetIdx).columnsIndexing = some translation →
        fns[nodeIdx]? = some (fun i => base (translation i))) ∧
    (node.Split.SplitType ≠ ESplitType.OnlineCtr →
      (getObjectsDataAndIndexing
          (decide (node.Split.SplitType = ESplitType.EstimatedFeature))
          node.Split.IsOnline objectSubsetIdx).columnsIndexing = none →
        fns[nodeIdx]? = some base) ∧
    (node.Split.SplitType = ESplitType.OnlineCtr → fns[nodeIdx]? = some base) := by
  obtain ⟨hlen, hspec⟩ := BuildNodesSplitFunctions_spec _ _ _ _ _ _ _ hall
  have hlt : nodeIdx < tree.GetNodesCount := by
    obtain ⟨h, -⟩ := List.getElem?_eq_some.1 hnode
    exact h
  obtain ⟨f, hf⟩ : ∃ f, fns[nodeIdx]? = some f :=
    ⟨_, List.getElem?_eq_getElem (by rw [hlen, List.length_range]; exact hlt)⟩
  have hroute := hspec nodeIdx nodeIdx f (List.getElem?_range hlt) hf
  simp only [BuildNodeRoutingFunction, hnode, hctr, hbase] at hroute
  rw [hf]
  refine ⟨fun hne translation htr => ?_, fun hne hnone => ?_, fun heq => ?_⟩
  · simp only [hne, if_false, htr, Except.ok.injEq] at hroute
    rw [hroute]
  · simp only [hne, if_false, hnone, Except.ok.injEq] at hroute
    rw [hroute]
  · simp only [heq, if_true, Except.ok.injEq] at hroute
    rw [hroute]

/-- An instance of the amended C9: the float node of the routing scenario under the
translation `i ↦ 3 - i`. Row 0 is routed by the code of row 3 (code 5, right), row 1 by
the code of row 2 (code 2, left). -/
theorem full_tree_router_remapping_witness :
    exampleFloatNode.Split.SplitType ≠ ESplitType.OnlineCtr ∧
    (List.range 4).map (StoredIndex (BuildIndicesForDataset exampleDecoders
      (fun _ _ _ =>
        { objectsDataProvider :=
            exampleProvider (exampleColumn 8 [1, 3, 2, 5]) (exampleColumn 8 []),
          columnsIndexing := some (fun i => 3 - i) })
      exampleTree 4 [none] 0 exampleExecutor 1 (fun _ => 9))) =
      [some 1, some 0, some 1, some 0] ∧
    BuildNodesSplitFunctions exampleDecoders
      (fun _ _ _ =>
        { objectsDataProvider :=
            exampleProvider (exampleColumn 8 [1, 3, 2, 5]) (exampleColumn 8 []),
          columnsIndexing := some (fun i => 3 - i) })
      exampleTree.Nodes [none] 0 (List.range exampleTree.GetNodesCount)
      = .ok [fun i => exampleRoutingPredicate (3 - i)] ∧
    [fun i => exampleRoutingPredicate (3 - i)][0]? =
      some (fun i => exampleRoutingPredicate (3 - i)) :=
  ⟨by decide, by decide, rfl,
    (full_tree_router_remapping exampleDecoders
      (fun _ _ _ =>
        { objectsDataProvider :=
            exampleProvider (exampleColumn 8 [1, 3, 2, 5]) (exampleColumn 8 []),
          columnsIndexing := some (fun i => 3 - i) })
      exampleTree [none] 0 [fun i => exampleRoutingPredicate (3 - i)] 0 exampleFloatNode none
      exampleRoutingPredicate rfl rfl rfl rfl).1 (by decide) (fun i => 3 - i) rfl⟩

/-- C9 fails as stated on online-statistic nodes: with the translation `r ↦ r + 1` present,
the router routes row 10 of a node splitting on an online statistic by the statistic of
row 10 (value 0, left, leaf 2), not by the statistic of the translated row 11 (value 1,
on which the base predicate is true). -/
theorem full_tree_router_remapping_counterexample :
    exampleOnlineNode.Split.SplitType = ESplitType.OnlineCtr ∧
    ((exampleDataShifted false true 0).columnsIndexing.map (fun translation => translation 10))
      = some 11 ∧
    PredicateAt (BuildNodeSplitFunction exampleDecoders exampleOnlineNode
      (exampleDataShifted false true 0).objectsDataProvider (some exampleCtr) 0) 11
      = some true ∧
    PredicateAt (BuildNodeRoutingFunction exampleDecoders exampleDataShifted
      [exampleOnlineNode] [some exampleCtr] 0 0) 10 = some false ∧
    StoredIndex (BuildIndicesForDataset exampleDecoders exampleDataShifted
      { Nodes := [exampleOnlineNode], Root := 0 } 14 [some exampleCtr] 0 exampleExecutor 1
      (fun _ => 9)) 10 = some 2 := by
  refine ⟨rfl, rfl, by decide, by decide, by decide⟩

/-! ## Claims about determinism, frames and failures -/

theorem exampleSerialExecutor_fair : exampleSerialExecutor.RunsEachBlockOnce :=
  fun _ blockCount => List.Perm.refl (List.range blockCount)

theorem RouteRowInto_foldl_stuck (nodes : List TSplitNode) (fns : List (Nat → Bool))
    (fuel : Nat) (root : Int) (rows : List Nat) (st : Option (TOutcome (Nat → Nat)))
    (idx : Nat) (h : StoredIndex st idx = none) :
    StoredIndex (rows.foldl (RouteRowInto nodes fns fuel root) st) idx = none := by
  induction rows generalizing st with
  | nil => exact h
  | cons r rs ih =>
    rw [List.foldl_cons]
    apply ih
    cases st with
    | none => rfl
    | some o =>
      cases o with
      | returned ind => simp [StoredIndex] at h
      | threw e s => rfl

/-- A run of the row bodies in which the loop of some row does not end at a leaf leaves
no finished assignment, wherever that row stands in the order. -/
theorem RouteRowInto_foldl_fail (nodes : List TSplitNode) (fns : List (Nat → Bool))
    (fuel : Nat) (root : Int) (rows : List Nat) (ind : Nat → Nat) (idx : Nat)
    (hfail : ∃ i ∈ rows, ¬ ∃ k, RouteRow nodes fns i fuel root = .finished k) :
    StoredIndex (rows.foldl (RouteRowInto nodes fns fuel root) (some (.returned ind))) idx
      = none := by
  induction rows generalizing ind with
  | nil =>
    obtain ⟨i, hi, -⟩ := hfail
    simp at hi
  | cons r rs ih =>
    rw [List.foldl_cons]
    cases hr : RouteRow nodes fns r fuel root with
    | finished k =>
      simp only [RouteRowInto, hr]
      apply ih
      obtain ⟨i, hi, hno⟩ := hfail
      rcases List.mem_cons.1 hi with h | h
      · subst h
        exact absurd ⟨k, hr⟩ hno
      · exact ⟨i, h, hno⟩
    | outOfRange =>
      simp only [RouteRowInto, hr]
      exact RouteRowInto_foldl_stuck _ _ _ _ _ _ _ rfl
    | outOfFuel =>
      simp only [RouteRowInto, hr]
      exact RouteRowInto_foldl_stuck _ _ _ _ _ _ _ rfl

/-- The rows on which the `ExecRange` of the router runs its body: the rows of the blocks
in the order of the schedule. -/
theorem BuildIndicesForDataset_rows (localExecutor : ILocalExecutor) (sampleCount : Nat)
    (hfair : localExecutor.RunsEachBlockOnce) (i : Nat) :
    i ∈ (localExecutor.Schedule 0
        (SetBlockCount sampleCount (localExecutor.GetThreadCount + 1)).RangesCount).flatMap
        (fun b => ((SetBlockCount sampleCount (localExecutor.GetThreadCount + 1)).GetRange b).Iter)
      ↔ i < sampleCount := by
  have hcov := SetBlockCount_covers sampleCount (localExecutor.GetThreadCount + 1) (by omega)
  rw [mem_flatMap_of_perm (hfair 0 _), flatMap_Iter]
  have hfull : (SetBlockCount sampleCount (localExecutor.GetThreadCount + 1)).FullSize
      = sampleCount := rfl
  rw [hfull, Nat.min_eq_right hcov, List.mem_range]

/-- C11: full-tree routing determinism. For every tree, data, `sampleCount` and fuel, two
runs of `BuildIndicesForDataset` on the same inputs leave the same value in every cell,
whatever the worker thread counts of the two executors and whatever the orders in which
they run the blocks: the block count `threadCount + 1` does not influence any
`indices[idx]`. -/
theorem full_tree_routing_determinism (dec : TDecoders)
    (getObjectsDataAndIndexing : TGetObjectsDataAndIndexing)
    (tree : TNonSymmetricTreeStructure) (sampleCount : Nat)
    (onlineCtrs : List (Option TOnlineCtrBase)) (objectSubsetIdx : Nat)
    (first second : ILocalExecutor) (fuel : Nat) (indices : Nat → Nat)
    (hfirst : first.RunsEachBlockOnce) (hsecond : second.RunsEachBlockOnce) (idx : Nat) :
    StoredIndex (BuildIndicesForDataset dec getObjectsDataAndIndexing tree sampleCount
        onlineCtrs objectSubsetIdx first fuel indices) idx =
    StoredIndex (BuildIndicesForDataset dec getObjectsDataAndIndexing tree sampleCount
        onlineCtrs objectSubsetIdx second fuel indices) idx := by
  cases hbuild : BuildNodesSplitFunctions dec getObjectsDataAndIndexing tree.Nodes onlineCtrs
      objectSubsetIdx (List.range tree.GetNodesCount) with
  | error e =>
    simp only [BuildIndicesForDataset, hbuild, StoredIndex]
  | ok fns =>
    by_cases hall : ∀ i, i < sampleCount →
        ∃ k, RouteRow tree.Nodes fns i fuel tree.Root = .finished k
    · obtain ⟨ind1, hret1, hind1⟩ := BuildIndicesForDataset_returned dec
        getObjectsDataAndIndexing tree sampleCount onlineCtrs objectSubsetIdx first
        fuel indices fns hfirst hbuild hall
      obtain ⟨ind2, hret2, hind2⟩ := BuildIndicesForDataset_returned dec
        getObjectsDataAndIndexing tree sampleCount onlineCtrs objectSubsetIdx second
        fuel indices fns hsecond hbuild hall
      rw [hret1, hret2]
      simp only [StoredIndex, Option.some.injEq]
      by_cases hidx : idx < sampleCount
      · obtain ⟨k1, hk1, hv1⟩ := (hind1 idx).1 hidx
        obtain ⟨k2, hk2, hv2⟩ := (hind2 idx).1 hidx
        rw [hk1] at hk2
        rw [hv1, hv2, TRouteResult.finished.inj hk2]
      · rw [(hind1 idx).2 (by omega), (hind2 idx).2 (by omega)]
    · simp only [not_forall] at hall
      obtain ⟨i, hi, hno⟩ := hall
      have hnone : ∀ e : ILocalExecutor, e.RunsEachBlockOnce →
          StoredIndex (BuildIndicesForDataset dec getObjectsDataAndIndexing tree sampleCount
            onlineCtrs objectSubsetIdx e fuel indices) idx = none := by
        intro e he
        simp only [BuildIndicesForDataset, hbuild, ExecRange]
        rw [foldl_foldl_flatMap (RouteRowInto tree.Nodes fns fuel tree.Root)
          (fun b => ((SetBlockCount sampleCount (e.GetThreadCount + 1)).GetRange b).Iter)]
        exact RouteRowInto_foldl_fail _ _ _ _ _ _ _
          ⟨i, (BuildIndicesForDataset_rows e sampleCount he i).2 hi, hno⟩
      rw [hnone first hfirst, hnone second hsecond]

/-- An instance of C11: the routing scenario run by a pool of three threads in decreasing
block order and by no worker thread in increasing block order gives the same leaf for
row 1, the leaf `1`. -/
theorem full_tree_routing_determinism_witness :
    exampleExecutor.RunsEachBlockOnce ∧ exampleSerialExecutor.RunsEachBlockOnce ∧
    StoredIndex (BuildIndicesForDataset exampleDecoders exampleRoutingData exampleTree 4
      [none] 0 exampleExecutor 1 (fun _ => 9)) 1 = some 1 ∧
    StoredIndex (BuildIndicesForDataset exampleDecoders exampleRoutingData exampleTree 4
      [none] 0 exampleSerialExecutor 1 (fun _ => 9)) 1 = some 1 := by
  have h := full_tree_routing_determinism exampleDecoders exampleRoutingData exampleTree 4
    [none] 0 exampleExecutor exampleSerialExecutor 1 (fun _ => 9) exampleExecutor_fair
    exampleSerialExecutor_fair 1
  have h1 : StoredIndex (BuildIndicesForDataset exampleDecoders exampleRoutingData exampleTree
      4 [none] 0 exampleExecutor 1 (fun _ => 9)) 1 = some 1 := by decide
  exact ⟨exampleExecutor_fair, exampleSerialExecutor_fair, h1, h.symm.trans h1⟩

/-! ## Claims about blocks and offsets -/

/-- The second pass of `UpdateIndicesWithSplit` starts from `BuffersAfterPrefixSums`. -/
theorem UpdateIndicesWithSplit_eq_scatter (dec : TDecoders)
    (getObjectsDataAndIndexing : TGetObjectsDataAndIndexing) (fresh : Nat → Nat → Nat)
    (node : TSplitNode) (docsSubset : List Nat) (fold : TFold)
    (localExecutor : ILocalExecutor) (indicesRef leftIndeces rightIndeces : List Nat)
    (func : Nat → Bool)
    (hbuild : BuildNodeSplitFunction dec node
      (getObjectsDataAndIndexing (decide (node.Split.SplitType = ESplitType.EstimatedFeature))
        node.Split.IsOnline 0).objectsDataProvider
      (if node.Split.SplitType = ESplitType.OnlineCtr
        then some (fold.GetCtr node.Split.Ctr.Projection) else none) 0 = .ok func) :
    (UpdateIndicesWithSplit dec getObjectsDataAndIndexing fresh node docsSubset fold
        localExecutor indicesRef leftIndeces rightIndeces).state.leftIndeces =
      ((localExecutor.Schedule 1
          (SingleSplitRanges (docsSubset.length % 4294967296)
            localExecutor.GetThreadCount).RangesCount).foldl
        (fun o b => CopyLocal
          (BuffersAfterPrefixSums node (RemapSplitFunction (getObjectsDataAndIndexing
            (decide (node.Split.SplitType = ESplitType.EstimatedFeature))
            node.Split.IsOnline 0).columnsIndexing func) docsSubset localExecutor
            indicesRef).nLefts
          (BuffersAfterPrefixSums node (RemapSplitFunction (getObjectsDataAndIndexing
            (decide (node.Split.SplitType = ESplitType.EstimatedFeature))
            node.Split.IsOnline 0).columnsIndexing func) docsSubset localExecutor
            indicesRef).localLefts b o)
        (NewArray (fresh 0)
          ((BuffersAfterPrefixSums node (RemapSplitFunction (getObjectsDataAndIndexing
            (decide (node.Split.SplitType = ESplitType.EstimatedFeature))
            node.Split.IsOnline 0).columnsIndexing func) docsSubset localExecutor
            indicesRef).nLefts.getD
            (SingleSplitRanges (docsSubset.length % 4294967296)
              localExecutor.GetThreadCount).RangesCount 0))) := by
  unfold UpdateIndicesWithSplit
  simp only [hbuild, TOutcome.state, ExecRange]
  rw [ScatterBlock_foldl]
  rfl

/-- The cells one copy loop leaves untouched: all but those of `CopyLocalWrites`. -/
theorem CopyLocal_frame (starts : List Nat) (locals : List (List Nat)) (b : Nat)
    (out : List Nat) (k : Nat) (hk : k ∉ CopyLocalWrites starts b) :
    (CopyLocal starts locals b out)[k]? = out[k]? := by
  unfold CopyLocal
  simp only []
  rw [foldl_set_range_getElem?]
  have hno : ¬ (starts.getD b 0 ≤ k ∧
      k < starts.getD b 0 + (starts.getD (b + 1) 0 - starts.getD b 0)) := by
    intro h
    apply hk
    unfold CopyLocalWrites
    exact List.mem_map.2 ⟨k - starts.getD b 0, List.mem_range.2 (by omega), by omega⟩
  rw [if_neg hno]

theorem flatMap_offsets (off : Nat → Nat) (hmono : ∀ b, off b ≤ off (b + 1)) (h0 : off 0 = 0)
    (B : Nat) :
    (List.range B).flatMap (fun b => (List.range (off (b + 1) - off b)).map (fun j => off b + j))
      = List.range (off B) := by
  induction B with
  | zero => simp [h0]
  | succ B ih =>
    rw [List.range_succ, List.flatMap_append, ih]
    simp only [List.flatMap_cons, List.flatMap_nil, List.append_nil]
    rw [← List.range_add]
    congr 1
    have := hmono B
    omega

/-- Offsets that are the lengths of the concatenations of the parts tile the output: they
start at zero, grow with the block id, every cell below the total lies in the range of
exactly one block, and the cells written by all blocks, in any order of the blocks, are
the cells of the output, each once. -/
theorem offsets_tile (parts : Nat → List Nat) (B : Nat) (starts : List Nat)
    (hstarts : ∀ i, i ≤ B → starts.getD i 0 = (ConcatParts parts i).length)
    (sched : List Nat) (hperm : sched.Perm (List.range B)) :
    starts.getD 0 0 = 0 ∧
    (∀ b, b < B → starts.getD (b + 1) 0 = starts.getD b 0 + (parts b).length) ∧
    (∀ b c, b < c → c ≤ B → starts.getD (b + 1) 0 ≤ starts.getD c 0) ∧
    (∀ k, k < starts.getD B 0 →
      ∃! b, b < B ∧ starts.getD b 0 ≤ k ∧ k < starts.getD (b + 1) 0) ∧
    (sched.flatMap (CopyLocalWrites starts)).Perm (List.range (starts.getD B 0)) := by
  have hsucc : ∀ b, b < B → starts.getD (b + 1) 0 = starts.getD b 0 + (parts b).length := by
    intro b hb
    rw [hstarts (b + 1) (by omega), hstarts b (by omega), ConcatParts_succ, List.length_append]
  have hle : ∀ b c, b < c → c ≤ B → starts.getD (b + 1) 0 ≤ starts.getD c 0 := by
    intro b c hbc hc
    rw [hstarts (b + 1) (by omega), hstarts c hc]
    exact ConcatParts_length_mono parts (b + 1) c (by omega)
  refine ⟨by rw [hstarts 0 (by omega)]; simp [ConcatParts], hsucc, hle, ?_, ?_⟩
  · intro k hk
    rw [hstarts B (Nat.le_refl _)] at hk
    obtain ⟨b, hb, h1, h2⟩ := ConcatParts_exists_block parts B k hk
    refine ⟨b, ⟨hb, by rw [hstarts b (by omega)]; exact h1,
      by rw [hstarts (b + 1) (by omega)]; exact h2⟩, ?_⟩
    rintro c ⟨hc, hc1, hc2⟩
    rw [hstarts c (by omega)] at hc1
    rw [hstarts (c + 1) (by omega)] at hc2
    rcases Nat.lt_trichotomy c b with hlt | heq | hgt
    · have := ConcatParts_length_mono parts (c + 1) b (by omega)
      omega
    · exact heq
    · have := ConcatParts_length_mono parts (b + 1) c (by omega)
      omega
  · have hfm := hperm.flatMap_right (CopyLocalWrites starts)
    refine hfm.trans ?_
    have heq : (List.range B).flatMap (CopyLocalWrites starts) =
        (List.range B).flatMap (fun b =>
          (List.range ((ConcatParts parts (b + 1)).length - (ConcatParts parts b).length)).map
            (fun j => (ConcatParts parts b).length + j)) := by
      apply List.flatMap_congr
      intro b hb
      have hb' := List.mem_range.1 hb
      unfold CopyLocalWrites
      rw [hstarts b (by omega), hstarts (b + 1) (by omega)]
    rw [heq, flatMap_offsets (fun b => (ConcatParts parts b).length)
      (fun b => ConcatParts_length_mono parts b (b + 1) (by omega)) (by simp [ConcatParts]) B,
      hstarts B (Nat.le_refl _)]

/-- The count vectors after the prefix-sum loop hold, at cell `i`, the number of rows the
blocks before `i` send left (respectively right). -/
theorem BuffersAfterPrefixSums_spec (node : TSplitNode) (p : Nat → Bool)
    (docsSubset : List Nat) (localExecutor : ILocalExecutor) (indicesRef : List Nat)
    (hfair : localExecutor.RunsEachBlockOnce) (hlen : docsSubset.length < 4294967296) :
    (∀ i, i ≤ (SingleSplitRanges docsSubset.length localExecutor.GetThreadCount).RangesCount →
      (BuffersAfterPrefixSums node p docsSubset localExecutor indicesRef).nLefts.getD i 0 =
        (ConcatParts (fun b => (BlockRows docsSubset
          (SingleSplitRanges docsSubset.length localExecutor.GetThreadCount) b).filter
            (fun r => !p r)) i).length) ∧
    (∀ i, i ≤ (SingleSplitRanges docsSubset.length localExecutor.GetThreadCount).RangesCount →
      (BuffersAfterPrefixSums node p docsSubset localExecutor indicesRef).nRights.getD i 0 =
        (ConcatParts (fun b => (BlockRows docsSubset
          (SingleSplitRanges docsSubset.length localExecutor.GetThreadCount) b).filter p)
            i).length) := by
  unfold BuffersAfterPrefixSums
  have hmod : docsSubset.length % 4294967296 = docsSubset.length := Nat.mod_eq_of_lt hlen
  simp only [hmod]
  generalize SingleSplitRanges docsSubset.length localExecutor.GetThreadCount = g
  have hsched0 := hfair 0 g.RangesCount
  obtain ⟨-, p2, p3, p4, p5, p6, p7, -, -⟩ := pass1_foldl node p docsSubset g g.RangesCount
    (localExecutor.Schedule 0 g.RangesCount)
    (fun b hb => List.mem_range.1 (hsched0.mem_iff.1 hb))
    { indicesRef := indicesRef,
      nLefts := List.replicate (g.RangesCount + 1) 0,
      nRights := List.replicate (g.RangesCount + 1) 0,
      localLefts := List.replicate g.RangesCount [],
      localRights := List.replicate g.RangesCount [] }
    (by simp) (by simp) (by simp) (by simp)
  unfold ExecRange
  exact ⟨PrefixSums_spec (fun b => (BlockRows docsSubset g b).filter (fun r => !p r))
      g.RangesCount _ p2 (by rw [p4]; simp)
      (fun b hb => by rw [p6 b, if_pos (hsched0.mem_iff.2 (List.mem_range.2 hb))]),
    PrefixSums_spec (fun b => (BlockRows docsSubset g b).filter p)
      g.RangesCount _ p3 (by rw [p5]; simp)
      (fun b hb => by rw [p7 b, if_pos (hsched0.mem_iff.2 (List.mem_range.2 hb))])⟩

theorem SingleSplitRanges_rows (docs : List Nat) (threadCount : Nat) :
    (List.range (SingleSplitRanges docs.length threadCount).RangesCount).flatMap
      (BlockRows docs (SingleSplitRanges docs.length threadCount)) = docs := by
  have h := BlockRows_concat docs (SingleSplitRanges docs.length threadCount)
    (by simp [SingleSplitRanges]) (Nat.le_refl _)
  rw [h]
  exact List.take_of_length_le (Nat.le_refl _)

/-- C12: prefix-sum offsets tile the outputs. In `UpdateIndicesWithSplit`, for fewer than
`2^32` rows and after the prefix-sum loop, `nLefts[b]` is the number of left rows in the
blocks before `b`, so `nLefts[0] = 0`, `nLefts[b+1] = nLefts[b] + (left rows of block b)`,
the destination ranges `[nLefts[b], nLefts[b+1])` are ordered by block id and pairwise
disjoint, every cell below `nLefts[blockCount]`, the size of the left array, lies in
exactly one of them, and the cells written by the scatter pass, whatever the order of the
blocks, are the cells `0 .. nLefts[blockCount] - 1`, each once. The same holds for
`nRights` and the right array. -/
theorem prefix_sum_offsets_tile (node : TSplitNode) (p : Nat → Bool)
    (docsSubset : List Nat) (localExecutor : ILocalExecutor) (indicesRef : List Nat)
    (hfair : localExecutor.RunsEachBlockOnce) (hlen : docsSubset.length < 4294967296) :
    ((∀ b, b ≤ (SingleSplitRanges docsSubset.length localExecutor.GetThreadCount).RangesCount →
        (BuffersAfterPrefixSums node p docsSubset localExecutor indicesRef).nLefts.getD b 0 =
          (((List.range b).flatMap (BlockRows docsSubset
            (SingleSplitRanges docsSubset.length localExecutor.GetThreadCount))).filter
              (fun r => !p r)).length) ∧
      (BuffersAfterPrefixSums node p docsSubset localExecutor indicesRef).nLefts.getD
          (SingleSplitRanges docsSubset.length localExecutor.GetThreadCount).RangesCount 0 =
        (docsSubset.filter (fun r => !p r)).length ∧
      (BuffersAfterPrefixSums node p docsSubset localExecutor indicesRef).nLefts.getD 0 0 = 0 ∧
      (∀ b, b < (SingleSplitRanges docsSubset.length localExecutor.GetThreadCount).RangesCount →
        (BuffersAfterPrefixSums node p docsSubset localExecutor indicesRef).nLefts.getD (b + 1) 0
          = (BuffersAfterPrefixSums node p docsSubset localExecutor indicesRef).nLefts.getD b 0
            + ((BlockRows docsSubset (SingleSplitRanges docsSubset.length
                localExecutor.GetThreadCount) b).filter (fun r => !p r)).length) ∧
      (∀ b c, b < c →
        c ≤ (SingleSplitRanges docsSubset.length localExecutor.GetThreadCount).RangesCount →
        (BuffersAfterPrefixSums node p docsSubset localExecutor indicesRef).nLefts.getD (b + 1) 0
          ≤ (BuffersAfterPrefixSums node p docsSubset localExecutor indicesRef).nLefts.getD c 0) ∧
      (∀ k, k < (BuffersAfterPrefixSums node p docsSubset localExecutor indicesRef).nLefts.getD
          (SingleSplitRanges docsSubset.length localExecutor.GetThreadCount).RangesCount 0 →
        ∃! b, b < (SingleSplitRanges docsSubset.length
            localExecutor.GetThreadCount).RangesCount ∧
          (BuffersAfterPrefixSums node p docsSubset localExecutor indicesRef).nLefts.getD b 0
            ≤ k ∧
          k < (BuffersAfterPrefixSums node p docsSubset localExecutor
            indicesRef).nLefts.getD (b + 1) 0) ∧
      ((localExecutor.Schedule 1 (SingleSplitRanges docsSubset.length
          localExecutor.GetThreadCount).RangesCount).flatMap
          (CopyLocalWrites (BuffersAfterPrefixSums node p docsSubset localExecutor
            indicesRef).nLefts)).Perm
        (List.range ((BuffersAfterPrefixSums node p docsSubset localExecutor
          indicesRef).nLefts.getD
            (SingleSplitRanges docsSubset.length localExecutor.GetThreadCount).RangesCount 0))) ∧
    ((∀ b, b ≤ (SingleSplitRanges docsSubset.length localExecutor.GetThreadCount).RangesCount →
        (BuffersAfterPrefixSums node p docsSubset localExecutor indicesRef).nRights.getD b 0 =
          (((List.range b).flatMap (BlockRows docsSubset
            (SingleSplitRanges docsSubset.length localExecutor.GetThreadCount))).filter
              p).length) ∧
      (BuffersAfterPrefixSums node p docsSubset localExecutor indicesRef).nRights.getD
          (SingleSplitRanges docsSubset.length localExecutor.GetThreadCount).RangesCount 0 =
        (docsSubset.filter p).length ∧
      (BuffersAfterPrefixSums node p docsSubset localExecutor indicesRef).nRights.getD 0 0 = 0 ∧
      (∀ b, b < (SingleSplitRanges docsSubset.length localExecutor.GetThreadCount).RangesCount →
        (BuffersAfterPrefixSums node p docsSubset localExecutor indicesRef).nRights.getD (b + 1) 0
          = (BuffersAfterPrefixSums node p docsSubset localExecutor indicesRef).nRights.getD b 0
            + ((BlockRows docsSubset (SingleSplitRanges docsSubset.length
                localExecutor.GetThreadCount) b).filter p).length) ∧
      (∀ b c, b < c →
        c ≤ (SingleSplitRanges docsSubset.length localExecutor.GetThreadCount).RangesCount →
        (BuffersAfterPrefixSums node p docsSubset localExecutor indicesRef).nRights.getD (b + 1) 0
          ≤ (BuffersAfterPrefixSums node p docsSubset localExecutor indicesRef).nRights.getD c 0) ∧
      (∀ k, k < (BuffersAfterPrefixSums node p docsSubset localExecutor indicesRef).nRights.getD
          (SingleSplitRanges docsSubset.length localExecutor.GetThreadCount).RangesCount 0 →
        ∃! b, b < (SingleSplitRanges docsSubset.length
            localExecutor.GetThreadCount).RangesCount ∧
          (BuffersAfterPrefixSums node p docsSubset localExecutor indicesRef).nRights.getD b 0
            ≤ k ∧
          k < (BuffersAfterPrefixSums node p docsSubset localExecutor
            indicesRef).nRights.getD (b + 1) 0) ∧
      ((localExecutor.Schedule 1 (SingleSplitRanges docsSubset.length
          localExecutor.GetThreadCount).RangesCount).flatMap
          (CopyLocalWrites (BuffersAfterPrefixSums node p docsSubset localExecutor
            indicesRef).nRights)).Perm
        (List.range ((BuffersAfterPrefixSums node p docsSubset localExecutor
          indicesRef).nRights.getD
            (SingleSplitRanges docsSubset.length localExecutor.GetThreadCount).RangesCount 0)))
    := by
  obtain ⟨hL, hR⟩ := BuffersAfterPrefixSums_spec node p docsSubset localExecutor indicesRef
    hfair hlen
  have hrows := SingleSplitRanges_rows docsSubset localExecutor.GetThreadCount
  constructor
  · obtain ⟨t1, t2, t3, t4, t5⟩ := offsets_tile _ _ _ hL _
      (hfair 1 (SingleSplitRanges docsSubset.length localExecutor.GetThreadCount).RangesCount)
    refine ⟨fun b hb => ?_, ?_, t1, t2, t3, t4, t5⟩
    · rw [hL b hb, ConcatParts_filter]
    · rw [hL _ (Nat.le_refl _), ConcatParts_filter, hrows]
  · obtain ⟨t1, t2, t3, t4, t5⟩ := offsets_tile _ _ _ hR _
      (hfair 1 (SingleSplitRanges docsSubset.length localExecutor.GetThreadCount).RangesCount)
    refine ⟨fun b hb => ?_, ?_, t1, t2, t3, t4, t5⟩
    · rw [hR b hb, ConcatParts_filter]
    · rw [hR _ (Nat.le_refl _), ConcatParts_filter, hrows]

/-- An instance of C12: the rows `[10, 11, 12, 13]` with the predicate true on rows 11
and 13 form one block; the offsets are `nLefts = [0, 2]` and `nRights = [0, 2]`. -/
theorem prefix_sum_offsets_tile_witness :
    exampleExecutor.RunsEachBlockOnce ∧ [10, 11, 12, 13].length < 4294967296 ∧
    (BuffersAfterPrefixSums exampleOnlineNode (fun r => decide (r = 11 ∨ r = 13))
      [10, 11, 12, 13] exampleExecutor (List.replicate 14 0)).nLefts.getD 1 0 = 2 ∧
    (BuffersAfterPrefixSums exampleOnlineNode (fun r => decide (r = 11 ∨ r = 13))
      [10, 11, 12, 13] exampleExecutor (List.replicate 14 0)).nRights.getD 0 0 = 0 := by
  have h := prefix_sum_offsets_tile exampleOnlineNode (fun r => decide (r = 11 ∨ r = 13))
    [10, 11, 12, 13] exampleExecutor (List.replicate 14 0) exampleExecutor_fair (by decide)
  exact ⟨exampleExecutor_fair, by decide, h.1.2.1.trans (by decide), h.2.2.2.1⟩

/-- The blocks `UpdateIndices` runs are those of `SingleSplitRanges`. -/
theorem UpdateIndices_blocks (dec : TDecoders)
    (getObjectsDataAndIndexing : TGetObjectsDataAndIndexing)
    (node : TSplitNode) (docsSubset : List Nat) (fold : TFold)
    (localExecutor : ILocalExecutor) (indicesRef : List Nat) (func : Nat → Bool)
    (hbuild : BuildNodeSplitFunction dec node
      (getObjectsDataAndIndexing (decide (node.Split.SplitType = ESplitType.EstimatedFeature))
        node.Split.IsOnline 0).objectsDataProvider
      (if node.Split.SplitType = ESplitType.OnlineCtr
        then some (fold.GetCtrs node.Split.Ctr.Projection) else none) 0 = .ok func) :
    UpdateIndices dec getObjectsDataAndIndexing node docsSubset fold localExecutor indicesRef =
      .returned (ExecRange localExecutor 0
        (UpdateIndicesBlock node (RemapSplitFunction (getObjectsDataAndIndexing
            (decide (node.Split.SplitType = ESplitType.EstimatedFeature))
            node.Split.IsOnline 0).columnsIndexing func) docsSubset
          (SingleSplitRanges docsSubset.length localExecutor.GetThreadCount))
        (SingleSplitRanges docsSubset.length localExecutor.GetThreadCount).RangesCount
        indicesRef) := by
  unfold UpdateIndices
  simp only [hbuild]
  rfl

theorem SingleSplitRanges_covers (n t : Nat) :
    n ≤ (SingleSplitRanges n t).BlockSize * (t + 1) := by
  have h1 := CeilDiv_mul_ge n (t + 1) (by omega)
  have h2 : CeilDiv n (t + 1) ≤ (SingleSplitRanges n t).BlockSize := by
    simp [SingleSplitRanges]
  exact Nat.le_trans h1 (Nat.mul_le_mul_right _ h2)

/-- C13: block sizing of the single-split update. For every size `n` and thread count `t`,
the block size `max (CeilDiv n (t + 1)) 1000`, with `CeilDiv` the ceiling of the quotient,
is at least 1000; the number of blocks is at most `t + 1`, is 0 when `n = 0` and 1 when
`0 < n ≤ 1000`; and the blocks are non-empty contiguous ranges that follow one another from
position 0 to position `n`, every block but the last holding exactly `blockSize`
positions. -/
theorem single_split_block_sizing (n t : Nat) :
    (SingleSplitRanges n t).BlockSize = max (CeilDiv n (t + 1)) 1000 ∧
    (n ≤ CeilDiv n (t + 1) * (t + 1) ∧ CeilDiv n (t + 1) * (t + 1) < n + (t + 1)) ∧
    1000 ≤ (SingleSplitRanges n t).BlockSize ∧
    (SingleSplitRanges n t).RangesCount ≤ t + 1 ∧
    (n = 0 → (SingleSplitRanges n t).RangesCount = 0) ∧
    (0 < n → n ≤ 1000 → (SingleSplitRanges n t).RangesCount = 1) ∧
    (List.range (SingleSplitRanges n t).RangesCount).flatMap
      (fun b => ((SingleSplitRanges n t).GetRange b).Iter) = List.range n ∧
    (∀ b, b < (SingleSplitRanges n t).RangesCount →
      ((SingleSplitRanges n t).GetRange b).Begin = b * (SingleSplitRanges n t).BlockSize ∧
      ((SingleSplitRanges n t).GetRange b).Begin < ((SingleSplitRanges n t).GetRange b).End ∧
      ((SingleSplitRanges n t).GetRange b).End ≤ n) ∧
    (∀ b, b + 1 < (SingleSplitRanges n t).RangesCount →
      ((SingleSplitRanges n t).GetRange b).GetSize = (SingleSplitRanges n t).BlockSize ∧
      ((SingleSplitRanges n t).GetRange b).End =
        ((SingleSplitRanges n t).GetRange (b + 1)).Begin) ∧
    (0 < (SingleSplitRanges n t).RangesCount →
      ((SingleSplitRanges n t).GetRange ((SingleSplitRanges n t).RangesCount - 1)).End = n) := by
  have hbs : 1000 ≤ (SingleSplitRanges n t).BlockSize := by simp [SingleSplitRanges]
  have hpos : 0 < (SingleSplitRanges n t).BlockSize := by omega
  have hcov := SingleSplitRanges_covers n t
  have hge := RangesCount_mul_ge (SingleSplitRanges n t) hpos
  have hfull : (SingleSplitRanges n t).FullSize = n := rfl
  have hlt : ∀ b, b < (SingleSplitRanges n t).RangesCount →
      b * (SingleSplitRanges n t).BlockSize < n := fun b hb =>
    CeilDiv_pred_mul_lt _ _ hpos b hb
  refine ⟨rfl, ⟨CeilDiv_mul_ge n (t + 1) (by omega), ?_⟩, hbs, ?_, ?_, ?_, ?_, ?_, ?_, ?_⟩
  · unfold CeilDiv
    have := Nat.div_mul_le_self (n + (t + 1) - 1) (t + 1)
    omega
  · have : (n + (SingleSplitRanges n t).BlockSize - 1) / (SingleSplitRanges n t).BlockSize
        < t + 2 := by
      apply Nat.div_lt_of_lt_mul
      have e : (SingleSplitRanges n t).BlockSize * (t + 2) =
          (SingleSplitRanges n t).BlockSize * (t + 1) + (SingleSplitRanges n t).BlockSize := by
        ring
      omega
    show CeilDiv n (SingleSplitRanges n t).BlockSize ≤ t + 1
    unfold CeilDiv
    omega
  · intro h0
    show CeilDiv n (SingleSplitRanges n t).BlockSize = 0
    unfold CeilDiv
    apply Nat.div_eq_of_lt
    omega
  · intro h0 h1
    show CeilDiv n (SingleSplitRanges n t).BlockSize = 1
    unfold CeilDiv
    have e : n + (SingleSplitRanges n t).BlockSize - 1 =
        (n - 1) + 1 * (SingleSplitRanges n t).BlockSize := by omega
    rw [e, Nat.add_mul_div_right _ _ hpos, Nat.div_eq_of_lt (by omega)]
  · have := flatMap_Iter (SingleSplitRanges n t) (SingleSplitRanges n t).RangesCount
    rw [Nat.min_eq_right hge, hfull] at this
    exact this
  · intro b hb
    have := hlt b hb
    simp only [TSimpleIndexRangesGenerator.GetRange, hfull]
    refine ⟨trivial, ?_, ?_⟩ <;> omega
  · intro b hb
    have h1 := hlt (b + 1) hb
    have e : (b + 1) * (SingleSplitRanges n t).BlockSize =
        b * (SingleSplitRanges n t).BlockSize + (SingleSplitRanges n t).BlockSize := by ring
    simp only [TSimpleIndexRangesGenerator.GetRange, TIndexRange.GetSize, hfull]
    constructor <;> omega
  · intro h0
    have e : ((SingleSplitRanges n t).RangesCount - 1) * (SingleSplitRanges n t).BlockSize
        + (SingleSplitRanges n t).BlockSize
        = (SingleSplitRanges n t).RangesCount * (SingleSplitRanges n t).BlockSize := by
      have : (SingleSplitRanges n t).RangesCount =
          ((SingleSplitRanges n t).RangesCount - 1) + 1 := by omega
      conv_rhs => rw [this]
      ring
    simp only [TSimpleIndexRangesGenerator.GetRange, hfull]
    omega

/-! ## Claims about the sub-encodings -/

theorem ExtractBinaryFeature_eq (w b : Nat) (hb : b < 8) :
    ExtractBinaryFeature w b = ((w % 256).testBit b).toNat := by
  unfold ExtractBinaryFeature
  have hpow : 2 ^ b < 256 := by
    have : b = 0 ∨ b = 1 ∨ b = 2 ∨ b = 3 ∨ b = 4 ∨ b = 5 ∨ b = 6 ∨ b = 7 := by omega
    rcases this with h | h | h | h | h | h | h | h <;> rw [h] <;> norm_num
  have hpos : 0 < 2 ^ b := Nat.two_pow_pos b
  rw [Nat.one_shiftLeft, Nat.mod_eq_of_lt hpow, Nat.mod_eq_of_lt (by omega : b < 256),
    Nat.and_two_pow, Nat.shiftRight_eq_div_pow, Nat.mul_div_cancel _ hpos]

/-- The binary-pack branch of the sub-encoding dispatch compares `ExtractBinaryFeature`
of the pack word. -/
theorem Encoded_binary (dec : TDecoders)
    (maybeExclusiveBundleIndex : Option TExclusiveBundleIndex)
    (binaryIndex : TPackedBinaryIndex)
    (maybeFeaturesGroupIndex : Option TFeaturesGroupIndex)
    (metaData : List TExclusiveFeaturesBundle) (column : TColumn)
    (getBundle getPack getGroup : Nat → TColumn) (cmpOp : Nat → Bool) :
    BuildNodeSplitFunctionEncoded dec maybeExclusiveBundleIndex (some binaryIndex)
      maybeFeaturesGroupIndex metaData column getBundle getPack getGroup cmpOp =
    BuildNodeSplitFunctionColumn (getPack binaryIndex.PackIdx)
      (fun featuresPack => cmpOp (ExtractBinaryFeature featuresPack binaryIndex.BitIdx)) := rfl

/-- C14: binary-pack extraction. For every pack word `w` and every bit index `b < 8`, the
value `(w & (1 << b)) >> b` the binary-pack branch hands to the comparison is 1 when bit
`b` of the 8-bit word is set and 0 otherwise, so it is the same for two words that agree
on bit `b`; and a float or estimated-feature split with bin border 0 on a binary-packed
feature goes right exactly when the bit of the feature is set in the pack word of the
row. -/
theorem binary_pack_extraction (dec : TDecoders) (node : TSplitNode)
    (objectsDataProvider : TQuantizedForCPUObjectsDataProvider)
    (onlineCtr : Option TOnlineCtrBase) (datasetIdx : Nat) (column : TColumn)
    (binaryIndex : TPackedBinaryIndex) (i word : Nat)
    (htype : node.Split.SplitType = ESplitType.FloatFeature ∨
      node.Split.SplitType = ESplitType.EstimatedFeature)
    (hborder : node.Split.BinBorder = 0)
    (hpack : objectsDataProvider.GetFloatFeatureToPackedBinaryIndex
      (toUi32 node.Split.FeatureIdx) = some binaryIndex)
    (hbit : binaryIndex.BitIdx < 8)
    (hcolumn : objectsDataProvider.GetFloatFeature (toUi32 node.Split.FeatureIdx) = some column)
    (hword : ExtractedCode (objectsDataProvider.GetBinaryFeaturesPack binaryIndex.PackIdx) i
      = some word) :
    (∀ w b, b < 8 → ExtractBinaryFeature w b = if (w % 256).testBit b then 1 else 0) ∧
    (∀ w v b, b < 8 → (w % 256).testBit b = (v % 256).testBit b →
      ExtractBinaryFeature w b = ExtractBinaryFeature v b) ∧
    PredicateAt (BuildNodeSplitFunction dec node objectsDataProvider onlineCtr datasetIdx) i =
      some ((word % 256).testBit binaryIndex.BitIdx) := by
  refine ⟨fun w b hb => ?_, fun w v b hb hwv => ?_, ?_⟩
  · rw [ExtractBinaryFeature_eq w b hb]
    cases (w % 256).testBit b <;> rfl
  · rw [ExtractBinaryFeature_eq w b hb, ExtractBinaryFeature_eq v b hb, hwv]
  · obtain ⟨fd, hfd, hfi, -, -⟩ := Column_ok
      (objectsDataProvider.GetBinaryFeaturesPack binaryIndex.PackIdx)
      (fun featuresPack => IsTrueHistogram
        (ExtractBinaryFeature featuresPack binaryIndex.BitIdx % 65536)
        (toUi16 node.Split.BinBorder)) i word hword
    have hne : ¬ node.Split.SplitType = ESplitType.OnlineCtr := by
      rcases htype with h | h <;> rw [h] <;> decide
    simp only [BuildNodeSplitFunction, hne, if_false, htype, if_true, hcolumn, hpack,
      Encoded_binary, hfd, PredicateAt]
    simp only [hfi, ExtractBinaryFeature_eq word _ hbit, IsTrueHistogram, hborder]
    cases (word % 256).testBit binaryIndex.BitIdx <;> decide

/-- An instance of C14: float feature 0 is bit 2 of an 8-bit pack column holding the words
`0b0101_0011` (bit 2 clear) and `0b0000_0100` (bit 2 set); with border 0 row 0 goes left
and row 1 goes right. -/
theorem binary_pack_extraction_witness :
    ExtractedCode ((exampleEncodedProvider none (some { PackIdx := 0, BitIdx := 2 }) none
      (exampleColumn 8 [])).GetBinaryFeaturesPack 0) 0 = some 83 ∧
    ExtractedCode ((exampleEncodedProvider none (some { PackIdx := 0, BitIdx := 2 }) none
      (exampleColumn 8 [])).GetBinaryFeaturesPack 0) 1 = some 4 ∧
    PredicateAt (BuildNodeSplitFunction exampleDecoders (exampleFloatNodeAt 0)
      (exampleEncodedProvider none (some { PackIdx := 0, BitIdx := 2 }) none
        (exampleColumn 8 [])) none 0) 0 = some false ∧
    PredicateAt (BuildNodeSplitFunction exampleDecoders (exampleFloatNodeAt 0)
      (exampleEncodedProvider none (some { PackIdx := 0, BitIdx := 2 }) none
        (exampleColumn 8 [])) none 0) 1 = some true :=
  ⟨by decide, by decide,
    ((binary_pack_extraction exampleDecoders (exampleFloatNodeAt 0)
      (exampleEncodedProvider none (some { PackIdx := 0, BitIdx := 2 }) none
        (exampleColumn 8 [])) none 0 (exampleColumn 8 []) { PackIdx := 0, BitIdx := 2 } 0 83
      (Or.inl rfl) rfl rfl (by decide) rfl (by decide)).2.2).trans (by decide),
    ((binary_pack_extraction exampleDecoders (exampleFloatNodeAt 0)
      (exampleEncodedProvider none (some { PackIdx := 0, BitIdx := 2 }) none
        (exampleColumn 8 [])) none 0 (exampleColumn 8 []) { PackIdx := 0, BitIdx := 2 } 1 4
      (Or.inl rfl) rfl rfl (by decide) rfl (by decide)).2.2).trans (by decide)⟩

/-- The bundle branch of the sub-encoding dispatch compares the value decoded from the
word of the bundle column with the bounds of the feature's own part. -/
theorem Encoded_bundle (dec : TDecoders) (bundleIndex : TExclusiveBundleIndex)
    (maybeFeaturesGroupIndex : Option TFeaturesGroupIndex)
    (metaData : List TExclusiveFeaturesBundle) (column : TColumn)
    (getBundle getPack getGroup : Nat → TColumn) (cmpOp : Nat → Bool)
    (bundle : TExclusiveFeaturesBundle) (part : TExclusiveBundlePart)
    (hbundle : metaData[bundleIndex.BundleIdx]? = some bundle)
    (hpart : bundle.Parts[bundleIndex.InBundleIdx]? = some part) :
    BuildNodeSplitFunctionEncoded dec (some bundleIndex) none maybeFeaturesGroupIndex
      metaData column getBundle getPack getGroup cmpOp =
    BuildNodeSplitFunctionColumn (getBundle bundleIndex.BundleIdx)
      (fun featuresBundle =>
        cmpOp (dec.GetBinFromBundle (featuresBundle % 65536) part.Bounds % 65536)) := by
  simp only [BuildNodeSplitFunctionEncoded, hbundle, hpart]

/-- C15: bundle decoding precedes the comparison. For a bundle-encoded feature (no binary
pack index set) the predicate at a row is the comparison applied to the value decoded, by
`GetBinFromBundle`, from the `ui16` word of bundle column `BundleIdx` with the bounds of
part `InBundleIdx` of that bundle, for every comparison and so for the float threshold;
with the decoder of the spec scenario, the bounds `[4, 7)` and the word `0b0101_0011`
decode to the slice `0b101` of the bits 4 to 6. -/
theorem bundle_decoding_precedes_comparison (dec : TDecoders) (node : TSplitNode)
    (objectsDataProvider : TQuantizedForCPUObjectsDataProvider)
    (onlineCtr : Option TOnlineCtrBase) (datasetIdx : Nat) (column : TColumn)
    (bundleIndex : TExclusiveBundleIndex) (bundle : TExclusiveFeaturesBundle)
    (part : TExclusiveBundlePart) (i word : Nat)
    (htype : node.Split.SplitType = ESplitType.FloatFeature ∨
      node.Split.SplitType = ESplitType.EstimatedFeature)
    (hpack : objectsDataProvider.GetFloatFeatureToPackedBinaryIndex
      (toUi32 node.Split.FeatureIdx) = none)
    (hindex : objectsDataProvider.GetFloatFeatureToExclusiveBundleIndex
      (toUi32 node.Split.FeatureIdx) = some bundleIndex)
    (hbundle : objectsDataProvider.GetExclusiveFeatureBundlesMetaData[bundleIndex.BundleIdx]?
      = some bundle)
    (hpart : bundle.Parts[bundleIndex.InBundleIdx]? = some part)
    (hcolumn : objectsDataProvider.GetFloatFeature (toUi32 node.Split.FeatureIdx) = some column)
    (hword : ExtractedCode (objectsDataProvider.GetExclusiveFeaturesBundle
      bundleIndex.BundleIdx) i = some word) :
    (∀ cmpOp : Nat → Bool, PredicateAt (BuildNodeSplitFunctionEncoded dec
        (objectsDataProvider.GetFloatFeatureToExclusiveBundleIndex (toUi32 node.Split.FeatureIdx))
        (objectsDataProvider.GetFloatFeatureToPackedBinaryIndex (toUi32 node.Split.FeatureIdx))
        (objectsDataProvider.GetFloatFeatureToFeaturesGroupIndex (toUi32 node.Split.FeatureIdx))
        objectsDataProvider.GetExclusiveFeatureBundlesMetaData column
        objectsDataProvider.GetExclusiveFeaturesBundle objectsDataProvider.GetBinaryFeaturesPack
        objectsDataProvider.GetFeaturesGroup cmpOp) i =
      some (cmpOp (dec.GetBinFromBundle (word % 65536) part.Bounds % 65536))) ∧
    PredicateAt (BuildNodeSplitFunction dec node objectsDataProvider onlineCtr datasetIdx) i =
      some (decide (toUi16 node.Split.BinBorder <
        dec.GetBinFromBundle (word % 65536) part.Bounds % 65536)) ∧
    GetBinFromBundle 0b01010011 { Begin := 4, End := 7 } = 0b101 := by
  have hen : ∀ cmpOp : Nat → Bool, PredicateAt (BuildNodeSplitFunctionEncoded dec
        (objectsDataProvider.GetFloatFeatureToExclusiveBundleIndex (toUi32 node.Split.FeatureIdx))
        (objectsDataProvider.GetFloatFeatureToPackedBinaryIndex (toUi32 node.Split.FeatureIdx))
        (objectsDataProvider.GetFloatFeatureToFeaturesGroupIndex (toUi32 node.Split.FeatureIdx))
        objectsDataProvider.GetExclusiveFeatureBundlesMetaData column
        objectsDataProvider.GetExclusiveFeaturesBundle objectsDataProvider.GetBinaryFeaturesPack
        objectsDataProvider.GetFeaturesGroup cmpOp) i =
      some (cmpOp (dec.GetBinFromBundle (word % 65536) part.Bounds % 65536)) := by
    intro cmpOp
    obtain ⟨fd, hfd, hfi, -, -⟩ := Column_ok
      (objectsDataProvider.GetExclusiveFeaturesBundle bundleIndex.BundleIdx)
      (fun featuresBundle =>
        cmpOp (dec.GetBinFromBundle (featuresBundle % 65536) part.Bounds % 65536)) i word hword
    rw [hindex, hpack, Encoded_bundle dec bundleIndex _ _ _ _ _ _ _ bundle part hbundle hpart,
      hfd]
    simp only [PredicateAt, hfi]
  refine ⟨hen, ?_, by decide⟩
  have hne : ¬ node.Split.SplitType = ESplitType.OnlineCtr := by
    rcases htype with h | h <;> rw [h] <;> decide
  have := hen (fun bucket => IsTrueHistogram (bucket % 65536) (toUi16 node.Split.BinBorder))
  simp only [BuildNodeSplitFunction, hne, if_false, htype, if_true, hcolumn]
  rw [this]
  simp only [IsTrueHistogram, Nat.mod_mod]

/-- The scenario of C15: float feature 0 is part 1, with the bounds `[4, 7)`, of a bundle
column holding the words `0b0101_0011` and `0b0000_0100`; with the slice decoder and the
border 4, row 0 decodes to 5 and goes right, row 1 decodes to 0 and goes left. -/
theorem bundle_decoding_precedes_comparison_witness :
    PredicateAt (BuildNodeSplitFunction sliceDecoders (exampleFloatNodeAt 4)
      (exampleEncodedProvider (some { BundleIdx := 0, InBundleIdx := 1 }) none none
        (exampleColumn 8 [])) none 0) 0 = some true ∧
    PredicateAt (BuildNodeSplitFunction sliceDecoders (exampleFloatNodeAt 4)
      (exampleEncodedProvider (some { BundleIdx := 0, InBundleIdx := 1 }) none none
        (exampleColumn 8 [])) none 0) 1 = some false :=
  ⟨((bundle_decoding_precedes_comparison sliceDecoders (exampleFloatNodeAt 4)
      (exampleEncodedProvider (some { BundleIdx := 0, InBundleIdx := 1 }) none none
        (exampleColumn 8 [])) none 0 (exampleColumn 8 []) { BundleIdx := 0, InBundleIdx := 1 }
      { Parts := [{ Bounds := { Begin := 0, End := 4 } },
                  { Bounds := { Begin := 4, End := 7 } }] }
      { Bounds := { Begin := 4, End := 7 } } 0 83
      (Or.inl rfl) rfl rfl rfl rfl rfl (by decide)).2.1).trans (by decide),
    ((bundle_decoding_precedes_comparison sliceDecoders (exampleFloatNodeAt 4)
      (exampleEncodedProvider (some { BundleIdx := 0, InBundleIdx := 1 }) none none
        (exampleColumn 8 [])) none 0 (exampleColumn 8 []) { BundleIdx := 0, InBundleIdx := 1 }
      { Parts := [{ Bounds := { Begin := 0, End := 4 } },
                  { Bounds := { Begin := 4, End := 7 } }] }
      { Bounds := { Begin := 4, End := 7 } } 1 4
      (Or.inl rfl) rfl rfl rfl rfl rfl (by decide)).2.1).trans (by decide)⟩

/-! ## Agreement, frame and failure of the updates -/

/-- C16: `UpdateIndices` and `UpdateIndicesWithSplit` agree on the assignment array. For
the same node, data, fold and row ids and the same initial assignment array, when the two
calls build the same base predicate (or fail to build it in the same way), the assignment
array left by `UpdateIndicesWithSplit` equals the one left by `UpdateIndices`, whatever the
thread counts and block orders of the two executors and whatever `leftIndeces`,
`rightIndeces` and the fresh memory are; one call returns exactly when the other does. -/
theorem updates_agree_on_assignment (dec : TDecoders)
    (getObjectsDataAndIndexing : TGetObjectsDataAndIndexing) (fresh : Nat → Nat → Nat)
    (node : TSplitNode) (docsSubset : List Nat) (fold : TFold)
    (plainExecutor splitExecutor : ILocalExecutor)
    (indicesRef leftIndeces rightIndeces : List Nat)
    (hplain : plainExecutor.RunsEachBlockOnce) (hsplit : splitExecutor.RunsEachBlockOnce)
    (hids : ∀ r ∈ docsSubset, r < 4294967296)
    (hlen : docsSubset.length < 4294967296)
    (hbase : BuildNodeSplitFunction dec node
        (getObjectsDataAndIndexing (decide (node.Split.SplitType = ESplitType.EstimatedFeature))
          node.Split.IsOnline 0).objectsDataProvider
        (if node.Split.SplitType = ESplitType.OnlineCtr
          then some (fold.GetCtr node.Split.Ctr.Projection) else none) 0 =
      BuildNodeSplitFunction dec node
        (getObjectsDataAndIndexing (decide (node.Split.SplitType = ESplitType.EstimatedFeature))
          node.Split.IsOnline 0).objectsDataProvider
        (if node.Split.SplitType = ESplitType.OnlineCtr
          then some (fold.GetCtrs node.Split.Ctr.Projection) else none) 0) :
    (UpdateIndicesWithSplit dec getObjectsDataAndIndexing fresh node docsSubset fold
        splitExecutor indicesRef leftIndeces rightIndeces).state.indicesRef =
      (UpdateIndices dec getObjectsDataAndIndexing node docsSubset fold plainExecutor
        indicesRef).state ∧
    (UpdateIndicesWithSplit dec getObjectsDataAndIndexing fresh node docsSubset fold
        splitExecutor indicesRef leftIndeces rightIndeces).isReturned =
      (UpdateIndices dec getObjectsDataAndIndexing node docsSubset fold plainExecutor
        indicesRef).isReturned := by
  cases hb : BuildNodeSplitFunction dec node
      (getObjectsDataAndIndexing (decide (node.Split.SplitType = ESplitType.EstimatedFeature))
        node.Split.IsOnline 0).objectsDataProvider
      (if node.Split.SplitType = ESplitType.OnlineCtr
        then some (fold.GetCtrs node.Split.Ctr.Projection) else none) 0 with
  | error e =>
    have hw : UpdateIndicesWithSplit dec getObjectsDataAndIndexing fresh node docsSubset fold
        splitExecutor indicesRef leftIndeces rightIndeces =
        .threw e { indicesRef := indicesRef, leftIndeces := leftIndeces,
                   rightIndeces := rightIndeces } := by
      unfold UpdateIndicesWithSplit
      simp only [hbase, hb]
    have hu : UpdateIndices dec getObjectsDataAndIndexing node docsSubset fold plainExecutor
        indicesRef = .threw e indicesRef := by
      unfold UpdateIndices
      simp only [hb]
    rw [hw, hu]
    exact ⟨rfl, rfl⟩
  | ok func =>
    rw [UpdateIndicesWithSplit_returned dec getObjectsDataAndIndexing fresh node docsSubset fold
        splitExecutor indicesRef leftIndeces rightIndeces func hsplit hlen (hbase.trans hb),
      UpdateIndices_returned dec getObjectsDataAndIndexing node docsSubset fold plainExecutor
        indicesRef func hplain hids hb]
    exact ⟨rfl, rfl⟩

/-- An instance of C16: the rows `[10, 11, 13, 12]` of a 14-row array, routed by an online
statistic that is 1 at rows 11 and 13, with the split update run by three threads in
decreasing block order and the plain update run serially; both leave the leaves `2`
and `3` in the same cells. -/
theorem updates_agree_on_assignment_witness :
    exampleSerialExecutor.RunsEachBlockOnce ∧ exampleExecutor.RunsEachBlockOnce ∧
    (UpdateIndicesWithSplit exampleDecoders exampleData (fun _ _ => 7) exampleOnlineNode
      [10, 11, 13, 12] exampleFold exampleExecutor (List.replicate 14 0) [5] [6]).state.indicesRef
      = (UpdateIndices exampleDecoders exampleData exampleOnlineNode [10, 11, 13, 12]
          exampleFold exampleSerialExecutor (List.replicate 14 0)).state ∧
    (UpdateIndices exampleDecoders exampleData exampleOnlineNode [10, 11, 13, 12]
      exampleFold exampleSerialExecutor (List.replicate 14 0)).state
      = [0, 0, 0, 0, 0, 0, 0, 0, 0, 0, 2, 3, 2, 3] :=
  ⟨exampleSerialExecutor_fair, exampleExecutor_fair,
    (updates_agree_on_assignment exampleDecoders exampleData (fun _ _ => 7) exampleOnlineNode
      [10, 11, 13, 12] exampleFold exampleSerialExecutor exampleExecutor
      (List.replicate 14 0) [5] [6] exampleSerialExecutor_fair exampleExecutor_fair
      (by decide) (by decide) rfl).1,
    by decide⟩

theorem Iter_lt (g : TSimpleIndexRangesGenerator) (b i : Nat)
    (h : i ∈ (g.GetRange b).Iter) : i < g.FullSize := by
  simp only [TSimpleIndexRangesGenerator.GetRange, TIndexRange.Iter, List.mem_range'_1] at h
  omega

/-- The rows of a block are row ids of the subset. -/
theorem BlockRows_mem (docs : List Nat) (g : TSimpleIndexRangesGenerator) (b r : Nat)
    (hn : g.FullSize ≤ docs.length) (h : r ∈ BlockRows docs g b) : r ∈ docs := by
  unfold BlockRows at h
  obtain ⟨i, hi, rfl⟩ := List.mem_map.1 h
  have hlt : i < docs.length := Nat.lt_of_lt_of_le (Iter_lt g b i hi) hn
  rw [List.getD_eq_getElem?_getD, List.getElem?_eq_getElem hlt]
  exact List.getElem_mem hlt

theorem PartitionBlock_foldl_indices (node : TSplitNode) (p : Nat → Bool) (docs : List Nat)
    (g : TSimpleIndexRangesGenerator) (sched : List Nat) (s : TSplitBuffers) :
    (sched.foldl (fun st b => PartitionBlock node p docs g b st) s).indicesRef =
      (sched.flatMap (BlockRows docs g)).foldl
        (fun a r => a.set r (ChildAssignment node (p r))) s.indicesRef := by
  induction sched generalizing s with
  | nil => rfl
  | cons c rest ih =>
    rw [List.foldl_cons, ih, List.flatMap_cons, List.foldl_append,
      (PartitionBlock_spec node p docs g c s).1]

/-- Whatever the executor does, the assignment array `UpdateIndices` leaves is the initial
one after a sequence of writes at row ids of the subset. -/
theorem UpdateIndices_writes (dec : TDecoders)
    (getObjectsDataAndIndexing : TGetObjectsDataAndIndexing)
    (node : TSplitNode) (docsSubset : List Nat) (fold : TFold)
    (localExecutor : ILocalExecutor) (indicesRef : List Nat) :
    ∃ (rows : List Nat) (v : Nat → Nat), (∀ r ∈ rows, r ∈ docsSubset) ∧
      (UpdateIndices dec getObjectsDataAndIndexing node docsSubset fold localExecutor
        indicesRef).state = rows.foldl (fun a r => a.set r (v r)) indicesRef := by
  cases hb : BuildNodeSplitFunction dec node
      (getObjectsDataAndIndexing (decide (node.Split.SplitType = ESplitType.EstimatedFeature))
        node.Split.IsOnline 0).objectsDataProvider
      (if node.Split.SplitType = ESplitType.OnlineCtr
        then some (fold.GetCtrs node.Split.Ctr.Projection) else none) 0 with
  | error e =>
    refine ⟨[], fun _ => 0, fun r hr => absurd hr (List.not_mem_nil r), ?_⟩
    unfold UpdateIndices
    simp only [hb]
    rfl
  | ok func =>
    unfold UpdateIndices
    simp only [hb, TOutcome.state]
    generalize hp : RemapSplitFunction (getObjectsDataAndIndexing
        (decide (node.Split.SplitType = ESplitType.EstimatedFeature))
        node.Split.IsOnline 0).columnsIndexing func = p
    generalize hg : (⟨docsSubset.length,
        max (CeilDiv docsSubset.length (localExecutor.GetThreadCount + 1)) 1000⟩ :
        TSimpleIndexRangesGenerator) = g
    have hfull : g.FullSize = docsSubset.length := by rw [← hg]
    unfold ExecRange
    have e : (fun st blockId => UpdateIndicesBlock node p docsSubset g blockId st) =
        (fun st b => (BlockRows docsSubset g b).foldl
          (fun a r => a.set r (ChildAssignment node (p (toUi32 (toInt32 r))))) st) := by
      funext st b
      exact UpdateIndicesBlock_eq node p docsSubset g b st
    rw [e, foldl_blocks_eq (BlockRows docsSubset g)
      (fun r => ChildAssignment node (p (toUi32 (toInt32 r))))]
    refine ⟨_, _, fun r hr => ?_, rfl⟩
    obtain ⟨b, -, hrb⟩ := List.mem_flatMap.1 hr
    exact BlockRows_mem docsSubset g b r (by rw [hfull]) hrb

/-- Whatever the executor does, the assignment array `UpdateIndicesWithSplit` leaves is
the initial one after a sequence of writes at row ids of the subset. -/
theorem UpdateIndicesWithSplit_writes (dec : TDecoders)
    (getObjectsDataAndIndexing : TGetObjectsDataAndIndexing) (fresh : Nat → Nat → Nat)
    (node : TSplitNode) (docsSubset : List Nat) (fold : TFold)
    (localExecutor : ILocalExecutor) (indicesRef leftIndeces rightIndeces : List Nat) :
    ∃ (rows : List Nat) (v : Nat → Nat), (∀ r ∈ rows, r ∈ docsSubset) ∧
      (UpdateIndicesWithSplit dec getObjectsDataAndIndexing fresh node docsSubset fold
        localExecutor indicesRef leftIndeces rightIndeces).state.indicesRef =
        rows.foldl (fun a r => a.set r (v r)) indicesRef := by
  cases hb : BuildNodeSplitFunction dec node
      (getObjectsDataAndIndexing (decide (node.Split.SplitType = ESplitType.EstimatedFeature))
        node.Split.IsOnline 0).objectsDataProvider
      (if node.Split.SplitType = ESplitType.OnlineCtr
        then some (fold.GetCtr node.Split.Ctr.Projection) else none) 0 with
  | error e =>
    refine ⟨[], fun _ => 0, fun r hr => absurd hr (List.not_mem_nil r), ?_⟩
    unfold UpdateIndicesWithSplit
    simp only [hb]
    rfl
  | ok func =>
    unfold UpdateIndicesWithSplit
    simp only [hb, TOutcome.state]
    generalize hp : RemapSplitFunction (getObjectsDataAndIndexing
        (decide (node.Split.SplitType = ESplitType.EstimatedFeature))
        node.Split.IsOnline 0).columnsIndexing func = p
    generalize hg : (⟨docsSubset.length % 4294967296,
        max (CeilDiv (docsSubset.length % 4294967296) (localExecutor.GetThreadCount + 1)) 1000⟩ :
        TSimpleIndexRangesGenerator) = g
    have hfull : g.FullSize ≤ docsSubset.length := by
      rw [← hg]
      exact Nat.mod_le _ _
    unfold ExecRange
    rw [PartitionBlock_foldl_indices]
    refine ⟨_, _, fun r hr => ?_, rfl⟩
    obtain ⟨b, -, hrb⟩ := List.mem_flatMap.1 hr
    exact BlockRows_mem docsSubset g b r hfull hrb

/-- Frame of a sequence of writes at the positions `rows`. -/
theorem foldl_set_frame (v : Nat → Nat) (rows docs : List Nat) (init : List Nat)
    (hrows : ∀ r ∈ rows, r ∈ docs) :
    (∀ k, k ∉ docs → (rows.foldl (fun a r => a.set r (v r)) init)[k]? = init[k]?) ∧
    (rows.foldl (fun a r => a.set r (v r)) init).length = init.length ∧
    (docs = [] → rows.foldl (fun a r => a.set r (v r)) init = init) := by
  refine ⟨fun k hk => ?_, foldl_set_length v rows init, fun hd => ?_⟩
  · rw [foldl_set_getElem?, if_neg (fun h => hk (hrows k h))]
  · have : rows = [] := by
      cases rows with
      | nil => rfl
      | cons r rs =>
        have := hrows r (List.mem_cons_self _ _)
        rw [hd] at this
        exact absurd this (List.not_mem_nil r)
    rw [this]
    rfl

/-- Whatever way a run of the row bodies ends, the cells of the rows it did not run on
hold what they held before. -/
theorem RouteRowInto_foldl_frame (nodes : List TSplitNode) (fns : List (Nat → Bool))
    (fuel : Nat) (root : Int) (rows : List Nat) (st : Option (TOutcome (Nat → Nat)))
    (o : TOutcome (Nat → Nat))
    (h : rows.foldl (RouteRowInto nodes fns fuel root) st = some o) :
    ∃ o0, st = some o0 ∧ ∀ i, i ∉ rows → o.state i = o0.state i := by
  induction rows generalizing st with
  | nil => exact ⟨o, h, fun _ _ => rfl⟩
  | cons r rs ih =>
    rw [List.foldl_cons] at h
    obtain ⟨o1, h1, hfr⟩ := ih _ h
    cases st with
    | none => simp [RouteRowInto] at h1
    | some o0 =>
      refine ⟨o0, rfl, fun i hi => ?_⟩
      have hrs : i ∉ rs := fun hmem => hi (List.mem_cons_of_mem _ hmem)
      have hir : i ≠ r := fun heq => hi (by rw [heq]; exact List.mem_cons_self _ _)
      rw [hfr i hrs]
      cases o0 with
      | threw e s =>
        simp only [RouteRowInto, Option.some.injEq] at h1
        rw [← h1]
      | returned ind =>
        cases hr : RouteRow nodes fns r fuel root with
        | finished k =>
          simp only [RouteRowInto, hr, Option.some.injEq] at h1
          rw [← h1]
          simp only [TOutcome.state]
          exact Function.update_noteq hir _ _
        | outOfRange =>
          simp only [RouteRowInto, hr, Option.some.injEq] at h1
          rw [← h1]
          rfl
        | outOfFuel =>
          simp [RouteRowInto, hr] at h1

/-- A run of the router that returns ended every routing loop at a leaf. -/
theorem BuildIndicesForDataset_returned_inv (dec : TDecoders)
    (getObjectsDataAndIndexing : TGetObjectsDataAndIndexing)
    (tree : TNonSymmetricTreeStructure) (sampleCount : Nat)
    (onlineCtrs : List (Option TOnlineCtrBase)) (objectSubsetIdx : Nat)
    (localExecutor : ILocalExecutor) (fuel : Nat) (indices out : Nat → Nat)
    (hfair : localExecutor.RunsEachBlockOnce)
    (h : BuildIndicesForDataset dec getObjectsDataAndIndexing tree sampleCount onlineCtrs
      objectSubsetIdx localExecutor fuel indices = some (.returned out)) :
    ∃ fns, BuildNodesSplitFunctions dec getObjectsDataAndIndexing tree.Nodes onlineCtrs
        objectSubsetIdx (List.range tree.GetNodesCount) = .ok fns ∧
      ∀ i, i < sampleCount → ∃ k, RouteRow tree.Nodes fns i fuel tree.Root = .finished k := by
  cases hbuild : BuildNodesSplitFunctions dec getObjectsDataAndIndexing tree.Nodes onlineCtrs
      objectSubsetIdx (List.range tree.GetNodesCount) with
  | error e =>
    simp [BuildIndicesForDataset, hbuild] at h
  | ok fns =>
    refine ⟨fns, rfl, ?_⟩
    by_contra hall
    simp only [not_forall] at hall
    obtain ⟨i, hi, hno⟩ := hall
    have hnone : StoredIndex (BuildIndicesForDataset dec getObjectsDataAndIndexing tree
        sampleCount onlineCtrs objectSubsetIdx localExecutor fuel indices) 0 = none := by
      simp only [BuildIndicesForDataset, hbuild, ExecRange]
      rw [foldl_foldl_flatMap (RouteRowInto tree.Nodes fns fuel tree.Root)
        (fun b => ((SetBlockCount sampleCount (localExecutor.GetThreadCount + 1)).GetRange
          b).Iter)]
      exact RouteRowInto_foldl_fail _ _ _ _ _ _ _
        ⟨i, (BuildIndicesForDataset_rows localExecutor sampleCount hfair i).2 hi, hno⟩
    rw [h] at hnone
    simp [StoredIndex] at hnone

/-- C17: frame of the assignment writes. `UpdateIndices` and `UpdateIndicesWithSplit`,
whether they return or throw and whatever the executor does, leave every cell of the
assignment array whose position is not a row id of `docsSubset` as it was, keep the length
of the array, and leave the whole array as it was when `docsSubset` is empty. Whatever
way `BuildIndicesForDataset` ends, every cell at a position `>= sampleCount` is as
before; the positions its row body runs on are, for an executor that runs every block
once, a permutation of `0 .. sampleCount-1`, and after a run that returns the content of
those cells does not depend on what they held before. -/
theorem assignment_writes_frame (dec : TDecoders)
    (getObjectsDataAndIndexing : TGetObjectsDataAndIndexing) (fresh : Nat → Nat → Nat)
    (node : TSplitNode) (docsSubset : List Nat) (fold : TFold)
    (localExecutor : ILocalExecutor) (indicesRef leftIndeces rightIndeces : List Nat)
    (tree : TNonSymmetricTreeStructure) (sampleCount : Nat)
    (onlineCtrs : List (Option TOnlineCtrBase)) (objectSubsetIdx : Nat)
    (fuel : Nat) (indices : Nat → Nat) :
    ((∀ k, k ∉ docsSubset →
        (UpdateIndices dec getObjectsDataAndIndexing node docsSubset fold localExecutor
          indicesRef).state[k]? = indicesRef[k]?) ∧
      (UpdateIndices dec getObjectsDataAndIndexing node docsSubset fold localExecutor
        indicesRef).state.length = indicesRef.length ∧
      (docsSubset = [] →
        (UpdateIndices dec getObjectsDataAndIndexing node docsSubset fold localExecutor
          indicesRef).state = indicesRef)) ∧
    ((∀ k, k ∉ docsSubset →
        (UpdateIndicesWithSplit dec getObjectsDataAndIndexing fresh node docsSubset fold
          localExecutor indicesRef leftIndeces rightIndeces).state.indicesRef[k]?
          = indicesRef[k]?) ∧
      (UpdateIndicesWithSplit dec getObjectsDataAndIndexing fresh node docsSubset fold
        localExecutor indicesRef leftIndeces rightIndeces).state.indicesRef.length
        = indicesRef.length ∧
      (docsSubset = [] →
        (UpdateIndicesWithSplit dec getObjectsDataAndIndexing fresh node docsSubset fold
          localExecutor indicesRef leftIndeces rightIndeces).state.indicesRef = indicesRef)) ∧
    (∀ o, BuildIndicesForDataset dec getObjectsDataAndIndexing tree sampleCount onlineCtrs
        objectSubsetIdx localExecutor fuel indices = some o →
      ∀ i, sampleCount ≤ i → o.state i = indices i) ∧
    (localExecutor.RunsEachBlockOnce →
      ((localExecutor.Schedule 0
          (SetBlockCount sampleCount (localExecutor.GetThreadCount + 1)).RangesCount).flatMap
          (fun b => ((SetBlockCount sampleCount
            (localExecutor.GetThreadCount + 1)).GetRange b).Iter)).Perm
        (List.range sampleCount) ∧
      ∀ out, BuildIndicesForDataset dec getObjectsDataAndIndexing tree sampleCount onlineCtrs
          objectSubsetIdx localExecutor fuel indices = some (.returned out) →
        ∀ other : Nat → Nat, ∃ out2,
          BuildIndicesForDataset dec getObjectsDataAndIndexing tree sampleCount onlineCtrs
            objectSubsetIdx localExecutor fuel other = some (.returned out2) ∧
          ∀ i, i < sampleCount → out2 i = out i) := by
  refine ⟨?_, ?_, ?_, ?_⟩
  · obtain ⟨rows, v, hrows, hst⟩ := UpdateIndices_writes dec getObjectsDataAndIndexing node
      docsSubset fold localExecutor indicesRef
    rw [hst]
    exact foldl_set_frame v rows docsSubset indicesRef hrows
  · obtain ⟨rows, v, hrows, hst⟩ := UpdateIndicesWithSplit_writes dec getObjectsDataAndIndexing
      fresh node docsSubset fold localExecutor indicesRef leftIndeces rightIndeces
    rw [hst]
    exact foldl_set_frame v rows docsSubset indicesRef hrows
  · intro o ho i hi
    unfold BuildIndicesForDataset at ho
    cases hbuild : BuildNodesSplitFunctions dec getObjectsDataAndIndexing tree.Nodes onlineCtrs
        objectSubsetIdx (List.range tree.GetNodesCount) with
    | error e =>
      simp only [hbuild, Option.some.injEq] at ho
      rw [← ho]
      rfl
    | ok fns =>
      simp only [hbuild, ExecRange] at ho
      rw [foldl_foldl_flatMap (RouteRowInto tree.Nodes fns fuel tree.Root)
        (fun b => ((SetBlockCount sampleCount (localExecutor.GetThreadCount + 1)).GetRange
          b).Iter)] at ho
      obtain ⟨o0, h0, hfr⟩ := RouteRowInto_foldl_frame _ _ _ _ _ _ _ ho
      have ho0 : o0 = .returned indices := (Option.some.inj h0).symm
      rw [hfr i, ho0]
      · rfl
      · intro hmem
        obtain ⟨b, -, hb⟩ := List.mem_flatMap.1 hmem
        have := Iter_lt _ b i hb
        have hfull : (SetBlockCount sampleCount (localExecutor.GetThreadCount + 1)).FullSize
            = sampleCount := rfl
        omega
  · intro hfair
    constructor
    · have hcov := SetBlockCount_covers sampleCount (localExecutor.GetThreadCount + 1)
        (by omega)
      have hfull : (SetBlockCount sampleCount (localExecutor.GetThreadCount + 1)).FullSize
          = sampleCount := rfl
      refine ((hfair 0 _).flatMap_right _).trans ?_
      rw [flatMap_Iter, hfull, Nat.min_eq_right hcov]
    · intro out hout other
      obtain ⟨fns, hbuild, hall⟩ := BuildIndicesForDataset_returned_inv dec
        getObjectsDataAndIndexing tree sampleCount onlineCtrs objectSubsetIdx localExecutor
        fuel indices out hfair hout
      obtain ⟨ind1, hret1, hind1⟩ := BuildIndicesForDataset_returned dec
        getObjectsDataAndIndexing tree sampleCount onlineCtrs objectSubsetIdx localExecutor
        fuel indices fns hfair hbuild hall
      obtain ⟨ind2, hret2, hind2⟩ := BuildIndicesForDataset_returned dec
        getObjectsDataAndIndexing tree sampleCount onlineCtrs objectSubsetIdx localExecutor
        fuel other fns hfair hbuild hall
      rw [hret1] at hout
      have hio : ind1 = out := TOutcome.returned.inj (Option.some.inj hout)
      refine ⟨ind2, hret2, fun i hi => ?_⟩
      obtain ⟨k1, hk1, hv1⟩ := (hind1 i).1 hi
      obtain ⟨k2, hk2, hv2⟩ := (hind2 i).1 hi
      rw [hk1] at hk2
      rw [← hio, hv1, hv2, TRouteResult.finished.inj hk2]

/-- An instance of C17: the rows `[10, 11]` of a 14-cell array filled with 5 are routed to
the leaves `2` and `3` and cell 12 keeps its 5; the router run on two rows writes the
cells 0 and 1 of a memory filled with 9 and leaves the cells 2 and 3 as they were. -/
theorem assignment_writes_frame_witness :
    (UpdateIndices exampleDecoders exampleData exampleOnlineNode [10, 11] exampleFold
      exampleExecutor (List.replicate 14 5)).state
      = [5, 5, 5, 5, 5, 5, 5, 5, 5, 5, 2, 3, 5, 5] ∧
    (UpdateIndicesWithSplit exampleDecoders exampleData (fun _ _ => 7) exampleOnlineNode
      [10, 11] exampleFold exampleExecutor (List.replicate 14 5) [] []).state.indicesRef[12]?
      = some 5 ∧
    (BuildIndicesForDataset exampleDecoders exampleRoutingData exampleTree 2 [none] 0
      exampleExecutor 1 (fun _ => 9)).map (fun o => (List.range 4).map o.state)
      = some [0, 1, 9, 9] :=
  ⟨by decide,
    ((assignment_writes_frame exampleDecoders exampleData (fun _ _ => 7) exampleOnlineNode
      [10, 11] exampleFold exampleExecutor (List.replicate 14 5) [] [] exampleTree 2 [none] 0
      1 (fun _ => 9)).2.1.1 12 (by decide)).trans (by decide),
    by decide⟩

/-- The predicate-building loop fails as soon as the predicate of one node of its list
cannot be built. -/
theorem BuildNodesSplitFunctions_error (dec : TDecoders)
    (getObjectsDataAndIndexing : TGetObjectsDataAndIndexing) (nodesRef : List TSplitNode)
    (onlineCtrs : List (Option TOnlineCtrBase)) (objectSubsetIdx : Nat)
    (nodeIdxs : List Nat) (nodeIdx : Nat) (e : TError) (hmem : nodeIdx ∈ nodeIdxs)
    (hfail : BuildNodeRoutingFunction dec getObjectsDataAndIndexing nodesRef onlineCtrs
      objectSubsetIdx nodeIdx = .error e) :
    ∃ e1, BuildNodesSplitFunctions dec getObjectsDataAndIndexing nodesRef onlineCtrs
      objectSubsetIdx nodeIdxs = .error e1 := by
  induction nodeIdxs with
  | nil => simp at hmem
  | cons i rest ih =>
    cases hi : BuildNodeRoutingFunction dec getObjectsDataAndIndexing nodesRef onlineCtrs
        objectSubsetIdx i with
    | error e1 =>
      refine ⟨e1, ?_⟩
      simp only [BuildNodesSplitFunctions, hi]
    | ok f =>
      have hrest : nodeIdx ∈ rest := by
        rcases List.mem_cons.1 hmem with h | h
        · subst h
          rw [hfail] at hi
          cases hi
        · exact h
      obtain ⟨e1, he1⟩ := ih hrest
      refine ⟨e1, ?_⟩
      simp only [BuildNodesSplitFunctions, hi, he1]

/-- C18: atomicity on a predicate-building failure. When `BuildNodeSplitFunction` fails
with an error `e`, `UpdateIndices` throws `e` with the assignment array exactly as the
caller passed it, and `UpdateIndicesWithSplit` throws `e` with the assignment array,
`leftIndeces` and `rightIndeces` exactly as the caller passed them. When the predicate of
some node of the tree cannot be built, `BuildIndicesForDataset` throws, for every
executor and fuel, with the assignment memory exactly as before the call. -/
theorem predicate_failure_is_atomic (dec : TDecoders)
    (getObjectsDataAndIndexing : TGetObjectsDataAndIndexing) (fresh : Nat → Nat → Nat)
    (node : TSplitNode) (docsSubset : List Nat) (fold : TFold)
    (localExecutor : ILocalExecutor) (indicesRef leftIndeces rightIndeces : List Nat)
    (tree : TNonSymmetricTreeStructure) (sampleCount : Nat)
    (onlineCtrs : List (Option TOnlineCtrBase)) (objectSubsetIdx : Nat)
    (fuel : Nat) (indices : Nat → Nat) :
    (∀ e, BuildNodeSplitFunction dec node
        (getObjectsDataAndIndexing (decide (node.Split.SplitType = ESplitType.EstimatedFeature))
          node.Split.IsOnline 0).objectsDataProvider
        (if node.Split.SplitType = ESplitType.OnlineCtr
          then some (fold.GetCtrs node.Split.Ctr.Projection) else none) 0 = .error e →
      UpdateIndices dec getObjectsDataAndIndexing node docsSubset fold localExecutor indicesRef
        = .threw e indicesRef) ∧
    (∀ e, BuildNodeSplitFunction dec node
        (getObjectsDataAndIndexing (decide (node.Split.SplitType = ESplitType.EstimatedFeature))
          node.Split.IsOnline 0).objectsDataProvider
        (if node.Split.SplitType = ESplitType.OnlineCtr
          then some (fold.GetCtr node.Split.Ctr.Projection) else none) 0 = .error e →
      UpdateIndicesWithSplit dec getObjectsDataAndIndexing fresh node docsSubset fold
          localExecutor indicesRef leftIndeces rightIndeces
        = .threw e { indicesRef := indicesRef, leftIndeces := leftIndeces,
                     rightIndeces := rightIndeces }) ∧
    (∀ (nodeIdx : Nat) (treeNode : TSplitNode) (onlineCtr : Option TOnlineCtrBase) (e : TError),
      tree.Nodes[nodeIdx]? = some treeNode →
      onlineCtrs[nodeIdx]? = some onlineCtr →
      BuildNodeSplitFunction dec treeNode
        (getObjectsDataAndIndexing
          (decide (treeNode.Split.SplitType = ESplitType.EstimatedFeature))
          treeNode.Split.IsOnline objectSubsetIdx).objectsDataProvider
        onlineCtr objectSubsetIdx = .error e →
      ∃ e1, BuildIndicesForDataset dec getObjectsDataAndIndexing tree sampleCount onlineCtrs
        objectSubsetIdx localExecutor fuel indices = some (.threw e1 indices)) ∧
    (∀ e, BuildNodesSplitFunctions dec getObjectsDataAndIndexing tree.Nodes onlineCtrs
        objectSubsetIdx (List.range tree.GetNodesCount) = .error e →
      BuildIndicesForDataset dec getObjectsDataAndIndexing tree sampleCount onlineCtrs
        objectSubsetIdx localExecutor fuel indices = some (.threw e indices)) := by
  have hlast : ∀ e, BuildNodesSplitFunctions dec getObjectsDataAndIndexing tree.Nodes
      onlineCtrs objectSubsetIdx (List.range tree.GetNodesCount) = .error e →
      BuildIndicesForDataset dec getObjectsDataAndIndexing tree sampleCount onlineCtrs
        objectSubsetIdx localExecutor fuel indices = some (.threw e indices) := by
    intro e he
    unfold BuildIndicesForDataset
    simp only [he]
  refine ⟨fun e he => ?_, fun e he => ?_, ?_, hlast⟩
  · unfold UpdateIndices
    simp only [he]
  · unfold UpdateIndicesWithSplit
    simp only [he]
  · intro nodeIdx treeNode onlineCtr e hnode hctr he
    have hfail : BuildNodeRoutingFunction dec getObjectsDataAndIndexing tree.Nodes onlineCtrs
        objectSubsetIdx nodeIdx = .error e := by
      simp only [BuildNodeRoutingFunction, hnode, hctr, he]
    have hlt : nodeIdx < tree.Nodes.length := by
      rcases Nat.lt_or_ge nodeIdx tree.Nodes.length with h | h
      · exact h
      · rw [List.getElem?_eq_none h] at hnode
        cases hnode
    obtain ⟨e1, he1⟩ := BuildNodesSplitFunctions_error dec getObjectsDataAndIndexing tree.Nodes
      onlineCtrs objectSubsetIdx (List.range tree.GetNodesCount) nodeIdx e
      (List.mem_range.2 hlt) hfail
    exact ⟨e1, hlast e1 he1⟩

/-- An instance of C18: float feature 0 is stored in a holder the builder cannot decode;
the three functions throw the unsupported-encoding error and the assignment array, the
two outputs and the assignment memory are as passed in. -/
theorem predicate_failure_is_atomic_witness :
    BuildError (BuildNodeSplitFunction exampleDecoders exampleFloatNode
      (exampleUnsupportedData false false 0).objectsDataProvider none 0)
      = some TError.UnsupportedEncoding ∧
    (UpdateIndices exampleDecoders exampleUnsupportedData exampleFloatNode [1, 2] exampleFold
      exampleExecutor [5, 5, 5]).state = [5, 5, 5] ∧
    (UpdateIndices exampleDecoders exampleUnsupportedData exampleFloatNode [1, 2] exampleFold
      exampleExecutor [5, 5, 5]).error? = some TError.UnsupportedEncoding ∧
    (UpdateIndicesWithSplit exampleDecoders exampleUnsupportedData (fun _ _ => 7)
      exampleFloatNode [1, 2] exampleFold exampleExecutor [5, 5, 5] [6] [7]).state
      = { indicesRef := [5, 5, 5], leftIndeces := [6], rightIndeces := [7] } ∧
    (BuildIndicesForDataset exampleDecoders exampleUnsupportedData exampleTree 2 [none] 0
      exampleExecutor 1 (fun _ => 9)).map (fun o => (o.error?, (List.range 3).map o.state))
      = some (some TError.UnsupportedEncoding, [9, 9, 9]) := by
  have h := predicate_failure_is_atomic exampleDecoders exampleUnsupportedData (fun _ _ => 7)
    exampleFloatNode [1, 2] exampleFold exampleExecutor [5, 5, 5] [6] [7] exampleTree 2 [none]
    0 1 (fun _ => 9)
  refine ⟨rfl, ?_, ?_, ?_, ?_⟩
  · rw [h.1 TError.UnsupportedEncoding rfl]
    rfl
  · rw [h.1 TError.UnsupportedEncoding rfl]
    rfl
  · rw [h.2.1 TError.UnsupportedEncoding rfl]
    rfl
  · rw [h.2.2.2 TError.UnsupportedEncoding rfl]
    rfl

/-! ## Precedence of the sub-encodings -/

/-- C19: encoding dispatch precedence. The sub-encoding dispatch of
`BuildNodeSplitFunction` reads the binary pack whenever a binary-pack index is set,
whatever the bundle and group indices are; otherwise the exclusive bundle when a bundle
index is set, whatever the group index is; otherwise the feature group when a group index
is set; and the feature's own column only when none of the three is set. When one of the
three is set the result (the predicate or the failure) is the same for every own column,
in the dispatch and in the predicate of a float, estimated or one-hot node. -/
theorem encoding_dispatch_precedence (dec : TDecoders)
    (maybeExclusiveBundleIndex : Option TExclusiveBundleIndex)
    (maybeBinaryIndex : Option TPackedBinaryIndex)
    (maybeFeaturesGroupIndex : Option TFeaturesGroupIndex)
    (metaData : List TExclusiveFeaturesBundle) (column : TColumn)
    (getBundle getPack getGroup : Nat → TColumn) (cmpOp : Nat → Bool)
    (node : TSplitNode) (objectsDataProvider : TQuantizedForCPUObjectsDataProvider)
    (onlineCtr : Option TOnlineCtrBase) (datasetIdx : Nat) :
    (∀ binaryIndex : TPackedBinaryIndex,
      BuildNodeSplitFunctionEncoded dec maybeExclusiveBundleIndex (some binaryIndex)
        maybeFeaturesGroupIndex metaData column getBundle getPack getGroup cmpOp =
      BuildNodeSplitFunctionColumn (getPack binaryIndex.PackIdx)
        (fun featuresPack => cmpOp (ExtractBinaryFeature featuresPack binaryIndex.BitIdx))) ∧
    (∀ (bundleIndex : TExclusiveBundleIndex) (bundle : TExclusiveFeaturesBundle)
        (part : TExclusiveBundlePart),
      metaData[bundleIndex.BundleIdx]? = some bundle →
      bundle.Parts[bundleIndex.InBundleIdx]? = some part →
      BuildNodeSplitFunctionEncoded dec (some bundleIndex) none maybeFeaturesGroupIndex
        metaData column getBundle getPack getGroup cmpOp =
      BuildNodeSplitFunctionColumn (getBundle bundleIndex.BundleIdx)
        (fun featuresBundle =>
          cmpOp (dec.GetBinFromBundle (featuresBundle % 65536) part.Bounds % 65536))) ∧
    (∀ groupIndex : TFeaturesGroupIndex,
      BuildNodeSplitFunctionEncoded dec none none (some groupIndex) metaData column
        getBundle getPack getGroup cmpOp =
      BuildNodeSplitFunctionColumn (getGroup groupIndex.GroupIdx)
        (fun featuresGroupValue =>
          cmpOp (dec.GetPartValueFromGroup featuresGroupValue groupIndex.InGroupIdx))) ∧
    BuildNodeSplitFunctionEncoded dec none none none metaData column getBundle getPack
        getGroup cmpOp = BuildNodeSplitFunctionColumn column cmpOp ∧
    ((maybeBinaryIndex.isSome ∨ maybeExclusiveBundleIndex.isSome ∨
        maybeFeaturesGroupIndex.isSome) →
      ∀ otherColumn : TColumn,
        BuildNodeSplitFunctionEncoded dec maybeExclusiveBundleIndex maybeBinaryIndex
          maybeFeaturesGroupIndex metaData otherColumn getBundle getPack getGroup cmpOp =
        BuildNodeSplitFunctionEncoded dec maybeExclusiveBundleIndex maybeBinaryIndex
          maybeFeaturesGroupIndex metaData column getBundle getPack getGroup cmpOp) ∧
    ((node.Split.SplitType = ESplitType.FloatFeature ∨
        node.Split.SplitType = ESplitType.EstimatedFeature) →
      (objectsDataProvider.GetFloatFeature (toUi32 node.Split.FeatureIdx)).isSome →
      ((objectsDataProvider.GetFloatFeatureToPackedBinaryIndex
          (toUi32 node.Split.FeatureIdx)).isSome ∨
        (objectsDataProvider.GetFloatFeatureToExclusiveBundleIndex
          (toUi32 node.Split.FeatureIdx)).isSome ∨
        (objectsDataProvider.GetFloatFeatureToFeaturesGroupIndex
          (toUi32 node.Split.FeatureIdx)).isSome) →
      ∀ otherColumn : TColumn,
        BuildNodeSplitFunction dec node
          { objectsDataProvider with GetFloatFeature := fun _ => some otherColumn }
          onlineCtr datasetIdx =
        BuildNodeSplitFunction dec node objectsDataProvider onlineCtr datasetIdx) ∧
    (node.Split.SplitType = ESplitType.OneHotFeature →
      (objectsDataProvider.GetCatFeature (toUi32 node.Split.FeatureIdx)).isSome →
      ((objectsDataProvider.GetCatFeatureToPackedBinaryIndex
          (toUi32 node.Split.FeatureIdx)).isSome ∨
        (objectsDataProvider.GetCatFeatureToExclusiveBundleIndex
          (toUi32 node.Split.FeatureIdx)).isSome ∨
        (objectsDataProvider.GetCatFeatureToFeaturesGroupIndex
          (toUi32 node.Split.FeatureIdx)).isSome) →
      ∀ otherColumn : TColumn,
        BuildNodeSplitFunction dec node
          { objectsDataProvider with GetCatFeature := fun _ => some otherColumn }
          onlineCtr datasetIdx =
        BuildNodeSplitFunction dec node objectsDataProvider onlineCtr datasetIdx) := by
  have hind : ∀ (mb : Option TExclusiveBundleIndex) (mp : Option TPackedBinaryIndex)
      (mg : Option TFeaturesGroupIndex) (md : List TExclusiveFeaturesBundle)
      (gb gp gg : Nat → TColumn) (cmp : Nat → Bool) (c1 c2 : TColumn),
      (mp.isSome ∨ mb.isSome ∨ mg.isSome) →
      BuildNodeSplitFunctionEncoded dec mb mp mg md c1 gb gp gg cmp =
      BuildNodeSplitFunctionEncoded dec mb mp mg md c2 gb gp gg cmp := by
    intro mb mp mg md gb gp gg cmp c1 c2 h
    cases mp with
    | some binaryIndex => rfl
    | none =>
      cases mb with
      | some bundleIndex => rfl
      | none =>
        cases mg with
        | some groupIndex => rfl
        | none => simp at h
  refine ⟨fun _ => rfl, fun bundleIndex bundle part hbundle hpart => ?_, fun _ => rfl, rfl,
    fun h otherColumn => hind _ _ _ _ _ _ _ _ _ _ h, ?_, ?_⟩
  · simp only [BuildNodeSplitFunctionEncoded, hbundle, hpart]
  · intro htype hcol hset otherColumn
    have hne : ¬ node.Split.SplitType = ESplitType.OnlineCtr := by
      rcases htype with h | h <;> rw [h] <;> decide
    obtain ⟨c, hc⟩ := Option.isSome_iff_exists.1 hcol
    simp only [BuildNodeSplitFunction, hne, if_false, htype, if_true, hc]
    exact hind _ _ _ _ _ _ _ _ _ _ hset
  · intro htype hcol hset otherColumn
    have hne : ¬ node.Split.SplitType = ESplitType.OnlineCtr := by
      rw [htype]; decide
    have hnf : ¬ (node.Split.SplitType = ESplitType.FloatFeature ∨
        node.Split.SplitType = ESplitType.EstimatedFeature) := by
      rw [htype]; decide
    obtain ⟨c, hc⟩ := Option.isSome_iff_exists.1 hcol
    simp only [BuildNodeSplitFunction, hne, if_false, hnf, hc]
    exact hind _ _ _ _ _ _ _ _ _ _ hset

/-- An instance of C19, over columns that hold the words `0b0101_0011` and `0b0000_0100`
and an own column that cannot be decoded: with the three descriptors set the float
predicate with border 0 is bit 2 of the pack word; with the bundle and the group set the
predicate with border 4 compares the slice `[4, 7)` of the bundle word; with the group
alone it compares the group word; with none it fails on the own column. -/
theorem encoding_dispatch_precedence_witness :
    PredicateAt (BuildNodeSplitFunction sliceDecoders (exampleFloatNodeAt 0)
      (exampleEncodedProvider (some { BundleIdx := 0, InBundleIdx := 1 })
        (some { PackIdx := 0, BitIdx := 2 }) (some { GroupIdx := 0, InGroupIdx := 0 })
        (.OtherHolder (fun _ => 0))) none 0) 1 = some true ∧
    PredicateAt (BuildNodeSplitFunction sliceDecoders (exampleFloatNodeAt 0)
      (exampleEncodedProvider (some { BundleIdx := 0, InBundleIdx := 1 })
        (some { PackIdx := 0, BitIdx := 2 }) (some { GroupIdx := 0, InGroupIdx := 0 })
        (.OtherHolder (fun _ => 0))) none 0) 0 = some false ∧
    PredicateAt (BuildNodeSplitFunction sliceDecoders (exampleFloatNodeAt 4)
      (exampleEncodedProvider (some { BundleIdx := 0, InBundleIdx := 1 }) none
        (some { GroupIdx := 0, InGroupIdx := 0 }) (.OtherHolder (fun _ => 0))) none 0) 0
      = some true ∧
    PredicateAt (BuildNodeSplitFunction sliceDecoders (exampleFloatNodeAt 4)
      (exampleEncodedProvider (some { BundleIdx := 0, InBundleIdx := 1 }) none
        (some { GroupIdx := 0, InGroupIdx := 0 }) (.OtherHolder (fun _ => 0))) none 0) 1
      = some false ∧
    PredicateAt (BuildNodeSplitFunction sliceDecoders (exampleFloatNodeAt 4)
      (exampleEncodedProvider none none (some { GroupIdx := 0, InGroupIdx := 0 })
        (.OtherHolder (fun _ => 0))) none 0) 0 = some true ∧
    BuildError (BuildNodeSplitFunction sliceDecoders (exampleFloatNodeAt 4)
      (exampleEncodedProvider none none none (.OtherHolder (fun _ => 0))) none 0)
      = some TError.UnsupportedEncoding ∧
    BuildNodeSplitFunction sliceDecoders (exampleFloatNodeAt 0)
      { exampleEncodedProvider (some { BundleIdx := 0, InBundleIdx := 1 })
          (some { PackIdx := 0, BitIdx := 2 }) (some { GroupIdx := 0, InGroupIdx := 0 })
          (.OtherHolder (fun _ => 0)) with GetFloatFeature := fun _ => some (exampleColumn 8 [9]) }
      none 0 =
    BuildNodeSplitFunction sliceDecoders (exampleFloatNodeAt 0)
      (exampleEncodedProvider (some { BundleIdx := 0, InBundleIdx := 1 })
        (some { PackIdx := 0, BitIdx := 2 }) (some { GroupIdx := 0, InGroupIdx := 0 })
        (.OtherHolder (fun _ => 0))) none 0 :=
  ⟨by decide, by decide, by decide, by decide, by decide, by decide,
    (encoding_dispatch_precedence sliceDecoders none none none [] (exampleColumn 8 [])
      (fun _ => exampleColumn 8 []) (fun _ => exampleColumn 8 []) (fun _ => exampleColumn 8 [])
      (fun _ => true) (exampleFloatNodeAt 0)
      (exampleEncodedProvider (some { BundleIdx := 0, InBundleIdx := 1 })
        (some { PackIdx := 0, BitIdx := 2 }) (some { GroupIdx := 0, InGroupIdx := 0 })
        (.OtherHolder (fun _ => 0))) none 0).2.2.2.2.2.1 (Or.inl rfl) rfl (Or.inl rfl)
      (exampleColumn 8 [9])⟩

end NCB
